import Mathlib

/-!
# Verification of an Algorithm X exact-cover Sudoku solver

This file gives a shallow embedding of `sudoku_para.py`, the single source
file of the repository.  Grids are `List (List Nat)` (0 denotes an empty
cell), the cover matrix is a `List (List Nat)` of 0/1 rows, active rows and
columns are `List Nat`, and the recursive search `solve` is embedded as a
fuel-indexed function `solveFuel` (the fuel argument is a modelling device;
the theorem for the termination claim shows that `4·g² + 1` units of fuel,
the amount supplied by `solveSudoku`, always suffice).

Python-specific notes on the translation:
* `solve` has no `return` after its candidate loop; Python returns `None`,
  which the callers treat as falsy, so the embedding returns `false` there.
* NumPy's `np.setdiff1d(a, b)` returns the sorted unique values of `a` not
  occurring in `b`; `setdiff1d` below reproduces that.
* `cp.argmin` returns the first index attaining the minimum; `argminIdx`
  below reproduces that.
* `deselect` mutates the caller's (already shrunken) lists by appending the
  removed elements; the loop `tryLoop` threads those appended lists exactly.
* Wall-clock timing (`timer()`) is not representable and is omitted from
  `solveSudoku`, which returns the completed-grid and solution-path
  components of the Python triple.
-/

/-- Read a grid cell: `sudoku[r][c]`, with 0 outside the grid. -/
def gget (g : List (List Nat)) (r c : Nat) : Nat :=
  (g.getD r []).getD c 0

/-- Write a grid cell: `g[r][c] = v` (a no-op outside the grid, which the
program never does on the grids it builds). -/
def gridSet (g : List (List Nat)) (r c v : Nat) : List (List Nat) :=
  g.set r ((g.getD r []).set c v)

/-- `np.zeros_like(sudoku)`: a grid of the same shape holding zeros. -/
def zerosLike (g : List (List Nat)) : List (List Nat) :=
  g.map (fun row => row.map (fun _ => 0))

/-- Read a cover-matrix entry, 0 outside the matrix. -/
def coverGet (cover : List (List Nat)) (r c : Nat) : Nat :=
  (cover.getD r []).getD c 0

/-- The block index computed in `add_possibility`:
`(row // block_width) * grid_width // block_width + (col // block_width)`
(note the Python operator precedence: the division by `block_width` applies
to the whole product `(row // block_width) * grid_width`). -/
def blockIdx (row col grid_width block_width : Nat) : Nat :=
  row / block_width * grid_width / block_width + col / block_width

/-- The four constraint-column indices that `add_possibility` sets to 1 for
possibility `(row, col, n)`. -/
def possCols (p : Nat × Nat × Nat) (grid_width block_width : Nat) : List Nat :=
  [p.1 * grid_width + p.2.1,
   grid_width * grid_width + p.1 * grid_width + p.2.2 - 1,
   2 * grid_width * grid_width + p.2.1 * grid_width + p.2.2 - 1,
   3 * grid_width * grid_width + blockIdx p.1 p.2.1 grid_width block_width * grid_width + p.2.2 - 1]

/-- The cover-matrix row produced by `add_possibility`: the row starts as
zeros (`np.zeros`) and the four constraint columns of the possibility are
set to 1.  Each row of `cover` is written by exactly one `add_possibility`
call, so the row is the indicator of its four columns. -/
def possRow (p : Nat × Nat × Nat) (nCols grid_width block_width : Nat) : List Nat :=
  (List.range nCols).map (fun c => if c ∈ possCols p grid_width block_width then 1 else 0)

/-- The possibility table built by the two nested loops of `create_cover`:
row-major cell order; a filled cell contributes its single existing digit,
an empty cell contributes digits `1..grid_width` in ascending order. -/
def possList (sudoku : List (List Nat)) (g_len grid_width : Nat) : List (Nat × Nat × Nat) :=
  (List.range g_len).flatMap (fun row =>
    (List.range g_len).flatMap (fun col =>
      if gget sudoku row col ≠ 0 then [(row, col, gget sudoku row col)]
      else (List.range grid_width).map (fun k => (row, col, k + 1))))

/-- `create_cover(sudoku, grid_width, block_width)`: the cover matrix has
`4 * g_len * g_len` columns where `g_len = sudoku.shape[0]`, and one row per
possibility. -/
def createCover (sudoku : List (List Nat)) (grid_width block_width : Nat) :
    List (List Nat) × List (Nat × Nat × Nat) :=
  let g_len := sudoku.length
  let poss := possList sudoku g_len grid_width
  (poss.map (fun p => possRow p (4 * g_len * g_len) grid_width block_width), poss)

/-- Insert into a sorted duplicate-free list, keeping it sorted and
duplicate-free. -/
def insertS (x : Nat) : List Nat → List Nat
  | [] => [x]
  | y :: ys => if x < y then x :: y :: ys else if x = y then y :: ys else y :: insertS x ys

/-- Sorted unique values of a list (the normal form NumPy set routines
return). -/
def dedupSort (l : List Nat) : List Nat :=
  l.foldr insertS []

/-- `np.setdiff1d(a, b)`: the sorted unique values of `a` that are not in
`b`. -/
def setdiff1d (a b : List Nat) : List Nat :=
  dedupSort (a.filter (fun x => ¬ b.contains x))

/-- `col_counts(cover, active_rows)` at column `c`: the sum over the active
rows of the 0/1 entries in column `c`. -/
def colCounts (cover : List (List Nat)) (activeRows : List Nat) (c : Nat) : Nat :=
  (activeRows.map (fun r => coverGet cover r c)).sum

/-- Index of the first minimum of a list (`cp.argmin`). -/
def argminIdx : List Nat → Nat
  | [] => 0
  | [_] => 0
  | x :: y :: ys =>
    let j := argminIdx (y :: ys)
    if x ≤ (y :: ys).getD j 0 then 0 else j + 1

/-- `min_col(cover, active_rows, active_cols)`: the active column whose
count of 1s among the active rows is least (first minimum in the order of
`active_cols`), together with that count. -/
def minCol (cover : List (List Nat)) (activeRows activeCols : List Nat) : Nat × Nat :=
  let argmin := activeCols.getD (argminIdx (activeCols.map (colCounts cover activeRows))) 0
  (argmin, colCounts cover activeRows argmin)

/-- `select(row, cover, active_rows, active_cols)`: the active columns in
which `row` has a nonzero entry, and the active rows having a nonzero entry
in at least one of those columns (both in the order of the given lists,
matching the NumPy fancy-indexing result). -/
def selectF (row : Nat) (cover : List (List Nat)) (activeRows activeCols : List Nat) :
    List Nat × List Nat :=
  let columnsToRemove := activeCols.filter (fun c => coverGet cover row c != 0)
  let rowsToRemove :=
    activeRows.filter (fun r => columnsToRemove.any (fun c => coverGet cover r c != 0))
  (rowsToRemove, columnsToRemove)

/-- `deselect(removed_rows, removed_cols, active_rows, active_cols)`:
appends the removed elements back onto the caller's lists. -/
def deselectF (removedRows removedCols activeRows activeCols : List Nat) :
    List Nat × List Nat :=
  (activeRows ++ removedRows, activeCols ++ removedCols)

/-- The `for row in candidate_rows` loop of `solve`.  `recur` is the
recursive call (the solver one fuel step down); `cAR`/`cAC` are the
caller's current active lists, which `deselect` mutates between
iterations.  Events are `(1, row)` for select and `(0, row)` for
deselect, as in the source. -/
def tryLoop (cover : List (List Nat))
    (recur : List Nat → List Nat → List Nat → List (Nat × Nat) →
      Option (Bool × List Nat × List (Nat × Nat))) :
    List Nat → List Nat → List Nat → List Nat → List (Nat × Nat) →
      Option (Bool × List Nat × List (Nat × Nat))
  | [], _, _, sol, path => some (false, sol, path)
  | r :: rs, cAR, cAC, sol, path =>
    let sc := selectF r cover cAR cAC
    let aR1 := setdiff1d cAR sc.1
    let aC1 := setdiff1d cAC sc.2
    match recur aR1 aC1 (sol ++ [r]) (path ++ [(1, r)]) with
    | none => none
    | some (true, sol2, path2) => some (true, sol2, path2)
    | some (false, sol2, path2) =>
      let ds := deselectF sc.1 sc.2 aR1 aC1
      tryLoop cover recur rs ds.1 ds.2 sol2.dropLast (path2 ++ [(0, r)])

/-- `solve(cover_gpu, cover_cpu, active_rows, active_cols, solution,
solution_path)`, with an explicit fuel argument bounding the recursion
depth (shown sufficient separately).  Returns the flag together with the
final contents of the shared `solution` and `solution_path` lists. -/
def solveFuel (cover : List (List Nat)) :
    Nat → List Nat → List Nat → List Nat → List (Nat × Nat) →
      Option (Bool × List Nat × List (Nat × Nat))
  | 0, _, _, _, _ => none
  | f + 1, activeRows, activeCols, solution, solutionPath =>
    if activeCols.isEmpty then some (true, solution, solutionPath)
    else
      let mc := minCol cover activeRows activeCols
      if mc.2 = 0 then some (false, solution, solutionPath)
      else
        let cands := activeRows.filter (fun r => coverGet cover r mc.1 != 0)
        tryLoop cover (fun a b c d => solveFuel cover f a b c d)
          cands activeRows activeCols solution solutionPath

/-- `build_solving_path(possibilities, solution_path)`. -/
def buildSolvingPath (poss : List (Nat × Nat × Nat)) (path : List (Nat × Nat)) :
    List (String × Nat × Nat × Nat) :=
  path.map (fun e =>
    let p := poss.getD e.2 (0, 0, 0)
    if e.1 = 1 then ("ins", p.1, p.2.1, p.2.2) else ("rem", p.1, p.2.1, p.2.2))

/-- `build_final_sudoku(possibilities, solution, sudoku)`: write each
selected possibility into a fresh zero grid of the input's shape. -/
def buildFinalSudoku (poss : List (Nat × Nat × Nat)) (solution : List Nat)
    (sudoku : List (List Nat)) : List (List Nat) :=
  solution.foldl (fun final s =>
    let p := poss.getD s (0, 0, 0)
    gridSet final p.1 p.2.1 p.2.2) (zerosLike sudoku)

/-- The fuel budget `solveSudoku` hands to `solveFuel`: one more than the
number of constraint columns (the termination theorem shows every branch of
the recursion shrinks the active-column set, so this always suffices). -/
def fuelFor (sudoku : List (List Nat)) : Nat :=
  4 * sudoku.length * sudoku.length + 1

/-- `solve_sudoku(sudoku, grid_width, block_width)` without the wall-clock
component: the completed grid (or `none`) and the solution path (or
`none`). -/
def solveSudoku (sudoku : List (List Nat)) (grid_width block_width : Nat) :
    Option (List (List Nat)) × Option (List (String × Nat × Nat × Nat)) :=
  let cp := createCover sudoku grid_width block_width
  match solveFuel cp.1 (fuelFor sudoku)
      (List.range cp.1.length) (List.range (4 * sudoku.length * sudoku.length)) [] [] with
  | some (true, sol, path) =>
    (some (buildFinalSudoku cp.2 sol sudoku), some (buildSolvingPath cp.2 path))
  | _ => (none, none)
/-- Two lists holding the same set of values (the Python code only ever
consumes the active lists through membership-determined operations, so the
deselect-restored lists are interchangeable with the originals). -/
def SameSet (l1 l2 : List Nat) : Prop :=
  ∀ x, x ∈ l1 ↔ x ∈ l2

/-- Cover matrices whose entries are all 0 or 1 (true of every matrix
`create_cover` builds). -/
def Entries01 (cover : List (List Nat)) : Prop :=
  ∀ r c, coverGet cover r c = 0 ∨ coverGet cover r c = 1

/-- Spec-side block index, following the specification text
`block_index = (row div block_width)*(grid_width div block_width) + (col div block_width)`
(the source computes `(row // bw) * gw // bw + col // bw`; the two agree
whenever `block_width` divides `grid_width`). -/
def specBlockIndex (row col grid_width block_width : Nat) : Nat :=
  (row / block_width) * (grid_width / block_width) + (col / block_width)

/-- Spec-side list of the four constraint columns of a possibility, with
the spec's block-index formula. -/
def specPossCols (p : Nat × Nat × Nat) (grid_width block_width : Nat) : List Nat :=
  [p.1 * grid_width + p.2.1,
   grid_width * grid_width + p.1 * grid_width + p.2.2 - 1,
   2 * grid_width * grid_width + p.2.1 * grid_width + p.2.2 - 1,
   3 * grid_width * grid_width +
     specBlockIndex p.1 p.2.1 grid_width block_width * grid_width + p.2.2 - 1]

/-- Spec-side possibility table, following the specification text: cells in
row-major order over a `grid_width × grid_width` grid, one possibility (the
existing digit) per filled cell, digits `1..grid_width` in ascending order
per empty cell. -/
def specPossTable (sudoku : List (List Nat)) (grid_width : Nat) : List (Nat × Nat × Nat) :=
  (List.range grid_width).flatMap (fun row =>
    (List.range grid_width).flatMap (fun col =>
      if gget sudoku row col ≠ 0 then [(row, col, gget sudoku row col)]
      else (List.range grid_width).map (fun k => (row, col, k + 1))))

/-- Well-formed `grid_width × grid_width` grid whose cells hold values in
`[0, grid_width]` (the data-model precondition of the spec). -/
def GridWF (sudoku : List (List Nat)) (grid_width : Nat) : Prop :=
  sudoku.length = grid_width ∧ (∀ row ∈ sudoku, row.length = grid_width) ∧
    ∀ r c, gget sudoku r c ≤ grid_width

/-- One replay step of the action log, as performed by the repository's
driver loop: an `"ins"` action writes its digit, anything else (a `"rem"`
action) writes 0. -/
def applyAction (g : List (List Nat)) (a : String × Nat × Nat × Nat) : List (List Nat) :=
  if a.1 = "ins" then gridSet g a.2.1 a.2.2.1 a.2.2.2 else gridSet g a.2.1 a.2.2.1 0

/-- Replaying a solution path in order against a grid. -/
def replayPath (g : List (List Nat)) (p : List (String × Nat × Nat × Nat)) :
    List (List Nat) :=
  p.foldl applyAction g

/-- Modelled from the spec: the inverse of one action ("inverting each ins
to a removal and each rem to an insertion"), used only to state the claimed
round-trip property; the repository has no unwinding code. -/
def invAction (g : List (List Nat)) (a : String × Nat × Nat × Nat) : List (List Nat) :=
  if a.1 = "ins" then gridSet g a.2.1 a.2.2.1 0 else gridSet g a.2.1 a.2.2.1 a.2.2.2

/-- Modelled from the spec: unwinding a solution path, i.e. applying the
inverted actions in reverse order. -/
def unwindPath (g : List (List Nat)) (p : List (String × Nat × Nat × Nat)) :
    List (List Nat) :=
  p.reverse.foldl invAction g

/-- Number of occurrences of digit `d` in row `r` of the grid. -/
def rowDigitCount (g : List (List Nat)) (grid_width r d : Nat) : Nat :=
  ((List.range grid_width).filter (fun c => gget g r c = d)).length

/-- Number of occurrences of digit `d` in column `c` of the grid. -/
def colDigitCount (g : List (List Nat)) (grid_width c d : Nat) : Nat :=
  ((List.range grid_width).filter (fun r => gget g r c = d)).length

/-- All cells of a `grid_width × grid_width` grid, row-major. -/
def allCells (grid_width : Nat) : List (Nat × Nat) :=
  (List.range grid_width).flatMap (fun r => (List.range grid_width).map (fun c => (r, c)))

/-- Number of occurrences of digit `d` in block `b` of the grid (blocks
indexed as in `add_possibility`). -/
def blockDigitCount (g : List (List Nat)) (grid_width block_width b d : Nat) : Nat :=
  ((allCells grid_width).filter
    (fun rc => blockIdx rc.1 rc.2 grid_width block_width = b ∧ gget g rc.1 rc.2 = d)).length

/-- A fully solved grid: every row, column and block holds each digit
`1..grid_width` exactly once. -/
def ValidSolved (g : List (List Nat)) (grid_width block_width : Nat) : Prop :=
  (∀ r < grid_width, ∀ d, 1 ≤ d → d ≤ grid_width → rowDigitCount g grid_width r d = 1) ∧
  (∀ c < grid_width, ∀ d, 1 ≤ d → d ≤ grid_width → colDigitCount g grid_width c d = 1) ∧
  (∀ b < grid_width, ∀ d, 1 ≤ d → d ≤ grid_width →
    blockDigitCount g grid_width block_width b d = 1)

/-- A valid completion of an input grid: a well-formed solved grid agreeing
with the input on its filled cells. -/
def ValidCompletion (sudoku g : List (List Nat)) (grid_width block_width : Nat) : Prop :=
  GridWF g grid_width ∧ ValidSolved g grid_width block_width ∧
    ∀ r c, gget sudoku r c ≠ 0 → gget g r c = gget sudoku r c

/-- The call tree of `solve`: `top` is the call made by `solve_sudoku` (on
full index ranges), and `step` covers every recursive call made from the
candidate loop — the loop re-selects from its current (deselect-restored)
lists `cAR`/`cAC`, which hold the same sets as the lists the frame was
called with, and passes `np.setdiff1d` results down. -/
inductive SolveCall (cover : List (List Nat)) (nR nC : Nat) : List Nat → List Nat → Prop where
  | top : SolveCall cover nR nC (List.range nR) (List.range nC)
  | step (aR aC cAR cAC : List Nat) (r : Nat) :
      SolveCall cover nR nC aR aC → SameSet cAR aR → SameSet cAC aC →
      SolveCall cover nR nC
        (setdiff1d cAR (selectF r cover cAR cAC).1)
        (setdiff1d cAC (selectF r cover cAR cAC).2)

/-- `solve_sudoku` with the mutable store of the caller's `sudoku` array
threaded explicitly: the second component is the array after the call.
Every NumPy store in the source writes to `cover` (in `add_possibility`) or
to `final` (in `build_final_sudoku`), never to `sudoku`, so the store is
returned as received. -/
def solveSudokuTracked (sudoku : List (List Nat)) (grid_width block_width : Nat) :
    (Option (List (List Nat)) × Option (List (String × Nat × Nat × Nat))) ×
      List (List Nat) :=
  (solveSudoku sudoku grid_width block_width, sudoku)

/-- Bounds context for a possibility of a well-formed puzzle. -/
def PossBounds (p : Nat × Nat × Nat) (grid_width : Nat) : Prop :=
  p.1 < grid_width ∧ p.2.1 < grid_width ∧ 1 ≤ p.2.2 ∧ p.2.2 ≤ grid_width

/-- The action that `build_solving_path` produces for one raw solver event
`(1, i)` (select) or `(0, i)` (deselect). -/
def eventAction (poss : List (Nat × Nat × Nat)) (e : Nat × Nat) : String × Nat × Nat × Nat :=
  let p := poss.getD e.2 (0, 0, 0)
  if e.1 = 1 then ("ins", p.1, p.2.1, p.2.2) else ("rem", p.1, p.2.1, p.2.2)

/-- Replaying one raw solver event: the driver loop's effect of the
corresponding action. -/
def applyEvent (poss : List (Nat × Nat × Nat)) (g : List (List Nat)) (e : Nat × Nat) :
    List (List Nat) :=
  applyAction g (eventAction poss e)

/-- Unwinding one raw solver event (the inverse action of the claim). -/
def unwindEvent (poss : List (Nat × Nat × Nat)) (g : List (List Nat)) (e : Nat × Nat) :
    List (List Nat) :=
  invAction g (eventAction poss e)

/-- The grid cell a raw solver event touches. -/
def EventCell (poss : List (Nat × Nat × Nat)) (e : Nat × Nat) : Nat × Nat :=
  ((poss.getD e.2 (0, 0, 0)).1, (poss.getD e.2 (0, 0, 0)).2.1)

/-- Replaying the event segment `pd` sets every touched cell to 0 and
leaves every other cell unchanged (the net effect of a fully backtracked
search segment). -/
def ReplayClears (poss : List (Nat × Nat × Nat)) (gw : Nat) (pd : List (Nat × Nat)) : Prop :=
  ∀ g, g.length = gw → (∀ row ∈ g, row.length = gw) →
    (∀ r c, (∃ e ∈ pd, EventCell poss e = (r, c)) →
      gget (pd.foldl (applyEvent poss) g) r c = 0) ∧
    (∀ r c, (¬∃ e ∈ pd, EventCell poss e = (r, c)) →
      gget (pd.foldl (applyEvent poss) g) r c = gget g r c)

/-- Unwinding the event segment `pd` (inverted actions in reverse order)
sets every touched cell to 0 and leaves every other cell unchanged. -/
def UnwindClears (poss : List (Nat × Nat × Nat)) (gw : Nat) (pd : List (Nat × Nat)) : Prop :=
  ∀ g, g.length = gw → (∀ row ∈ g, row.length = gw) →
    (∀ r c, (∃ e ∈ pd, EventCell poss e = (r, c)) →
      gget (pd.reverse.foldl (unwindEvent poss) g) r c = 0) ∧
    (∀ r c, (¬∃ e ∈ pd, EventCell poss e = (r, c)) →
      gget (pd.reverse.foldl (unwindEvent poss) g) r c = gget g r c)

/-- Replaying the event segment `pd` of a successful search whose final
selections are `D`: cells of final selections end at their digits, other
touched cells end at 0, untouched cells keep their value. -/
def ReplayWrites (poss : List (Nat × Nat × Nat)) (gw : Nat) (pd : List (Nat × Nat))
    (D : List Nat) : Prop :=
  ∀ g, g.length = gw → (∀ row ∈ g, row.length = gw) →
    (∀ i ∈ D, gget (pd.foldl (applyEvent poss) g) (poss.getD i (0, 0, 0)).1
      (poss.getD i (0, 0, 0)).2.1 = (poss.getD i (0, 0, 0)).2.2) ∧
    (∀ r c, (∃ e ∈ pd, EventCell poss e = (r, c)) →
      (¬∃ i ∈ D, (poss.getD i (0, 0, 0)).1 = r ∧ (poss.getD i (0, 0, 0)).2.1 = c) →
      gget (pd.foldl (applyEvent poss) g) r c = 0) ∧
    (∀ r c, (¬∃ e ∈ pd, EventCell poss e = (r, c)) →
      gget (pd.foldl (applyEvent poss) g) r c = gget g r c)

/-! ### Lemmas about `setdiff1d` -/

theorem mem_insertS {x y : Nat} {l : List Nat} : y ∈ insertS x l ↔ y = x ∨ y ∈ l := by
  induction l with
  | nil => simp [insertS]
  | cons a as ih =>
    simp only [insertS]
    split
    · simp
    · split
      · subst a
        simp [or_comm]
      · simp only [List.mem_cons, ih]
        tauto

theorem head?_insertS {x : Nat} {l : List Nat} {y : Nat} (h : (insertS x l).head? = some y) :
    y = x ∨ l.head? = some y := by
  cases l with
  | nil => simp [insertS] at h; simp [h]
  | cons a as =>
    simp only [insertS] at h
    split at h
    · simp at h; simp [h]
    · split at h
      · simp at h; simp [h]
      · simp at h; simp [h]

theorem chain'_insertS {x : Nat} {l : List Nat} (h : List.Chain' (· < ·) l) :
    List.Chain' (· < ·) (insertS x l) := by
  induction l with
  | nil => simp [insertS]
  | cons a as ih =>
    simp only [insertS]
    split
    · exact List.Chain'.cons (by omega) h
    · split
      · exact h
      · rename_i h1 h2
        have hch := ih (List.Chain'.tail h)
        apply List.chain'_cons'.2
        refine ⟨?_, hch⟩
        intro y hy
        rcases head?_insertS hy with rfl | hy2
        · omega
        · rcases List.chain'_cons'.1 h with ⟨hhd, _⟩
          exact hhd y hy2

theorem chain'_dedupSort (l : List Nat) : List.Chain' (· < ·) (dedupSort l) := by
  induction l with
  | nil => simp [dedupSort]
  | cons a as ih => exact chain'_insertS ih

theorem mem_dedupSort {x : Nat} {l : List Nat} : x ∈ dedupSort l ↔ x ∈ l := by
  induction l with
  | nil => simp [dedupSort]
  | cons a as ih =>
    simp only [dedupSort, List.foldr_cons, mem_insertS]
    simp [dedupSort] at ih
    simp [ih]

theorem mem_setdiff1d {x : Nat} {a b : List Nat} :
    x ∈ setdiff1d a b ↔ x ∈ a ∧ x ∉ b := by
  simp [setdiff1d, mem_dedupSort, List.mem_filter]

theorem chain'_setdiff1d (a b : List Nat) : List.Chain' (· < ·) (setdiff1d a b) :=
  chain'_dedupSort _

theorem nodup_of_chain' {l : List Nat} (h : List.Chain' (· < ·) l) : l.Nodup :=
  (List.chain'_iff_pairwise.1 h).nodup

theorem nodup_setdiff1d (a b : List Nat) : (setdiff1d a b).Nodup :=
  nodup_of_chain' (chain'_setdiff1d a b)
/-! ### Lemmas about `argminIdx` and `minCol` -/

theorem argminIdx_lt_length {l : List Nat} (h : l ≠ []) : argminIdx l < l.length := by
  induction l with
  | nil => simp at h
  | cons a as ih =>
    cases as with
    | nil => simp [argminIdx]
    | cons b bs =>
      simp only [argminIdx]
      split
      · simp
      · have := ih (by simp)
        simpa using Nat.succ_lt_succ this

theorem argminIdx_le {l : List Nat} :
    ∀ i < l.length, l.getD (argminIdx l) 0 ≤ l.getD i 0 := by
  induction l with
  | nil => simp
  | cons a as ih =>
    cases as with
    | nil =>
      intro i hi
      simp at hi
      subst hi
      simp [argminIdx]
    | cons b bs =>
      intro i hi
      simp only [argminIdx]
      split
      · rename_i hle
        cases i with
        | zero => simp
        | succ j =>
          simp only [List.getD_cons_succ, List.getD_cons_zero]
          exact le_trans hle (ih j (by simpa using hi))
      · rename_i hgt
        push_neg at hgt
        cases i with
        | zero =>
          simp only [List.getD_cons_succ, List.getD_cons_zero]
          omega
        | succ j =>
          simp only [List.getD_cons_succ]
          exact ih j (by simpa using hi)

theorem argminIdx_first {l : List Nat} :
    ∀ i < argminIdx l, l.getD (argminIdx l) 0 < l.getD i 0 := by
  induction l with
  | nil => simp [argminIdx]
  | cons a as ih =>
    cases as with
    | nil => simp [argminIdx]
    | cons b bs =>
      intro i hi
      simp only [argminIdx] at hi ⊢
      split
      · rename_i hle
        rw [if_pos hle] at hi
        omega
      · rename_i hgt
        rw [if_neg hgt] at hi
        push_neg at hgt
        cases i with
        | zero =>
          simp only [List.getD_cons_succ, List.getD_cons_zero]
          omega
        | succ j =>
          simp only [List.getD_cons_succ]
          exact ih j (by omega)

theorem getD_mem {l : List Nat} {i : Nat} (h : i < l.length) : l.getD i 0 ∈ l := by
  rw [List.getD_eq_getElem l 0 h]
  exact List.getElem_mem h

theorem getD_map_colCounts (cover : List (List Nat)) (aR : List Nat) {aC : List Nat}
    {i : Nat} (h : i < aC.length) :
    (aC.map (colCounts cover aR)).getD i 0 = colCounts cover aR (aC.getD i 0) := by
  rw [List.getD_eq_getElem _ 0 (by simpa using h), List.getD_eq_getElem _ 0 h]
  simp

theorem minCol_mem {cover : List (List Nat)} {aR aC : List Nat} (h : aC ≠ []) :
    (minCol cover aR aC).1 ∈ aC := by
  have hlen : argminIdx (aC.map (colCounts cover aR)) < aC.length := by
    have := argminIdx_lt_length (l := aC.map (colCounts cover aR)) (by simpa using h)
    simpa using this
  exact getD_mem hlen

theorem minCol_count (cover : List (List Nat)) (aR aC : List Nat) :
    (minCol cover aR aC).2 = colCounts cover aR (minCol cover aR aC).1 := rfl

theorem minCol_min {cover : List (List Nat)} {aR aC : List Nat} (h : aC ≠ []) :
    ∀ c ∈ aC, (minCol cover aR aC).2 ≤ colCounts cover aR c := by
  intro c hc
  obtain ⟨i, hi, rfl⟩ := List.mem_iff_getElem.1 hc
  have hargl : argminIdx (aC.map (colCounts cover aR)) < aC.length := by
    have := argminIdx_lt_length (l := aC.map (colCounts cover aR)) (by simpa using h)
    simpa using this
  have hle := argminIdx_le (l := aC.map (colCounts cover aR)) i (by simpa using hi)
  rw [getD_map_colCounts cover aR hargl, getD_map_colCounts cover aR hi] at hle
  rw [List.getD_eq_getElem _ 0 hi] at hle
  simpa [minCol] using hle

theorem minCol_tiebreak {cover : List (List Nat)} {aR aC : List Nat}
    (hs : List.Chain' (· < ·) aC) (h : aC ≠ []) :
    ∀ c ∈ aC, colCounts cover aR c = (minCol cover aR aC).2 → (minCol cover aR aC).1 ≤ c := by
  intro c hc heq
  obtain ⟨i, hi, rfl⟩ := List.mem_iff_getElem.1 hc
  set j := argminIdx (aC.map (colCounts cover aR)) with hj
  have hjl : j < aC.length := by
    have := argminIdx_lt_length (l := aC.map (colCounts cover aR)) (by simpa using h)
    simpa using this
  have hpw := List.chain'_iff_pairwise.1 hs
  rw [List.pairwise_iff_getElem] at hpw
  by_cases hij : j ≤ i
  · rcases Nat.lt_or_ge j i with hlt | hge
    · have := hpw j i hjl hi hlt
      have hgd : (minCol cover aR aC).1 = aC.getD j 0 := rfl
      rw [hgd, List.getD_eq_getElem _ 0 hjl]
      omega
    · have : i = j := by omega
      subst this
      have hgd : (minCol cover aR aC).1 = aC.getD j 0 := rfl
      rw [hgd, List.getD_eq_getElem _ 0 hjl]
  · push_neg at hij
    exfalso
    have hfirst := argminIdx_first (l := aC.map (colCounts cover aR)) i (by simpa using hij)
    rw [getD_map_colCounts cover aR hjl, getD_map_colCounts cover aR hi] at hfirst
    have h2 : (minCol cover aR aC).2 = colCounts cover aR (aC.getD j 0) := rfl
    rw [List.getD_eq_getElem _ 0 hi] at hfirst
    omega
/-! ### `selectF`, `deselectF`, counting -/

theorem colCounts_eq_filter_length {cover : List (List Nat)} (h01 : Entries01 cover)
    (aR : List Nat) (c : Nat) :
    colCounts cover aR c = (aR.filter (fun r => coverGet cover r c != 0)).length := by
  induction aR with
  | nil => simp [colCounts]
  | cons a as ih =>
    simp only [colCounts, List.map_cons, List.sum_cons] at *
    rcases h01 a c with h | h <;> (simp [List.filter_cons, h, ih]; try omega)

theorem mem_selectF_cols {row : Nat} {cover : List (List Nat)} {aR aC : List Nat} {c : Nat} :
    c ∈ (selectF row cover aR aC).2 ↔ c ∈ aC ∧ coverGet cover row c ≠ 0 := by
  simp [selectF, List.mem_filter]

theorem mem_selectF_rows {row : Nat} {cover : List (List Nat)} {aR aC : List Nat} {r : Nat} :
    r ∈ (selectF row cover aR aC).1 ↔
      r ∈ aR ∧ ∃ c ∈ aC, coverGet cover row c ≠ 0 ∧ coverGet cover r c ≠ 0 := by
  simp only [selectF, List.mem_filter, List.any_eq_true, bne_iff_ne, ne_eq]
  tauto

/-- Removing the selected rows/columns and then deselecting restores the
active sets exactly, as sets. -/
theorem deselect_restores {row : Nat} {cover : List (List Nat)} {aR aC : List Nat} :
    SameSet ((deselectF (selectF row cover aR aC).1 (selectF row cover aR aC).2
        (setdiff1d aR (selectF row cover aR aC).1)
        (setdiff1d aC (selectF row cover aR aC).2)).1) aR ∧
    SameSet ((deselectF (selectF row cover aR aC).1 (selectF row cover aR aC).2
        (setdiff1d aR (selectF row cover aR aC).1)
        (setdiff1d aC (selectF row cover aR aC).2)).2) aC := by
  constructor <;> intro x
  · simp only [deselectF, List.mem_append, mem_setdiff1d]
    constructor
    · rintro (⟨hx, _⟩ | hx)
      · exact hx
      · exact (mem_selectF_rows.1 hx).1
    · intro hx
      by_cases hr : x ∈ (selectF row cover aR aC).1
      · exact Or.inr hr
      · exact Or.inl ⟨hx, hr⟩
  · simp only [deselectF, List.mem_append, mem_setdiff1d]
    constructor
    · rintro (⟨hx, _⟩ | hx)
      · exact hx
      · exact (mem_selectF_cols.1 hx).1
    · intro hx
      by_cases hc : x ∈ (selectF row cover aR aC).2
      · exact Or.inr hc
      · exact Or.inl ⟨hx, hc⟩
/-! ### Structure of the cover matrix built by `create_cover` -/

theorem getD_mem_of_lt {α : Type} {l : List α} {i : Nat} (d : α) (h : i < l.length) :
    l.getD i d ∈ l := by
  rw [List.getD_eq_getElem l d h]
  exact List.getElem_mem h

theorem flatMap_eq_single {α : Type} {g r : Nat} (hr : r < g) (f : Nat → List α)
    (h : ∀ x, x < g → x ≠ r → f x = []) : (List.range g).flatMap f = f r := by
  induction g with
  | zero => omega
  | succ n ih =>
    rw [List.range_succ, List.flatMap_append]
    rcases Nat.lt_or_ge r n with hlt | hge
    · rw [ih hlt (fun x hx hne => h x (by omega) hne)]
      simp [h n (by omega) (by omega)]
    · have : r = n := by omega
      subst this
      have : (List.range r).flatMap f = [] := by
        apply List.flatMap_eq_nil_iff.2
        intro x hx
        exact h x (by simp at hx; omega) (by simp at hx; omega)
      simp [this]

theorem mem_possList_bounds {sudoku : List (List Nat)} {g_len grid_width : Nat}
    {p : Nat × Nat × Nat} (hp : p ∈ possList sudoku g_len grid_width) :
    p.1 < g_len ∧ p.2.1 < g_len ∧ 1 ≤ p.2.2 ∧
      (gget sudoku p.1 p.2.1 ≠ 0 → p.2.2 = gget sudoku p.1 p.2.1) ∧
      (gget sudoku p.1 p.2.1 = 0 → p.2.2 ≤ grid_width) := by
  simp only [possList, List.mem_flatMap, List.mem_range] at hp
  obtain ⟨row, hrow, col, hcol, hmem⟩ := hp
  by_cases hz : gget sudoku row col ≠ 0
  · rw [if_pos hz] at hmem
    simp at hmem
    subst hmem
    dsimp only
    omega
  · rw [if_neg hz] at hmem
    push_neg at hz
    simp only [List.mem_map, List.mem_range] at hmem
    obtain ⟨k, hk, rfl⟩ := hmem
    dsimp only
    omega

theorem blockIdx_eq_spec {grid_width block_width : Nat}
    (h : block_width * block_width = grid_width) (row col : Nat) :
    blockIdx row col grid_width block_width = specBlockIndex row col grid_width block_width := by
  rcases Nat.eq_zero_or_pos block_width with hb | hb
  · subst hb
    simp [blockIdx, specBlockIndex] at *
  · unfold blockIdx specBlockIndex
    subst h
    rw [Nat.mul_div_assoc _ (Dvd.intro block_width rfl),
      Nat.mul_div_cancel _ hb]

theorem blockIdx_lt {grid_width block_width row col : Nat}
    (h : block_width * block_width = grid_width) (hr : row < grid_width)
    (hc : col < grid_width) : blockIdx row col grid_width block_width < grid_width := by
  have hb : 0 < block_width := by
    rcases Nat.eq_zero_or_pos block_width with hb | hb
    · subst hb; omega
    · exact hb
  unfold blockIdx
  subst h
  rw [Nat.mul_div_assoc _ (Dvd.intro block_width rfl),
    Nat.mul_div_cancel _ hb]
  have h1 : row / block_width ≤ block_width - 1 := by
    apply Nat.le_of_lt_succ
    apply Nat.div_lt_of_lt_mul
    have : block_width * (block_width - 1).succ = block_width * block_width := by
      congr 1
      omega
    omega
  have h2 : col / block_width ≤ block_width - 1 := by
    apply Nat.le_of_lt_succ
    apply Nat.div_lt_of_lt_mul
    have : block_width * (block_width - 1).succ = block_width * block_width := by
      congr 1
      omega
    omega
  have h3 : row / block_width * block_width ≤ (block_width - 1) * block_width :=
    Nat.mul_le_mul_right _ h1
  have h4 : (block_width - 1) * block_width + block_width = block_width * block_width := by
    cases block_width with
    | zero => omega
    | succ m => simp [Nat.succ_sub_one, Nat.succ_mul]
  omega

theorem encode_inj {grid_width a b a1 b1 : Nat} (hb : b < grid_width) (hb1 : b1 < grid_width)
    (h : a * grid_width + b = a1 * grid_width + b1) : a = a1 ∧ b = b1 := by
  have hgw : 0 < grid_width := by omega
  have ha : (a * grid_width + b) / grid_width = a := by
    rw [Nat.mul_comm a, Nat.mul_add_div hgw, Nat.div_eq_of_lt hb]
    omega
  have ha1 : (a1 * grid_width + b1) / grid_width = a1 := by
    rw [Nat.mul_comm a1, Nat.mul_add_div hgw, Nat.div_eq_of_lt hb1]
    omega
  have haa : a = a1 := by rw [← ha, ← ha1, h]
  constructor
  · exact haa
  · subst haa
    omega

theorem encode_lt {grid_width a b : Nat} (ha : a < grid_width) (hb : b < grid_width) :
    a * grid_width + b < grid_width * grid_width := by
  have h1 : a * grid_width ≤ (grid_width - 1) * grid_width :=
    Nat.mul_le_mul_right _ (by omega)
  have h2 : (grid_width - 1) * grid_width + grid_width = grid_width * grid_width := by
    cases grid_width with
    | zero => omega
    | succ m => simp [Nat.succ_sub_one, Nat.succ_mul]
  omega

theorem mem_possCols_cell {p : Nat × Nat × Nat} {grid_width block_width r c : Nat}
    (hp : PossBounds p grid_width)
    (hr : r < grid_width) (hc : c < grid_width) :
    r * grid_width + c ∈ possCols p grid_width block_width ↔ p.1 = r ∧ p.2.1 = c := by
  obtain ⟨h1, h2, h3, h4⟩ := hp
  have e2 : 2 * grid_width * grid_width = grid_width * grid_width + grid_width * grid_width := by
    ring
  have e3 : 3 * grid_width * grid_width =
      2 * grid_width * grid_width + grid_width * grid_width := by
    ring
  have hA : p.1 * grid_width + p.2.1 < grid_width * grid_width := encode_lt h1 h2
  have hx : r * grid_width + c < grid_width * grid_width := encode_lt hr hc
  simp only [possCols, List.mem_cons, List.not_mem_nil, or_false]
  constructor
  · rintro (h | h | h | h)
    · exact ⟨(encode_inj h2 hc h.symm).1, (encode_inj h2 hc h.symm).2⟩
    · omega
    · omega
    · omega
  · rintro ⟨rfl, rfl⟩
    left
    rfl

theorem mem_possCols_rowdigit {p : Nat × Nat × Nat} {grid_width block_width r d : Nat}
    (hp : PossBounds p grid_width)
    (hr : r < grid_width) (hd1 : 1 ≤ d) (hd2 : d ≤ grid_width) :
    grid_width * grid_width + r * grid_width + d - 1 ∈ possCols p grid_width block_width ↔
      p.1 = r ∧ p.2.2 = d := by
  obtain ⟨h1, h2, h3, h4⟩ := hp
  have e2 : 2 * grid_width * grid_width = grid_width * grid_width + grid_width * grid_width := by
    ring
  have e3 : 3 * grid_width * grid_width =
      2 * grid_width * grid_width + grid_width * grid_width := by
    ring
  have hA : p.1 * grid_width + p.2.1 < grid_width * grid_width := encode_lt h1 h2
  have hB : p.1 * grid_width + (p.2.2 - 1) < grid_width * grid_width :=
    encode_lt h1 (by omega)
  have hx : r * grid_width + (d - 1) < grid_width * grid_width := encode_lt hr (by omega)
  simp only [possCols, List.mem_cons, List.not_mem_nil, or_false]
  constructor
  · rintro (h | h | h | h)
    · omega
    · have heq : r * grid_width + (d - 1) = p.1 * grid_width + (p.2.2 - 1) := by omega
      have := encode_inj (by omega) (by omega) heq
      omega
    · omega
    · omega
  · rintro ⟨rfl, rfl⟩
    right; left
    omega

theorem mem_possCols_coldigit {p : Nat × Nat × Nat} {grid_width block_width c d : Nat}
    (hp : PossBounds p grid_width)
    (hc : c < grid_width) (hd1 : 1 ≤ d) (hd2 : d ≤ grid_width) :
    2 * grid_width * grid_width + c * grid_width + d - 1 ∈ possCols p grid_width block_width ↔
      p.2.1 = c ∧ p.2.2 = d := by
  obtain ⟨h1, h2, h3, h4⟩ := hp
  have e2 : 2 * grid_width * grid_width = grid_width * grid_width + grid_width * grid_width := by
    ring
  have e3 : 3 * grid_width * grid_width =
      2 * grid_width * grid_width + grid_width * grid_width := by
    ring
  have hA : p.1 * grid_width + p.2.1 < grid_width * grid_width := encode_lt h1 h2
  have hB : p.1 * grid_width + (p.2.2 - 1) < grid_width * grid_width :=
    encode_lt h1 (by omega)
  have hC : p.2.1 * grid_width + (p.2.2 - 1) < grid_width * grid_width :=
    encode_lt h2 (by omega)
  have hx : c * grid_width + (d - 1) < grid_width * grid_width := encode_lt hc (by omega)
  simp only [possCols, List.mem_cons, List.not_mem_nil, or_false]
  constructor
  · rintro (h | h | h | h)
    · omega
    · omega
    · have heq : c * grid_width + (d - 1) = p.2.1 * grid_width + (p.2.2 - 1) := by omega
      have := encode_inj (by omega) (by omega) heq
      omega
    · omega
  · rintro ⟨rfl, rfl⟩
    right; right; left
    omega

theorem mem_possCols_blockdigit {p : Nat × Nat × Nat} {grid_width block_width b d : Nat}
    (hbw : block_width * block_width = grid_width) (hp : PossBounds p grid_width)
    (hb : b < grid_width) (hd1 : 1 ≤ d) (hd2 : d ≤ grid_width) :
    3 * grid_width * grid_width + b * grid_width + d - 1 ∈ possCols p grid_width block_width ↔
      blockIdx p.1 p.2.1 grid_width block_width = b ∧ p.2.2 = d := by
  obtain ⟨h1, h2, h3, h4⟩ := hp
  have e2 : 2 * grid_width * grid_width = grid_width * grid_width + grid_width * grid_width := by
    ring
  have e3 : 3 * grid_width * grid_width =
      2 * grid_width * grid_width + grid_width * grid_width := by
    ring
  have hA : p.1 * grid_width + p.2.1 < grid_width * grid_width := encode_lt h1 h2
  have hB : p.1 * grid_width + (p.2.2 - 1) < grid_width * grid_width :=
    encode_lt h1 (by omega)
  have hC : p.2.1 * grid_width + (p.2.2 - 1) < grid_width * grid_width :=
    encode_lt h2 (by omega)
  have hblk : blockIdx p.1 p.2.1 grid_width block_width < grid_width := blockIdx_lt hbw h1 h2
  have hD : blockIdx p.1 p.2.1 grid_width block_width * grid_width + (p.2.2 - 1) <
      grid_width * grid_width := encode_lt hblk (by omega)
  have hx : b * grid_width + (d - 1) < grid_width * grid_width := encode_lt hb (by omega)
  simp only [possCols, List.mem_cons, List.not_mem_nil, or_false]
  constructor
  · rintro (h | h | h | h)
    · omega
    · omega
    · omega
    · have heq : b * grid_width + (d - 1) =
          blockIdx p.1 p.2.1 grid_width block_width * grid_width + (p.2.2 - 1) := by omega
      have := encode_inj (by omega) (by omega) heq
      omega
  · rintro ⟨rfl, rfl⟩
    right; right; right
    omega
theorem coverGet_createCover {sudoku : List (List Nat)} {grid_width block_width i c : Nat}
    (hi : i < (possList sudoku sudoku.length grid_width).length) :
    coverGet (createCover sudoku grid_width block_width).1 i c =
      if c < 4 * sudoku.length * sudoku.length ∧
          c ∈ possCols ((possList sudoku sudoku.length grid_width).getD i (0, 0, 0))
            grid_width block_width then 1 else 0 := by
  unfold coverGet createCover
  simp only
  rw [List.getD_eq_getElem _ [] (by simpa using hi), List.getElem_map]
  rw [List.getD_eq_getElem _ (0, 0, 0) hi]
  unfold possRow
  by_cases hc : c < 4 * sudoku.length * sudoku.length
  · rw [List.getD_eq_getElem _ 0 (by simpa using hc), List.getElem_map]
    simp only [List.getElem_range]
    by_cases hmem :
        c ∈ possCols (possList sudoku sudoku.length grid_width)[i] grid_width block_width
    · simp [hmem, hc]
    · simp [hmem, hc]
  · rw [List.getD_eq_default]
    · simp [hc]
    · simpa using hc

theorem coverGet_createCover_ge {sudoku : List (List Nat)} {grid_width block_width i : Nat}
    (c : Nat) (hi : (possList sudoku sudoku.length grid_width).length ≤ i) :
    coverGet (createCover sudoku grid_width block_width).1 i c = 0 := by
  unfold coverGet createCover
  simp only
  have h0 : ((possList sudoku sudoku.length grid_width).map
      (fun p => possRow p (4 * sudoku.length * sudoku.length) grid_width block_width)).getD i []
      = [] := List.getD_eq_default _ _ (by simpa using hi)
  rw [h0]
  simp

theorem entries01_createCover (sudoku : List (List Nat)) (grid_width block_width : Nat) :
    Entries01 (createCover sudoku grid_width block_width).1 := by
  intro r c
  rcases Nat.lt_or_ge r (possList sudoku sudoku.length grid_width).length with h | h
  · rw [coverGet_createCover h]
    split <;> simp
  · rw [coverGet_createCover_ge c h]
    simp
/-! ### `create_cover` against the specification text -/

theorem possList_eq_spec {sudoku : List (List Nat)} {grid_width : Nat}
    (hlen : sudoku.length = grid_width) :
    possList sudoku sudoku.length grid_width = specPossTable sudoku grid_width := by
  subst hlen
  rfl

theorem possCols_eq_spec {p : Nat × Nat × Nat} {grid_width block_width : Nat}
    (hbw : block_width * block_width = grid_width) :
    possCols p grid_width block_width = specPossCols p grid_width block_width := by
  simp [possCols, specPossCols, blockIdx_eq_spec hbw]

theorem filter_flatMap {α β : Type} (l : List α) (f : α → List β) (p : β → Bool) :
    (l.flatMap f).filter p = l.flatMap (fun a => (f a).filter p) := by
  induction l with
  | nil => simp
  | cons a as ih => simp [List.filter_append, ih]

theorem possList_filter_cell {sudoku : List (List Nat)} {g_len grid_width r c : Nat}
    (hr : r < g_len) (hc : c < g_len) :
    (possList sudoku g_len grid_width).filter (fun p => p.1 == r && p.2.1 == c) =
      if gget sudoku r c ≠ 0 then [(r, c, gget sudoku r c)]
      else (List.range grid_width).map (fun k => (r, c, k + 1)) := by
  unfold possList
  rw [filter_flatMap]
  rw [flatMap_eq_single hr]
  · rw [filter_flatMap]
    rw [flatMap_eq_single hc]
    · by_cases hz : gget sudoku r c ≠ 0
      · simp [hz]
      · push_neg at hz
        simp only [hz, ne_eq, not_true_eq_false, if_false, ite_false]
        rw [List.filter_map]
        have : ((fun p => p.1 == r && p.2.1 == c) ∘ fun k => (r, c, k + 1)) = fun _ => true := by
          funext k
          simp
        rw [this, List.filter_true]
    · intro col hcol hne
      by_cases hz : gget sudoku r col ≠ 0
      · simp [hz, List.filter_cons, hne]
      · push_neg at hz
        simp only [hz, ne_eq, not_true_eq_false, if_false, ite_false]
        rw [List.filter_map]
        have : ((fun p => p.1 == r && p.2.1 == c) ∘ fun k => (r, col, k + 1)) =
            fun _ => false := by
          funext k
          simp [hne]
        rw [this, List.filter_false]
        simp
  · intro row hrow hne
    rw [filter_flatMap]
    apply List.flatMap_eq_nil_iff.2
    intro col hcol
    by_cases hz : gget sudoku row col ≠ 0
    · simp [hz, List.filter_cons, hne]
    · push_neg at hz
      simp only [hz, ne_eq, not_true_eq_false, if_false, ite_false]
      rw [List.filter_map]
      have : ((fun p => p.1 == r && p.2.1 == c) ∘ fun k => (row, col, k + 1)) =
          fun _ => false := by
        funext k
        simp [hne]
      rw [this, List.filter_false]
      simp
/-! ### Claim theorems: C2, C3, C4, C9, C10 -/

/-- C2: `create_cover` enumerates possibilities in row-major cell order —
one possibility (the existing digit) per filled cell, `grid_width`
digit-ascending possibilities per empty cell — and each possibility's cover
row is 1 exactly at the four claimed constraint columns (cell, row-digit,
column-digit, block-digit with the claimed block index) and 0 at every
other column. -/
theorem claim_C2_create_cover {sudoku : List (List Nat)} {grid_width block_width : Nat}
    (hbw : block_width * block_width = grid_width) (hlen : sudoku.length = grid_width) :
    (createCover sudoku grid_width block_width).2 = specPossTable sudoku grid_width ∧
    (∀ r < grid_width, ∀ c < grid_width,
      (createCover sudoku grid_width block_width).2.filter
          (fun p => p.1 == r && p.2.1 == c) =
        if gget sudoku r c ≠ 0 then [(r, c, gget sudoku r c)]
        else (List.range grid_width).map (fun k => (r, c, k + 1))) ∧
    (∀ i < (createCover sudoku grid_width block_width).2.length,
      ∀ c < 4 * grid_width * grid_width,
        coverGet (createCover sudoku grid_width block_width).1 i c =
          if c ∈ specPossCols
              ((createCover sudoku grid_width block_width).2.getD i (0, 0, 0))
              grid_width block_width then 1 else 0) := by
  have h2 : (createCover sudoku grid_width block_width).2 =
      possList sudoku sudoku.length grid_width := rfl
  refine ⟨by rw [h2, possList_eq_spec hlen], ?_, ?_⟩
  · intro r hr c hc
    rw [h2, possList_filter_cell (by omega) (by omega)]
  · intro i hi c hc
    rw [h2] at hi ⊢
    rw [coverGet_createCover hi]
    rw [← possCols_eq_spec hbw]
    have hc4 : c < 4 * sudoku.length * sudoku.length := by rw [hlen]; exact hc
    simp [hc4]

/-- Witness for C2 at the 1×1 grid `[[1]]`. -/
theorem claim_C2_witness :
    (1 * 1 = 1 ∧ ([[1]] : List (List Nat)).length = 1) ∧
    ((createCover [[1]] 1 1).2 = specPossTable [[1]] 1 ∧
     (∀ r < 1, ∀ c < 1,
       (createCover [[1]] 1 1).2.filter (fun p => p.1 == r && p.2.1 == c) =
         if gget [[1]] r c ≠ 0 then [(r, c, gget [[1]] r c)]
         else (List.range 1).map (fun k => (r, c, k + 1))) ∧
     (∀ i < (createCover [[1]] 1 1).2.length, ∀ c < 4 * 1 * 1,
       coverGet (createCover [[1]] 1 1).1 i c =
         if c ∈ specPossCols ((createCover [[1]] 1 1).2.getD i (0, 0, 0)) 1 1
         then 1 else 0)) :=
  ⟨⟨rfl, rfl⟩, claim_C2_create_cover (by decide) (by decide)⟩

/-- C3: on a sorted duplicate-free active-column list (the form every call
site passes) and a duplicate-free active-row list, `min_col` returns an
active column minimizing the number of active rows with a 1 in it, ties
broken by lowest column index, together with that count; and when the
returned count is 0 `solve` immediately returns failure with the solution
stack and event log untouched (no candidate rows are built). -/
theorem claim_C3_min_col {cover : List (List Nat)} {aR aC : List Nat}
    (h01 : Entries01 cover) (_hNd : aR.Nodup) (hs : List.Chain' (· < ·) aC)
    (hne : aC ≠ []) :
    ((minCol cover aR aC).1 ∈ aC ∧
     (minCol cover aR aC).2 =
       (aR.filter (fun r => coverGet cover r (minCol cover aR aC).1 != 0)).length ∧
     (∀ c ∈ aC, (minCol cover aR aC).2 ≤
       (aR.filter (fun r => coverGet cover r c != 0)).length) ∧
     (∀ c ∈ aC, (aR.filter (fun r => coverGet cover r c != 0)).length =
       (minCol cover aR aC).2 → (minCol cover aR aC).1 ≤ c)) ∧
    (∀ f sol path, (minCol cover aR aC).2 = 0 →
      solveFuel cover (f + 1) aR aC sol path = some (false, sol, path)) := by
  constructor
  · refine ⟨minCol_mem hne, ?_, ?_, ?_⟩
    · rw [minCol_count, colCounts_eq_filter_length h01]
    · intro c hc
      rw [← colCounts_eq_filter_length h01]
      exact minCol_min hne c hc
    · intro c hc hcnt
      rw [← colCounts_eq_filter_length h01] at hcnt
      exact minCol_tiebreak hs hne c hc hcnt
  · intro f sol path h0
    have hemp : aC.isEmpty = false := by
      cases aC with
      | nil => simp at hne
      | cons a as => rfl
    simp only [solveFuel, hemp, if_false, Bool.false_eq_true, h0, if_pos, if_true]

/-- Witness for C3 on a concrete instance (empty cover, one active
column): the returned count is 0 and the failure clause applies. -/
theorem claim_C3_witness :
    (Entries01 [] ∧ ([] : List Nat).Nodup ∧
      List.Chain' (· < ·) [0] ∧ ([0] : List Nat) ≠ []) ∧
    (((minCol [] [] [0]).1 ∈ ([0] : List Nat) ∧
      (minCol [] [] [0]).2 =
        (([] : List Nat).filter
          (fun r => coverGet [] r (minCol [] [] [0]).1 != 0)).length ∧
      (∀ c ∈ ([0] : List Nat), (minCol [] [] [0]).2 ≤
        (([] : List Nat).filter (fun r => coverGet [] r c != 0)).length) ∧
      (∀ c ∈ ([0] : List Nat),
        (([] : List Nat).filter (fun r => coverGet [] r c != 0)).length =
          (minCol [] [] [0]).2 → (minCol [] [] [0]).1 ≤ c)) ∧
     (∀ f sol path, (minCol [] [] [0]).2 = 0 →
       solveFuel [] (f + 1) [] [0] sol path = some (false, sol, path))) :=
  ⟨⟨fun _ _ => Or.inl rfl, by simp, by simp, by simp⟩,
    claim_C3_min_col (fun _ _ => Or.inl rfl) (by simp) (by simp) (by simp)⟩

/-- C4: for an active row covering at least one active column, `select`
returns exactly the active columns in which the row has a 1 and exactly the
active rows (the row itself included) with a 1 in one of those columns, and
removing these sets and then `deselect`-ing them restores the active sets
to their previous contents as sets. -/
theorem claim_C4_select_deselect {row : Nat} {cover : List (List Nat)} {aR aC : List Nat}
    (hrow : row ∈ aR) (hcov : ∃ c ∈ aC, coverGet cover row c ≠ 0) :
    (∀ c, c ∈ (selectF row cover aR aC).2 ↔ c ∈ aC ∧ coverGet cover row c ≠ 0) ∧
    (∀ r, r ∈ (selectF row cover aR aC).1 ↔
      r ∈ aR ∧ ∃ c ∈ (selectF row cover aR aC).2, coverGet cover r c ≠ 0) ∧
    row ∈ (selectF row cover aR aC).1 ∧
    SameSet ((deselectF (selectF row cover aR aC).1 (selectF row cover aR aC).2
        (setdiff1d aR (selectF row cover aR aC).1)
        (setdiff1d aC (selectF row cover aR aC).2)).1) aR ∧
    SameSet ((deselectF (selectF row cover aR aC).1 (selectF row cover aR aC).2
        (setdiff1d aR (selectF row cover aR aC).1)
        (setdiff1d aC (selectF row cover aR aC).2)).2) aC := by
  refine ⟨fun c => mem_selectF_cols, ?_, ?_, deselect_restores.1, deselect_restores.2⟩
  · intro r
    rw [mem_selectF_rows]
    constructor
    · rintro ⟨hr, c, hc, hrowc, hrc⟩
      exact ⟨hr, c, mem_selectF_cols.2 ⟨hc, hrowc⟩, hrc⟩
    · rintro ⟨hr, c, hc, hrc⟩
      obtain ⟨hc1, hc2⟩ := mem_selectF_cols.1 hc
      exact ⟨hr, c, hc1, hc2, hrc⟩
  · obtain ⟨c, hc, hcc⟩ := hcov
    exact mem_selectF_rows.2 ⟨hrow, c, hc, hcc, hcc⟩

/-- Witness for C4 on a concrete one-row cover. -/
theorem claim_C4_witness :
    ((0 : Nat) ∈ ([0] : List Nat) ∧ ∃ c ∈ ([0] : List Nat), coverGet [[1]] 0 c ≠ 0) ∧
    ((∀ c, c ∈ (selectF 0 [[1]] [0] [0]).2 ↔ c ∈ ([0] : List Nat) ∧
        coverGet [[1]] 0 c ≠ 0) ∧
     (∀ r, r ∈ (selectF 0 [[1]] [0] [0]).1 ↔
       r ∈ ([0] : List Nat) ∧ ∃ c ∈ (selectF 0 [[1]] [0] [0]).2, coverGet [[1]] r c ≠ 0) ∧
     0 ∈ (selectF 0 [[1]] [0] [0]).1 ∧
     SameSet ((deselectF (selectF 0 [[1]] [0] [0]).1 (selectF 0 [[1]] [0] [0]).2
         (setdiff1d [0] (selectF 0 [[1]] [0] [0]).1)
         (setdiff1d [0] (selectF 0 [[1]] [0] [0]).2)).1) [0] ∧
     SameSet ((deselectF (selectF 0 [[1]] [0] [0]).1 (selectF 0 [[1]] [0] [0]).2
         (setdiff1d [0] (selectF 0 [[1]] [0] [0]).1)
         (setdiff1d [0] (selectF 0 [[1]] [0] [0]).2)).2) [0]) :=
  ⟨⟨by decide, ⟨0, by decide, by decide⟩⟩,
    claim_C4_select_deselect (by decide) ⟨0, by decide, by decide⟩⟩

/-- C9: every `solve` invocation — the top-level call on index ranges and
every call reachable through the candidate loop's `np.setdiff1d` results —
receives duplicate-free, strictly ascending active-row and active-column
lists. -/
theorem claim_C9_sorted_active_sets {cover : List (List Nat)} {nR nC : Nat}
    {aR aC : List Nat} (h : SolveCall cover nR nC aR aC) :
    List.Chain' (· < ·) aR ∧ aR.Nodup ∧ List.Chain' (· < ·) aC ∧ aC.Nodup := by
  induction h with
  | top =>
    refine ⟨?_, List.nodup_range _, ?_, List.nodup_range _⟩ <;>
      exact List.chain'_iff_pairwise.2 (List.pairwise_lt_range _)
  | step aR aC cAR cAC r _ _ _ _ =>
    exact ⟨chain'_setdiff1d _ _, nodup_setdiff1d _ _,
      chain'_setdiff1d _ _, nodup_setdiff1d _ _⟩

/-- Witness for C9 at the top-level call of a 1-possibility cover. -/
theorem claim_C9_witness :
    List.Chain' (· < ·) (List.range 1) ∧ (List.range 1).Nodup ∧
    List.Chain' (· < ·) (List.range 4) ∧ (List.range 4).Nodup :=
  @claim_C9_sorted_active_sets [[1, 1, 1, 1]] 1 4 (List.range 1) (List.range 4) SolveCall.top

/-- C10: `solve_sudoku` leaves the caller's grid untouched (the threaded
store is returned exactly as received), and `build_final_sudoku` depends on
the input grid only through its shape (it writes into `np.zeros_like`). -/
theorem claim_C10_frame {sudoku : List (List Nat)} {grid_width block_width : Nat} :
    solveSudokuTracked sudoku grid_width block_width =
      (solveSudoku sudoku grid_width block_width, sudoku) ∧
    ∀ poss sol g2, zerosLike sudoku = zerosLike g2 →
      buildFinalSudoku poss sol sudoku = buildFinalSudoku poss sol g2 := by
  refine ⟨rfl, ?_⟩
  intro poss sol g2 hz
  unfold buildFinalSudoku
  rw [hz]

/-- Witness for C10 at a concrete grid (same shape, different contents). -/
theorem claim_C10_witness :
    (solveSudokuTracked [[1]] 1 1 = (solveSudoku [[1]] 1 1, [[1]]) ∧
      ∀ poss sol g2, zerosLike [[1]] = zerosLike g2 →
        buildFinalSudoku poss sol [[1]] = buildFinalSudoku poss sol g2) ∧
    buildFinalSudoku [(0, 0, 1)] [0] [[1]] = buildFinalSudoku [(0, 0, 1)] [0] [[5]] :=
  ⟨claim_C10_frame,
    (@claim_C10_frame [[1]] 1 1).2 [(0, 0, 1)] [0] [[5]] (by decide)⟩
/-! ### Termination: the active-column set shrinks, so the fuel suffices -/

theorem sameSet_toFinset_eq {l1 l2 : List Nat} (h : SameSet l1 l2) :
    l1.toFinset = l2.toFinset := by
  ext x
  simp only [List.mem_toFinset]
  exact h x

theorem setdiff_card_lt {aC cr : List Nat} {col : Nat} (hcol : col ∈ aC) (hcr : col ∈ cr) :
    (setdiff1d aC cr).toFinset.card < aC.toFinset.card := by
  have hsub : (setdiff1d aC cr).toFinset ⊆ aC.toFinset.erase col := by
    intro x hx
    rw [List.mem_toFinset, mem_setdiff1d] at hx
    rw [Finset.mem_erase, List.mem_toFinset]
    refine ⟨?_, hx.1⟩
    intro hxc
    exact hx.2 (hxc ▸ hcr)
  calc (setdiff1d aC cr).toFinset.card ≤ (aC.toFinset.erase col).card :=
        Finset.card_le_card hsub
    _ < aC.toFinset.card := Finset.card_erase_lt_of_mem (List.mem_toFinset.2 hcol)

theorem sameSet_trans {l1 l2 l3 : List Nat} (h1 : SameSet l1 l2) (h2 : SameSet l2 l3) :
    SameSet l1 l3 := fun x => (h1 x).trans (h2 x)

/-- After one candidate iteration, deselect restores a list holding the same
set of rows as before. -/
theorem deselect_sameSet_rows {r : Nat} {cover : List (List Nat)} {cAR cAC : List Nat} :
    SameSet (setdiff1d cAR (selectF r cover cAR cAC).1 ++ (selectF r cover cAR cAC).1) cAR :=
  deselect_restores.1

theorem deselect_sameSet_cols {r : Nat} {cover : List (List Nat)} {cAR cAC : List Nat} :
    SameSet (setdiff1d cAC (selectF r cover cAR cAC).2 ++ (selectF r cover cAR cAC).2) cAC :=
  deselect_restores.2

theorem tryLoop_isSome {cover : List (List Nat)}
    {recur : List Nat → List Nat → List Nat → List (Nat × Nat) →
      Option (Bool × List Nat × List (Nat × Nat))}
    {aC : List Nat} {col : Nat}
    (hrec : ∀ aR1 aC1 sol path, aC1.toFinset.card < aC.toFinset.card →
      (recur aR1 aC1 sol path).isSome)
    (hcol : col ∈ aC) :
    ∀ cands cAR cAC sol path, (∀ r ∈ cands, coverGet cover r col ≠ 0) →
      SameSet cAC aC → (tryLoop cover recur cands cAR cAC sol path).isSome := by
  intro cands
  induction cands with
  | nil =>
    intro cAR cAC sol path _ _
    simp [tryLoop]
  | cons r rs ih =>
    intro cAR cAC sol path hcands hss
    simp only [tryLoop]
    have hcolc : col ∈ (selectF r cover cAR cAC).2 :=
      mem_selectF_cols.2 ⟨(hss col).2 hcol, hcands r (by simp)⟩
    have hcard : (setdiff1d cAC (selectF r cover cAR cAC).2).toFinset.card <
        aC.toFinset.card := by
      have := setdiff_card_lt ((hss col).2 hcol) hcolc
      rwa [sameSet_toFinset_eq hss] at this
    have hsome := hrec (setdiff1d cAR (selectF r cover cAR cAC).1)
      (setdiff1d cAC (selectF r cover cAR cAC).2)
      (sol ++ [r]) (path ++ [(1, r)]) hcard
    cases hrc : recur (setdiff1d cAR (selectF r cover cAR cAC).1)
        (setdiff1d cAC (selectF r cover cAR cAC).2) (sol ++ [r]) (path ++ [(1, r)]) with
    | none => rw [hrc] at hsome; simp at hsome
    | some v =>
      obtain ⟨b, sol2, path2⟩ := v
      cases b with
      | true => simp
      | false =>
        simp only
        exact ih _ _ _ _ (fun x hx => hcands x (by simp [hx]))
          (sameSet_trans deselect_sameSet_cols hss)

theorem solveFuel_isSome {cover : List (List Nat)} :
    ∀ f aR aC sol path, aC.toFinset.card < f →
      (solveFuel cover f aR aC sol path).isSome := by
  intro f
  induction f with
  | zero => intro aR aC sol path h; omega
  | succ f ih =>
    intro aR aC sol path hcard
    simp only [solveFuel]
    by_cases hemp : aC.isEmpty
    · simp [hemp]
    · simp only [hemp, if_false, Bool.false_eq_true]
      by_cases h0 : (minCol cover aR aC).2 = 0
      · simp [h0]
      · simp only [h0, if_false]
        have hne : aC ≠ [] := by
          cases aC with
          | nil => simp at hemp
          | cons a as => simp
        exact @tryLoop_isSome cover (fun a b c d => solveFuel cover f a b c d) aC
          (minCol cover aR aC).1
          (fun aR1 aC1 s p hlt => ih aR1 aC1 s p (by omega))
          (minCol_mem hne)
          (aR.filter (fun r => coverGet cover r (minCol cover aR aC).1 != 0))
          aR aC sol path
          (fun r hr => by rw [List.mem_filter] at hr; simpa using hr.2)
          (fun x => Iff.rfl)

/-- C5: each recursive call of `solve` receives an active-column set
strictly smaller than its caller's — the branching column is active and is
covered by every candidate row, so it is always among the removed columns —
and consequently the recursion terminates: the fuel `solve_sudoku` provides
(one more than the number of active columns ever exceeds) is never
exhausted. -/
theorem claim_C5_termination {cover : List (List Nat)} :
    (∀ aR aC cAR cAC r, aC ≠ [] → SameSet cAR aR → SameSet cAC aC →
      r ∈ aR.filter (fun x => coverGet cover x (minCol cover aR aC).1 != 0) →
      (setdiff1d cAC (selectF r cover cAR cAC).2).toFinset.card < aC.toFinset.card) ∧
    (∀ f aR aC sol path, aC.toFinset.card < f →
      (solveFuel cover f aR aC sol path).isSome) := by
  constructor
  · intro aR aC cAR cAC r hne hssR hssC hr
    rw [List.mem_filter] at hr
    have hcol : (minCol cover aR aC).1 ∈ aC := minCol_mem hne
    have hcolc : (minCol cover aR aC).1 ∈ (selectF r cover cAR cAC).2 :=
      mem_selectF_cols.2 ⟨(hssC _).2 hcol, by simpa using hr.2⟩
    have := setdiff_card_lt ((hssC _).2 hcol) hcolc
    rwa [sameSet_toFinset_eq hssC] at this
  · exact solveFuel_isSome

/-- Witness for C5 on the 1-possibility cover of the grid `[[1]]`. -/
theorem claim_C5_witness :
    (([0, 1, 2, 3] : List Nat) ≠ [] ∧ SameSet [0] [0] ∧ SameSet [0, 1, 2, 3] [0, 1, 2, 3] ∧
      0 ∈ ([0] : List Nat).filter
        (fun x => coverGet [[1, 1, 1, 1]] x (minCol [[1, 1, 1, 1]] [0] [0, 1, 2, 3]).1 != 0) ∧
      (setdiff1d [0, 1, 2, 3] (selectF 0 [[1, 1, 1, 1]] [0] [0, 1, 2, 3]).2).toFinset.card <
        ([0, 1, 2, 3] : List Nat).toFinset.card) ∧
    (([0, 1, 2, 3] : List Nat).toFinset.card < 5 ∧
      (solveFuel [[1, 1, 1, 1]] 5 [0] [0, 1, 2, 3] [] []).isSome) := by
  have h := @claim_C5_termination [[1, 1, 1, 1]]
  refine ⟨⟨by decide, fun x => Iff.rfl, fun x => Iff.rfl, by decide, ?_⟩, by decide, ?_⟩
  · exact h.1 [0] [0, 1, 2, 3] [0] [0, 1, 2, 3] 0 (by decide)
      (fun x => Iff.rfl) (fun x => Iff.rfl) (by decide)
  · exact h.2 5 [0] [0, 1, 2, 3] [] [] (by decide)
/-! ### The solution stack across failure, and the exact-cover invariant -/

theorem dropLast_concat_self {l : List Nat} {a : Nat} : (l ++ [a]).dropLast = l := by
  simp

theorem tryLoop_false {cover : List (List Nat)}
    {recur : List Nat → List Nat → List Nat → List (Nat × Nat) →
      Option (Bool × List Nat × List (Nat × Nat))}
    (hrecFalse : ∀ aR1 aC1 s p s2 p2, recur aR1 aC1 s p = some (false, s2, p2) → s2 = s) :
    ∀ cands cAR cAC sol path sol2 path2,
      tryLoop cover recur cands cAR cAC sol path = some (false, sol2, path2) →
      sol2 = sol := by
  intro cands
  induction cands with
  | nil =>
    intro cAR cAC sol path sol2 path2 h
    simp only [tryLoop] at h
    injection h with h
    injection h with h1 h2
    injection h2 with h2
    exact h2.symm
  | cons r rs ih =>
    intro cAR cAC sol path sol2 path2 h
    simp only [tryLoop] at h
    cases hrc : recur (setdiff1d cAR (selectF r cover cAR cAC).1)
        (setdiff1d cAC (selectF r cover cAR cAC).2) (sol ++ [r]) (path ++ [(1, r)]) with
    | none => rw [hrc] at h; simp at h
    | some v =>
      obtain ⟨b, s2, p2⟩ := v
      rw [hrc] at h
      cases b with
      | true => simp at h
      | false =>
        simp only at h
        have hs2 : s2 = sol ++ [r] := hrecFalse _ _ _ _ _ _ hrc
        have := ih _ _ _ _ _ _ h
        rw [this, hs2, dropLast_concat_self]

theorem solveFuel_false {cover : List (List Nat)} :
    ∀ f aR aC s p s2 p2, solveFuel cover f aR aC s p = some (false, s2, p2) → s2 = s := by
  intro f
  induction f with
  | zero => intro aR aC s p s2 p2 h; simp [solveFuel] at h
  | succ f ih =>
    intro aR aC s p s2 p2 h
    simp only [solveFuel] at h
    by_cases hemp : aC.isEmpty
    · simp [hemp] at h
    · simp only [hemp, if_false, Bool.false_eq_true] at h
      by_cases h0 : (minCol cover aR aC).2 = 0
      · simp only [h0, if_true, if_pos] at h
        injection h with h
        injection h with h1 h2
        injection h2 with h2
        exact h2.symm
      · simp only [h0, if_false] at h
        exact tryLoop_false (fun a b c d e g hh => ih a b c d e g hh) _ _ _ _ _ _ _ h

theorem tryLoop_exactCover {cover : List (List Nat)}
    {recur : List Nat → List Nat → List Nat → List (Nat × Nat) →
      Option (Bool × List Nat × List (Nat × Nat))}
    {aR aC : List Nat} {col : Nat}
    (hrecFalse : ∀ aR1 aC1 s p s2 p2, recur aR1 aC1 s p = some (false, s2, p2) → s2 = s)
    (hrecTrue : ∀ aR1 aC1 s p s2 p2,
      (∀ x ∈ aR1, ∀ c, coverGet cover x c ≠ 0 → c ∈ aC1) →
      recur aR1 aC1 s p = some (true, s2, p2) →
      ∃ D, s2 = s ++ D ∧ D.Nodup ∧ (∀ i ∈ D, i ∈ aR1) ∧
        (∀ c ∈ aC1, (D.filter (fun i => coverGet cover i c != 0)).length = 1))
    (hINV : ∀ x ∈ aR, ∀ c, coverGet cover x c ≠ 0 → c ∈ aC)
    (hcol : col ∈ aC) :
    ∀ cands cAR cAC sol path s2 p2,
      (∀ x ∈ cands, x ∈ aR ∧ coverGet cover x col ≠ 0) →
      SameSet cAR aR → SameSet cAC aC →
      tryLoop cover recur cands cAR cAC sol path = some (true, s2, p2) →
      ∃ D, s2 = sol ++ D ∧ D.Nodup ∧ (∀ i ∈ D, i ∈ aR) ∧
        (∀ c ∈ aC, (D.filter (fun i => coverGet cover i c != 0)).length = 1) := by
  intro cands
  induction cands with
  | nil =>
    intro cAR cAC sol path s2 p2 _ _ _ h
    simp [tryLoop] at h
  | cons r rs ih =>
    intro cAR cAC sol path s2 p2 hcands hssR hssC h
    have hrA : r ∈ aR := (hcands r (by simp)).1
    have hrcol : coverGet cover r col ≠ 0 := (hcands r (by simp)).2
    have memaC1 : ∀ c, c ∈ setdiff1d cAC (selectF r cover cAR cAC).2 ↔
        c ∈ aC ∧ coverGet cover r c = 0 := by
      intro c
      rw [mem_setdiff1d, mem_selectF_cols, hssC c]
      constructor
      · rintro ⟨hc, hnc⟩
        refine ⟨hc, ?_⟩
        by_contra hcc
        exact hnc ⟨hc, hcc⟩
      · rintro ⟨hc, hz⟩
        exact ⟨hc, fun hh => hh.2 hz⟩
    have memaR1 : ∀ x, x ∈ setdiff1d cAR (selectF r cover cAR cAC).1 ↔
        x ∈ aR ∧ ¬∃ c ∈ aC, coverGet cover r c ≠ 0 ∧ coverGet cover x c ≠ 0 := by
      intro x
      rw [mem_setdiff1d, mem_selectF_rows, hssR x]
      constructor
      · rintro ⟨hx, hnx⟩
        refine ⟨hx, ?_⟩
        rintro ⟨c, hc, hrc, hxc⟩
        exact hnx ⟨hx, c, (hssC c).2 hc, hrc, hxc⟩
      · rintro ⟨hx, hne⟩
        refine ⟨hx, ?_⟩
        rintro ⟨_, c, hc, hrc, hxc⟩
        exact hne ⟨c, (hssC c).1 hc, hrc, hxc⟩
    have hINV1 : ∀ x ∈ setdiff1d cAR (selectF r cover cAR cAC).1, ∀ c,
        coverGet cover x c ≠ 0 → c ∈ setdiff1d cAC (selectF r cover cAR cAC).2 := by
      intro x hx c hxc
      rw [memaR1] at hx
      obtain ⟨hxA, hnx⟩ := hx
      have hcA : c ∈ aC := hINV x hxA c hxc
      rw [memaC1]
      refine ⟨hcA, ?_⟩
      by_contra hrc
      exact hnx ⟨c, hcA, hrc, hxc⟩
    simp only [tryLoop] at h
    cases hrc : recur (setdiff1d cAR (selectF r cover cAR cAC).1)
        (setdiff1d cAC (selectF r cover cAR cAC).2) (sol ++ [r]) (path ++ [(1, r)]) with
    | none => rw [hrc] at h; simp at h
    | some v =>
      obtain ⟨b, s2', p2'⟩ := v
      rw [hrc] at h
      cases b with
      | true =>
        simp only [Option.some_inj, Prod.mk.injEq, true_and] at h
        obtain ⟨h2, h3⟩ := h
        subst h2
        obtain ⟨D, hD1, hD2, hD3, hD4⟩ := hrecTrue _ _ _ _ _ _ hINV1 hrc
        refine ⟨r :: D, ?_, ?_, ?_, ?_⟩
        · rw [hD1]
          simp
        · refine List.nodup_cons.2 ⟨?_, hD2⟩
          intro hrD
          have := (memaR1 r).1 (hD3 r hrD)
          exact this.2 ⟨col, hcol, hrcol, hrcol⟩
        · intro i hi
          rcases List.mem_cons.1 hi with rfl | hi
          · exact hrA
          · exact ((memaR1 i).1 (hD3 i hi)).1
        · intro c hc
          by_cases hrc0 : coverGet cover r c ≠ 0
          · have hfD : D.filter (fun i => coverGet cover i c != 0) = [] := by
              apply List.filter_eq_nil_iff.2
              intro i hi
              have hiR1 := hD3 i hi
              simp only [bne_iff_ne, ne_eq, not_not]
              by_contra hic
              have := hINV1 i hiR1 c hic
              rw [memaC1] at this
              exact hrc0 this.2
            rw [List.filter_cons]
            simp only [bne_iff_ne, ne_eq, hrc0, not_false_eq_true, if_true, hfD]
            simp
          · push_neg at hrc0
            have hcC1 : c ∈ setdiff1d cAC (selectF r cover cAR cAC).2 :=
              (memaC1 c).2 ⟨hc, hrc0⟩
            rw [List.filter_cons]
            simp only [bne_iff_ne, ne_eq, hrc0, not_true_eq_false, if_false]
            exact hD4 c hcC1
      | false =>
        simp only at h
        have hs2 : s2' = sol ++ [r] := hrecFalse _ _ _ _ _ _ hrc
        have hdrop : s2'.dropLast = sol := by rw [hs2, dropLast_concat_self]
        rw [hdrop] at h
        exact ih _ _ _ _ _ _ (fun x hx => hcands x (by simp [hx]))
          (sameSet_trans deselect_sameSet_rows hssR)
          (sameSet_trans deselect_sameSet_cols hssC) h

theorem solveFuel_exactCover {cover : List (List Nat)} :
    ∀ f aR aC s p s2 p2,
      (∀ x ∈ aR, ∀ c, coverGet cover x c ≠ 0 → c ∈ aC) →
      solveFuel cover f aR aC s p = some (true, s2, p2) →
      ∃ D, s2 = s ++ D ∧ D.Nodup ∧ (∀ i ∈ D, i ∈ aR) ∧
        (∀ c ∈ aC, (D.filter (fun i => coverGet cover i c != 0)).length = 1) := by
  intro f
  induction f with
  | zero => intro aR aC s p s2 p2 _ h; simp [solveFuel] at h
  | succ f ih =>
    intro aR aC s p s2 p2 hINV h
    simp only [solveFuel] at h
    by_cases hemp : aC.isEmpty
    · simp only [hemp, if_true, if_pos, Option.some_inj, Prod.mk.injEq, true_and] at h
      obtain ⟨h1, h2⟩ := h
      subst h1
      refine ⟨[], by simp, by simp, by simp, ?_⟩
      intro c hc
      rw [List.isEmpty_iff] at hemp
      subst hemp
      simp at hc
    · simp only [hemp, if_false, Bool.false_eq_true] at h
      by_cases h0 : (minCol cover aR aC).2 = 0
      · simp [h0] at h
      · simp only [h0, if_false] at h
        have hne : aC ≠ [] := by
          cases aC with
          | nil => simp at hemp
          | cons a as => simp
        exact tryLoop_exactCover
          (fun a b c d e g hh => solveFuel_false _ a b c d e g hh)
          (fun a b c d e g hin hh => ih a b c d e g hin hh)
          hINV (minCol_mem hne) _ _ _ _ _ _ _
          (fun x hx => by
            rw [List.mem_filter] at hx
            exact ⟨hx.1, by simpa using hx.2⟩)
          (fun x => Iff.rfl) (fun x => Iff.rfl) h

/-! ### From the exact cover to the solved grid -/

theorem possBounds_getD {sudoku : List (List Nat)} {grid_width : Nat}
    (hwf : GridWF sudoku grid_width) {i : Nat}
    (hi : i < (possList sudoku sudoku.length grid_width).length) :
    PossBounds ((possList sudoku sudoku.length grid_width).getD i (0, 0, 0)) grid_width := by
  obtain ⟨hlen, _, hval⟩ := hwf
  have hmem := getD_mem_of_lt ((0 : Nat), (0 : Nat), (0 : Nat)) hi
  have hb := mem_possList_bounds hmem
  obtain ⟨h1, h2, h3, h4, h5⟩ := hb
  refine ⟨by omega, by omega, h3, ?_⟩
  by_cases hz : gget sudoku ((possList sudoku sudoku.length grid_width).getD i (0, 0, 0)).1
      ((possList sudoku sudoku.length grid_width).getD i (0, 0, 0)).2.1 = 0
  · exact h5 hz
  · rw [h4 hz]
    exact hval _ _

theorem filter_len_one_elim {α : Type} {l : List α} {p : α → Bool}
    (h : (l.filter p).length = 1) :
    ∃ a, a ∈ l ∧ p a = true ∧ ∀ b ∈ l, p b = true → b = a := by
  rw [List.length_eq_one] at h
  obtain ⟨a, ha⟩ := h
  have haf : a ∈ l.filter p := by rw [ha]; simp
  rw [List.mem_filter] at haf
  refine ⟨a, haf.1, haf.2, ?_⟩
  intro b hb hpb
  have : b ∈ l.filter p := List.mem_filter.2 ⟨hb, hpb⟩
  rw [ha] at this
  simpa using this

theorem filter_len_one_intro {α : Type} {l : List α} {p : α → Bool} {a : α}
    (hnd : l.Nodup) (ha : a ∈ l) (hpa : p a = true)
    (huniq : ∀ b ∈ l, p b = true → b = a) : (l.filter p).length = 1 := by
  induction l with
  | nil => simp at ha
  | cons x xs ih =>
    rw [List.nodup_cons] at hnd
    rcases List.mem_cons.1 ha with rfl | hax
    · rw [List.filter_cons, if_pos hpa]
      have : xs.filter p = [] := by
        apply List.filter_eq_nil_iff.2
        intro b hb hpb
        exact absurd (huniq b (by simp [hb]) hpb) (fun he => hnd.1 (he ▸ hb))
      simp [this]
    · have hpx : p x = false := by
        by_contra hpx
        have := huniq x (by simp) (by simpa using hpx)
        subst this
        exact hnd.1 hax
      rw [List.filter_cons, hpx]
      simp only [Bool.false_eq_true, if_false]
      exact ih hnd.2 hax (fun b hb hpb => huniq b (by simp [hb]) hpb)

theorem createCover_length (sudoku : List (List Nat)) (grid_width block_width : Nat) :
    (createCover sudoku grid_width block_width).1.length =
      (possList sudoku sudoku.length grid_width).length := by
  simp [createCover]

theorem exactCover_top {sudoku : List (List Nat)} {grid_width block_width : Nat}
    {sol : List Nat} {path : List (Nat × Nat)}
    (hlen : sudoku.length = grid_width)
    (hsolve : solveFuel (createCover sudoku grid_width block_width).1 (fuelFor sudoku)
      (List.range (createCover sudoku grid_width block_width).1.length)
      (List.range (4 * sudoku.length * sudoku.length)) [] [] = some (true, sol, path)) :
    sol.Nodup ∧ (∀ i ∈ sol, i < (possList sudoku sudoku.length grid_width).length) ∧
    (∀ c < 4 * grid_width * grid_width,
      (sol.filter
        (fun i => coverGet (createCover sudoku grid_width block_width).1 i c != 0)).length
        = 1) := by
  have hINV : ∀ x ∈ List.range (createCover sudoku grid_width block_width).1.length,
      ∀ c, coverGet (createCover sudoku grid_width block_width).1 x c ≠ 0 →
        c ∈ List.range (4 * sudoku.length * sudoku.length) := by
    intro x hx c hxc
    rw [List.mem_range] at hx
    rw [createCover_length] at hx
    rw [coverGet_createCover hx] at hxc
    rw [List.mem_range]
    by_contra hc4
    simp [hc4] at hxc
  obtain ⟨D, hD1, hD2, hD3, hD4⟩ := solveFuel_exactCover _ _ _ _ _ _ _ hINV hsolve
  rw [List.nil_append] at hD1
  subst hD1
  refine ⟨hD2, ?_, ?_⟩
  · intro i hi
    have := hD3 i hi
    rw [List.mem_range, createCover_length] at this
    exact this
  · intro c hc
    apply hD4
    rw [List.mem_range, hlen]
    exact hc

theorem covers_cell_iff {sudoku : List (List Nat)} {grid_width block_width i r c : Nat}
    (hwf : GridWF sudoku grid_width)
    (hi : i < (possList sudoku sudoku.length grid_width).length)
    (hr : r < grid_width) (hc : c < grid_width) :
    coverGet (createCover sudoku grid_width block_width).1 i (r * grid_width + c) ≠ 0 ↔
      ((possList sudoku sudoku.length grid_width).getD i (0, 0, 0)).1 = r ∧
      ((possList sudoku sudoku.length grid_width).getD i (0, 0, 0)).2.1 = c := by
  have hlen := hwf.1
  have e4 : 4 * grid_width * grid_width = 4 * (grid_width * grid_width) := by ring
  have hlt : r * grid_width + c < 4 * sudoku.length * sudoku.length := by
    have := encode_lt hr hc
    rw [hlen, e4]
    omega
  rw [coverGet_createCover hi]
  simp only [hlt, true_and, ne_eq, ite_eq_right_iff, one_ne_zero, imp_false, not_not]
  exact mem_possCols_cell (possBounds_getD hwf hi) hr hc

theorem covers_rowdigit_iff {sudoku : List (List Nat)} {grid_width block_width i r d : Nat}
    (hwf : GridWF sudoku grid_width)
    (hi : i < (possList sudoku sudoku.length grid_width).length)
    (hr : r < grid_width) (hd1 : 1 ≤ d) (hd2 : d ≤ grid_width) :
    coverGet (createCover sudoku grid_width block_width).1 i
        (grid_width * grid_width + r * grid_width + d - 1) ≠ 0 ↔
      ((possList sudoku sudoku.length grid_width).getD i (0, 0, 0)).1 = r ∧
      ((possList sudoku sudoku.length grid_width).getD i (0, 0, 0)).2.2 = d := by
  have hlen := hwf.1
  have e4 : 4 * grid_width * grid_width = 4 * (grid_width * grid_width) := by ring
  have hlt : grid_width * grid_width + r * grid_width + d - 1 <
      4 * sudoku.length * sudoku.length := by
    have := encode_lt hr (show d - 1 < grid_width by omega)
    rw [hlen, e4]
    omega
  rw [coverGet_createCover hi]
  simp only [hlt, true_and, ne_eq, ite_eq_right_iff, one_ne_zero, imp_false, not_not]
  exact mem_possCols_rowdigit (possBounds_getD hwf hi) hr hd1 hd2

theorem covers_coldigit_iff {sudoku : List (List Nat)} {grid_width block_width i c d : Nat}
    (hwf : GridWF sudoku grid_width)
    (hi : i < (possList sudoku sudoku.length grid_width).length)
    (hc : c < grid_width) (hd1 : 1 ≤ d) (hd2 : d ≤ grid_width) :
    coverGet (createCover sudoku grid_width block_width).1 i
        (2 * grid_width * grid_width + c * grid_width + d - 1) ≠ 0 ↔
      ((possList sudoku sudoku.length grid_width).getD i (0, 0, 0)).2.1 = c ∧
      ((possList sudoku sudoku.length grid_width).getD i (0, 0, 0)).2.2 = d := by
  have hlen := hwf.1
  have e4 : 4 * grid_width * grid_width = 4 * (grid_width * grid_width) := by ring
  have e2 : 2 * grid_width * grid_width = 2 * (grid_width * grid_width) := by ring
  have hlt : 2 * grid_width * grid_width + c * grid_width + d - 1 <
      4 * sudoku.length * sudoku.length := by
    have := encode_lt hc (show d - 1 < grid_width by omega)
    rw [hlen, e4]
    omega
  rw [coverGet_createCover hi]
  simp only [hlt, true_and, ne_eq, ite_eq_right_iff, one_ne_zero, imp_false, not_not]
  exact mem_possCols_coldigit (possBounds_getD hwf hi) hc hd1 hd2

theorem covers_blockdigit_iff {sudoku : List (List Nat)} {grid_width block_width i b d : Nat}
    (hbw : block_width * block_width = grid_width) (hwf : GridWF sudoku grid_width)
    (hi : i < (possList sudoku sudoku.length grid_width).length)
    (hb : b < grid_width) (hd1 : 1 ≤ d) (hd2 : d ≤ grid_width) :
    coverGet (createCover sudoku grid_width block_width).1 i
        (3 * grid_width * grid_width + b * grid_width + d - 1) ≠ 0 ↔
      blockIdx ((possList sudoku sudoku.length grid_width).getD i (0, 0, 0)).1
          ((possList sudoku sudoku.length grid_width).getD i (0, 0, 0)).2.1
          grid_width block_width = b ∧
      ((possList sudoku sudoku.length grid_width).getD i (0, 0, 0)).2.2 = d := by
  have hlen := hwf.1
  have e4 : 4 * grid_width * grid_width = 4 * (grid_width * grid_width) := by ring
  have e3 : 3 * grid_width * grid_width = 3 * (grid_width * grid_width) := by ring
  have hlt : 3 * grid_width * grid_width + b * grid_width + d - 1 <
      4 * sudoku.length * sudoku.length := by
    have := encode_lt hb (show d - 1 < grid_width by omega)
    rw [hlen, e4]
    omega
  rw [coverGet_createCover hi]
  simp only [hlt, true_and, ne_eq, ite_eq_right_iff, one_ne_zero, imp_false, not_not]
  exact mem_possCols_blockdigit hbw (possBounds_getD hwf hi) hb hd1 hd2

/-! ### Evaluating `build_final_sudoku` -/

theorem gget_gridSet_same {g : List (List Nat)} {r c v : Nat}
    (hr : r < g.length) (hc : c < (g.getD r []).length) :
    gget (gridSet g r c v) r c = v := by
  unfold gget gridSet
  rw [List.getD_eq_getElem?_getD] at hc
  simp only [List.getD_eq_getElem?_getD]
  rw [List.getElem?_set_eq_of_lt _ (by simpa using hr)]
  simp only [Option.getD_some]
  rw [List.getElem?_set_eq_of_lt _ (by simpa using hc)]
  rfl

theorem gget_gridSet_other {g : List (List Nat)} {r c v r1 c1 : Nat}
    (h : ¬(r = r1 ∧ c = c1)) :
    gget (gridSet g r c v) r1 c1 = gget g r1 c1 := by
  unfold gget gridSet
  by_cases hrr : r = r1
  · subst hrr
    have hcc : c ≠ c1 := fun hx => h ⟨rfl, hx⟩
    rcases Nat.lt_or_ge r g.length with hr | hr
    · simp only [List.getD_eq_getElem?_getD]
      rw [List.getElem?_set_eq_of_lt _ (by simpa using hr)]
      simp only [Option.getD_some]
      rw [List.getElem?_set_ne hcc]
    · rw [List.set_eq_of_length_le (by omega)]
  · simp only [List.getD_eq_getElem?_getD]
    rw [List.getElem?_set_ne hrr]

theorem gridSet_length (g : List (List Nat)) (r c v : Nat) :
    (gridSet g r c v).length = g.length := by
  simp [gridSet]

theorem gridSet_rows_length {g : List (List Nat)} {gw r c v : Nat}
    (hr : r < g.length) (hrows : ∀ row ∈ g, row.length = gw) :
    ∀ row ∈ gridSet g r c v, row.length = gw := by
  intro row hrow
  rcases List.mem_or_eq_of_mem_set hrow with hm | hm
  · exact hrows row hm
  · rw [hm, List.length_set]
    exact hrows _ (getD_mem_of_lt [] hr)

theorem gget_zerosLike (g : List (List Nat)) (r c : Nat) :
    gget (zerosLike g) r c = 0 := by
  unfold gget zerosLike
  simp only [List.getD_eq_getElem?_getD, List.getElem?_map]
  cases hg : g[r]? with
  | none => simp
  | some row =>
    simp only [Option.map_some', Option.getD_some, List.getElem?_map]
    cases row[c]? <;> simp

theorem zerosLike_length (g : List (List Nat)) : (zerosLike g).length = g.length := by
  simp [zerosLike]

theorem zerosLike_rows_length {g : List (List Nat)} {gw : Nat}
    (hrows : ∀ row ∈ g, row.length = gw) :
    ∀ row ∈ zerosLike g, row.length = gw := by
  intro row hrow
  simp only [zerosLike, List.mem_map] at hrow
  obtain ⟨orig, horig, rfl⟩ := hrow
  simpa using hrows orig horig

theorem gget_foldl_write_none {poss : List (Nat × Nat × Nat)} :
    ∀ (sol : List Nat) (g : List (List Nat)) (r c : Nat),
      (∀ s ∈ sol, ¬((poss.getD s (0, 0, 0)).1 = r ∧ (poss.getD s (0, 0, 0)).2.1 = c)) →
      gget (sol.foldl (fun final s => gridSet final (poss.getD s (0, 0, 0)).1
        (poss.getD s (0, 0, 0)).2.1 (poss.getD s (0, 0, 0)).2.2) g) r c = gget g r c := by
  intro sol
  induction sol with
  | nil => intro g r c _; rfl
  | cons s ss ih =>
    intro g r c hnone
    rw [List.foldl_cons]
    rw [ih _ _ _ (fun x hx => hnone x (by simp [hx]))]
    exact gget_gridSet_other (hnone s (by simp))

theorem gget_foldl_write {poss : List (Nat × Nat × Nat)} {gw : Nat} :
    ∀ (sol : List Nat) (g : List (List Nat)) (r c d : Nat),
      g.length = gw → (∀ row ∈ g, row.length = gw) →
      (∀ s ∈ sol, (poss.getD s (0, 0, 0)).1 < gw ∧ (poss.getD s (0, 0, 0)).2.1 < gw) →
      r < gw → c < gw →
      (∃ s ∈ sol, (poss.getD s (0, 0, 0)).1 = r ∧ (poss.getD s (0, 0, 0)).2.1 = c) →
      (∀ s ∈ sol, (poss.getD s (0, 0, 0)).1 = r → (poss.getD s (0, 0, 0)).2.1 = c →
        (poss.getD s (0, 0, 0)).2.2 = d) →
      gget (sol.foldl (fun final s => gridSet final (poss.getD s (0, 0, 0)).1
        (poss.getD s (0, 0, 0)).2.1 (poss.getD s (0, 0, 0)).2.2) g) r c = d := by
  intro sol
  induction sol with
  | nil =>
    intro g r c d _ _ _ _ _ hex _
    simp at hex
  | cons s ss ih =>
    intro g r c d hglen hgrows hcells hr hc hex hall
    rw [List.foldl_cons]
    have hslen : (poss.getD s (0, 0, 0)).1 < g.length := by
      rw [hglen]
      exact (hcells s (by simp)).1
    have hg1len : (gridSet g (poss.getD s (0, 0, 0)).1 (poss.getD s (0, 0, 0)).2.1
        (poss.getD s (0, 0, 0)).2.2).length = gw := by
      rw [gridSet_length, hglen]
    have hg1rows := gridSet_rows_length hslen hgrows
      (c := (poss.getD s (0, 0, 0)).2.1) (v := (poss.getD s (0, 0, 0)).2.2)
    by_cases hsAt : (poss.getD s (0, 0, 0)).1 = r ∧ (poss.getD s (0, 0, 0)).2.1 = c
    · have hd : (poss.getD s (0, 0, 0)).2.2 = d := hall s (by simp) hsAt.1 hsAt.2
      by_cases hlater : ∃ x ∈ ss, (poss.getD x (0, 0, 0)).1 = r ∧
          (poss.getD x (0, 0, 0)).2.1 = c
      · exact ih _ _ _ _ hg1len hg1rows (fun x hx => hcells x (by simp [hx])) hr hc hlater
          (fun x hx h1 h2 => hall x (by simp [hx]) h1 h2)
      · push_neg at hlater
        rw [gget_foldl_write_none _ _ _ _
          (fun x hx hxat => (hlater x hx hxat.1) hxat.2)]
        rw [hsAt.1, hsAt.2, hd]
        apply gget_gridSet_same
        · omega
        · have : (g.getD r []).length = gw := hgrows _ (getD_mem_of_lt [] (by omega))
          omega
    · apply ih _ _ _ _ hg1len hg1rows (fun x hx => hcells x (by simp [hx])) hr hc
      · rcases hex with ⟨x, hx, hxat⟩
        rcases List.mem_cons.1 hx with rfl | hx2
        · exact absurd hxat hsAt
        · exact ⟨x, hx2, hxat⟩
      · intro x hx h1 h2
        exact hall x (by simp [hx]) h1 h2
theorem final_cell {sudoku : List (List Nat)} {grid_width block_width : Nat}
    {sol : List Nat} {path : List (Nat × Nat)} {r c : Nat}
    (hwf : GridWF sudoku grid_width)
    (hsolve : solveFuel (createCover sudoku grid_width block_width).1 (fuelFor sudoku)
      (List.range (createCover sudoku grid_width block_width).1.length)
      (List.range (4 * sudoku.length * sudoku.length)) [] [] = some (true, sol, path))
    (hr : r < grid_width) (hc : c < grid_width) :
    ∃ i, i ∈ sol ∧ i < (possList sudoku sudoku.length grid_width).length ∧
      ((possList sudoku sudoku.length grid_width).getD i (0, 0, 0)).1 = r ∧
      ((possList sudoku sudoku.length grid_width).getD i (0, 0, 0)).2.1 = c ∧
      gget (buildFinalSudoku (createCover sudoku grid_width block_width).2 sol sudoku) r c =
        ((possList sudoku sudoku.length grid_width).getD i (0, 0, 0)).2.2 ∧
      (∀ j ∈ sol, ((possList sudoku sudoku.length grid_width).getD j (0, 0, 0)).1 = r →
        ((possList sudoku sudoku.length grid_width).getD j (0, 0, 0)).2.1 = c → j = i) := by
  obtain ⟨hnd, hrange, hcount⟩ := exactCover_top hwf.1 hsolve
  have e4 : 4 * grid_width * grid_width = 4 * (grid_width * grid_width) := by ring
  have hcell4 : r * grid_width + c < 4 * grid_width * grid_width := by
    have := encode_lt hr hc
    omega
  obtain ⟨i, hisol, hip, huniq⟩ := filter_len_one_elim (hcount _ hcell4)
  have hilen := hrange i hisol
  have hicov : coverGet (createCover sudoku grid_width block_width).1 i
      (r * grid_width + c) ≠ 0 := by simpa using hip
  have hiat := (covers_cell_iff hwf hilen hr hc).1 hicov
  have huniq2 : ∀ j ∈ sol,
      ((possList sudoku sudoku.length grid_width).getD j (0, 0, 0)).1 = r →
      ((possList sudoku sudoku.length grid_width).getD j (0, 0, 0)).2.1 = c → j = i := by
    intro j hj h1 h2
    apply huniq j hj
    have := (@covers_cell_iff sudoku grid_width block_width j r c hwf
      (hrange j hj) hr hc).2 ⟨h1, h2⟩
    simpa using this
  refine ⟨i, hisol, hilen, hiat.1, hiat.2, ?_, huniq2⟩
  unfold buildFinalSudoku
  rw [show (createCover sudoku grid_width block_width).2 =
    possList sudoku sudoku.length grid_width from rfl]
  have hpossBounds : ∀ s ∈ sol,
      ((possList sudoku sudoku.length grid_width).getD s (0, 0, 0)).1 < grid_width ∧
      ((possList sudoku sudoku.length grid_width).getD s (0, 0, 0)).2.1 < grid_width := by
    intro s hs
    have := possBounds_getD hwf (hrange s hs)
    exact ⟨this.1, this.2.1⟩
  exact gget_foldl_write sol (zerosLike sudoku) r c _
    (by rw [zerosLike_length, hwf.1])
    (zerosLike_rows_length (fun row hrow => hwf.2.1 row hrow))
    hpossBounds hr hc
    ⟨i, hisol, hiat.1, hiat.2⟩
    (fun s hs h1 h2 => by rw [huniq2 s hs h1 h2])

theorem mem_allCells {grid_width : Nat} {rc : Nat × Nat} :
    rc ∈ allCells grid_width ↔ rc.1 < grid_width ∧ rc.2 < grid_width := by
  obtain ⟨r, c⟩ := rc
  simp [allCells]

theorem nodup_allCells (grid_width : Nat) : (allCells grid_width).Nodup := by
  unfold allCells
  rw [List.nodup_flatMap]
  constructor
  · intro r _
    exact (List.nodup_range _).map (fun a b hab => by simpa using hab)
  · rw [List.pairwise_iff_getElem]
    intro a b ha hb hab
    simp only [Function.onFun, List.getElem_range]
    intro x hxa hxb
    rw [List.mem_map] at hxa hxb
    obtain ⟨ca, _, rfl⟩ := hxa
    obtain ⟨cb, _, hcb⟩ := hxb
    have : a = b := by
      have := congrArg Prod.fst hcb
      simpa using this.symm
    omega

/-- C1: when the top-level search succeeds, the selected possibility
indices cover every one of the `4·grid_width²` constraint columns exactly
once, and the completed grid built from them holds each digit
`1..grid_width` exactly once in every row, every column, and every
block. -/
theorem claim_C1_exact_cover_valid {sudoku : List (List Nat)} {grid_width block_width : Nat}
    {sol : List Nat} {path : List (Nat × Nat)}
    (hbw : block_width * block_width = grid_width) (hwf : GridWF sudoku grid_width)
    (hsolve : solveFuel (createCover sudoku grid_width block_width).1 (fuelFor sudoku)
      (List.range (createCover sudoku grid_width block_width).1.length)
      (List.range (4 * sudoku.length * sudoku.length)) [] [] = some (true, sol, path)) :
    (solveSudoku sudoku grid_width block_width).1 =
      some (buildFinalSudoku (createCover sudoku grid_width block_width).2 sol sudoku) ∧
    (∀ c < 4 * grid_width * grid_width,
      (sol.filter
        (fun i => coverGet (createCover sudoku grid_width block_width).1 i c != 0)).length
        = 1) ∧
    ValidSolved (buildFinalSudoku (createCover sudoku grid_width block_width).2 sol sudoku)
      grid_width block_width := by
  obtain ⟨hnd, hrange, hcount⟩ := exactCover_top hwf.1 hsolve
  have e4 : 4 * grid_width * grid_width = 4 * (grid_width * grid_width) := by ring
  have e2 : 2 * grid_width * grid_width = 2 * (grid_width * grid_width) := by ring
  have e3 : 3 * grid_width * grid_width = 3 * (grid_width * grid_width) := by ring
  refine ⟨by simp [solveSudoku, hsolve], hcount, ?_, ?_, ?_⟩
  · -- rows
    intro r hr d hd1 hd2
    have hy4 : grid_width * grid_width + r * grid_width + d - 1 <
        4 * grid_width * grid_width := by
      have := encode_lt hr (show d - 1 < grid_width by omega)
      omega
    obtain ⟨i0, hi0sol, hi0p, hyuniq⟩ := filter_len_one_elim (hcount _ hy4)
    have hi0len := hrange i0 hi0sol
    have hi0 := (covers_rowdigit_iff hwf hi0len hr hd1 hd2).1 (by simpa using hi0p)
    have hc0 : ((possList sudoku sudoku.length grid_width).getD i0 (0, 0, 0)).2.1 <
        grid_width := (possBounds_getD hwf hi0len).2.1
    unfold rowDigitCount
    apply filter_len_one_intro (List.nodup_range _) (List.mem_range.2 hc0)
    · simp only [decide_eq_true_eq]
      obtain ⟨j, hjsol, hjlen, hj1, hj2, hjval, hjuniq⟩ :=
        final_cell hwf hsolve hr hc0
      have : i0 = j := hjuniq i0 hi0sol hi0.1 rfl
      rw [hjval, ← this, hi0.2]
    · intro b hb hpb
      rw [List.mem_range] at hb
      simp only [decide_eq_true_eq] at hpb
      obtain ⟨j, hjsol, hjlen, hj1, hj2, hjval, _⟩ := final_cell hwf hsolve hr hb
      have hjd : ((possList sudoku sudoku.length grid_width).getD j (0, 0, 0)).2.2 = d := by
        rw [← hjval, hpb]
      have hjcov := (@covers_rowdigit_iff sudoku grid_width block_width j r d
        hwf hjlen hr hd1 hd2).2 ⟨hj1, hjd⟩
      have := hyuniq j hjsol (by simpa using hjcov)
      rw [← hj2, this]
  · -- columns
    intro c hc d hd1 hd2
    have hy4 : 2 * grid_width * grid_width + c * grid_width + d - 1 <
        4 * grid_width * grid_width := by
      have := encode_lt hc (show d - 1 < grid_width by omega)
      omega
    obtain ⟨i0, hi0sol, hi0p, hyuniq⟩ := filter_len_one_elim (hcount _ hy4)
    have hi0len := hrange i0 hi0sol
    have hi0 := (covers_coldigit_iff hwf hi0len hc hd1 hd2).1 (by simpa using hi0p)
    have hr0 : ((possList sudoku sudoku.length grid_width).getD i0 (0, 0, 0)).1 <
        grid_width := (possBounds_getD hwf hi0len).1
    unfold colDigitCount
    apply filter_len_one_intro (List.nodup_range _) (List.mem_range.2 hr0)
    · simp only [decide_eq_true_eq]
      obtain ⟨j, hjsol, hjlen, hj1, hj2, hjval, hjuniq⟩ :=
        final_cell hwf hsolve hr0 hc
      have : i0 = j := hjuniq i0 hi0sol rfl hi0.1
      rw [hjval, ← this, hi0.2]
    · intro b hb hpb
      rw [List.mem_range] at hb
      simp only [decide_eq_true_eq] at hpb
      obtain ⟨j, hjsol, hjlen, hj1, hj2, hjval, _⟩ := final_cell hwf hsolve hb hc
      have hjd : ((possList sudoku sudoku.length grid_width).getD j (0, 0, 0)).2.2 = d := by
        rw [← hjval, hpb]
      have hjcov := (@covers_coldigit_iff sudoku grid_width block_width j c d
        hwf hjlen hc hd1 hd2).2 ⟨hj2, hjd⟩
      have := hyuniq j hjsol (by simpa using hjcov)
      rw [← hj1, this]
  · -- blocks
    intro b hb d hd1 hd2
    have hy4 : 3 * grid_width * grid_width + b * grid_width + d - 1 <
        4 * grid_width * grid_width := by
      have := encode_lt hb (show d - 1 < grid_width by omega)
      omega
    obtain ⟨i0, hi0sol, hi0p, hyuniq⟩ := filter_len_one_elim (hcount _ hy4)
    have hi0len := hrange i0 hi0sol
    have hi0 := (covers_blockdigit_iff hbw hwf hi0len hb hd1 hd2).1 (by simpa using hi0p)
    have hpb0 := possBounds_getD hwf hi0len
    unfold blockDigitCount
    apply filter_len_one_intro (nodup_allCells _)
      ((@mem_allCells grid_width
        (((possList sudoku sudoku.length grid_width).getD i0 (0, 0, 0)).1,
         ((possList sudoku sudoku.length grid_width).getD i0 (0, 0, 0)).2.1)).2
        ⟨hpb0.1, hpb0.2.1⟩)
    · simp only [decide_eq_true_eq]
      obtain ⟨j, hjsol, hjlen, hj1, hj2, hjval, hjuniq⟩ :=
        final_cell hwf hsolve hpb0.1 hpb0.2.1
      have hji : i0 = j := hjuniq i0 hi0sol rfl rfl
      exact ⟨hi0.1, by rw [hjval, ← hji, hi0.2]⟩
    · intro rc hrc hprc
      rw [mem_allCells] at hrc
      simp only [decide_eq_true_eq] at hprc
      obtain ⟨j, hjsol, hjlen, hj1, hj2, hjval, _⟩ := final_cell hwf hsolve hrc.1 hrc.2
      have hjd : ((possList sudoku sudoku.length grid_width).getD j (0, 0, 0)).2.2 = d := by
        rw [← hjval, hprc.2]
      have hjblk : blockIdx ((possList sudoku sudoku.length grid_width).getD j (0, 0, 0)).1
          ((possList sudoku sudoku.length grid_width).getD j (0, 0, 0)).2.1
          grid_width block_width = b := by
        rw [hj1, hj2, hprc.1]
      have hjcov := (covers_blockdigit_iff hbw hwf hjlen hb hd1 hd2).2 ⟨hjblk, hjd⟩
      have hji := hyuniq j hjsol (by simpa using hjcov)
      have h1 : rc.1 = ((possList sudoku sudoku.length grid_width).getD i0 (0, 0, 0)).1 := by
        rw [← hj1, hji]
      have h2 : rc.2 = ((possList sudoku sudoku.length grid_width).getD i0 (0, 0, 0)).2.1 := by
        rw [← hj2, hji]
      exact Prod.ext h1 h2

/-- Witness for C1 at the 1×1 grid `[[0]]`, on which the solver selects the
single possibility `(0, 0, 1)`. -/
theorem claim_C1_witness :
    (1 * 1 = 1 ∧ GridWF [[0]] 1 ∧
      solveFuel (createCover [[0]] 1 1).1 (fuelFor [[0]])
        (List.range (createCover [[0]] 1 1).1.length)
        (List.range (4 * ([[0]] : List (List Nat)).length * ([[0]] : List (List Nat)).length))
        [] [] = some (true, [0], [(1, 0)])) ∧
    ((solveSudoku [[0]] 1 1).1 = some (buildFinalSudoku (createCover [[0]] 1 1).2 [0] [[0]]) ∧
     (∀ c < 4 * 1 * 1,
       (([0] : List Nat).filter
         (fun i => coverGet (createCover [[0]] 1 1).1 i c != 0)).length = 1) ∧
     ValidSolved (buildFinalSudoku (createCover [[0]] 1 1).2 [0] [[0]]) 1 1) := by
  have hwf : GridWF [[0]] 1 := by
    refine ⟨rfl, by simp, ?_⟩
    intro r c
    rcases r with _ | r <;> rcases c with _ | c <;> simp [gget]
  have hsolve : solveFuel (createCover [[0]] 1 1).1 (fuelFor [[0]])
      (List.range (createCover [[0]] 1 1).1.length)
      (List.range (4 * ([[0]] : List (List Nat)).length * ([[0]] : List (List Nat)).length))
      [] [] = some (true, [0], [(1, 0)]) := by decide
  exact ⟨⟨rfl, hwf, hsolve⟩, claim_C1_exact_cover_valid rfl hwf hsolve⟩
/-! ### Complete valid grids: every constraint column is covered exactly once -/

theorem bool_eq_of_iff {a b : Bool} (h : a = true ↔ b = true) : a = b := by
  cases a <;> cases b <;> simp_all

theorem map_getD_range {α : Type} (l : List α) (d : α) :
    (List.range l.length).map (fun i => l.getD i d) = l := by
  induction l with
  | nil => simp
  | cons a as ih =>
    rw [List.length_cons, List.range_succ_eq_map, List.map_cons, List.map_map]
    simp only [List.getD_cons_zero, Function.comp_def, List.getD_cons_succ]
    rw [ih]

theorem filter_index_length {α : Type} (l : List α) (d : α) (q : α → Bool) :
    ((List.range l.length).filter (fun i => q (l.getD i d))).length =
      (l.filter q).length := by
  rw [← List.countP_eq_length_filter, ← List.countP_eq_length_filter]
  conv_rhs => rw [← map_getD_range l d]
  rw [List.countP_map]
  rfl

theorem possList_complete_eq {sudoku : List (List Nat)} {grid_width : Nat}
    (hlen : sudoku.length = grid_width)
    (hcomp : ∀ r < grid_width, ∀ c < grid_width, gget sudoku r c ≠ 0) :
    possList sudoku sudoku.length grid_width =
      (allCells grid_width).map (fun rc => (rc.1, rc.2, gget sudoku rc.1 rc.2)) := by
  unfold possList allCells
  rw [hlen, List.map_flatMap]
  apply List.flatMap_congr
  intro r hr
  rw [List.mem_range] at hr
  have hinner : ∀ c ∈ List.range grid_width,
      (if gget sudoku r c ≠ 0 then [(r, c, gget sudoku r c)]
       else (List.range grid_width).map (fun k => (r, c, k + 1))) =
        [(r, c, gget sudoku r c)] := by
    intro c hc
    rw [List.mem_range] at hc
    rw [if_pos (hcomp r hr c hc)]
  rw [List.flatMap_congr hinner, ← List.map_eq_flatMap, List.map_map]
  rfl

theorem allCells_count_from_possList {sudoku : List (List Nat)}
    {grid_width block_width : Nat} (hlen : sudoku.length = grid_width)
    (hcomp : ∀ r < grid_width, ∀ c < grid_width, gget sudoku r c ≠ 0)
    (q : Nat × Nat × Nat → Bool) (y : Nat)
    (hiff : ∀ i, i < (possList sudoku sudoku.length grid_width).length →
      ((coverGet (createCover sudoku grid_width block_width).1 i y != 0) =
        q ((possList sudoku sudoku.length grid_width).getD i (0, 0, 0)))) :
    ((List.range (createCover sudoku grid_width block_width).1.length).filter
      (fun i => coverGet (createCover sudoku grid_width block_width).1 i y != 0)).length =
    ((allCells grid_width).filter
      (fun rc => q (rc.1, rc.2, gget sudoku rc.1 rc.2))).length := by
  rw [createCover_length]
  rw [List.filter_congr (fun i hi => hiff i (List.mem_range.1 hi))]
  rw [filter_index_length, possList_complete_eq hlen hcomp, List.filter_map]
  rw [List.length_map]
  congr 1

theorem complete_initial_unique {sudoku : List (List Nat)} {grid_width block_width : Nat}
    (hbw : block_width * block_width = grid_width) (hwf : GridWF sudoku grid_width)
    (hcomp : ∀ r < grid_width, ∀ c < grid_width, gget sudoku r c ≠ 0)
    (hvalid : ValidSolved sudoku grid_width block_width) :
    ∀ y < 4 * grid_width * grid_width,
      ((List.range (createCover sudoku grid_width block_width).1.length).filter
        (fun i => coverGet (createCover sudoku grid_width block_width).1 i y != 0)).length
        = 1 := by
  intro y hy
  have hlen := hwf.1
  have e2 : 2 * grid_width * grid_width = 2 * (grid_width * grid_width) := by ring
  have e3 : 3 * grid_width * grid_width = 3 * (grid_width * grid_width) := by ring
  have e4 : 4 * grid_width * grid_width = 4 * (grid_width * grid_width) := by ring
  have hgw : 0 < grid_width := by
    by_contra hg
    push_neg at hg
    interval_cases grid_width
    omega
  by_cases hy1 : y < grid_width * grid_width
  · -- cell constraint column
    set r := y / grid_width with hr_def
    set c := y % grid_width with hc_def
    have hr : r < grid_width := Nat.div_lt_of_lt_mul (by omega)
    have hc : c < grid_width := Nat.mod_lt _ hgw
    have hy_eq : y = r * grid_width + c := by
      rw [hr_def, hc_def, Nat.mul_comm]
      exact (Nat.div_add_mod y grid_width).symm
    rw [allCells_count_from_possList hlen hcomp
      (fun p => decide (p.1 = r ∧ p.2.1 = c)) y
      (fun i hi => by
        rw [hy_eq]
        apply bool_eq_of_iff
        simp only [bne_iff_ne, decide_eq_true_eq]
        exact covers_cell_iff hwf hi hr hc)]
    apply filter_len_one_intro (nodup_allCells _)
      ((@mem_allCells grid_width (r, c)).2 ⟨hr, hc⟩)
    · simp
    · intro rc _ hrc
      simp only [decide_eq_true_eq] at hrc
      exact Prod.ext hrc.1 hrc.2
  · by_cases hy2 : y < 2 * grid_width * grid_width
    · -- row-digit constraint column
      set z := y - grid_width * grid_width with hz_def
      set r := z / grid_width with hr_def
      set d := z % grid_width + 1 with hd_def
      have hzlt : z < grid_width * grid_width := by omega
      have hr : r < grid_width := Nat.div_lt_of_lt_mul (by omega)
      have hd1 : 1 ≤ d := by omega
      have hd2 : d ≤ grid_width := by
        have := Nat.mod_lt z hgw
        omega
      have hy_eq : y = grid_width * grid_width + r * grid_width + d - 1 := by
        have hdm := Nat.div_add_mod z grid_width
        rw [hr_def, hd_def]
        rw [Nat.mul_comm (z / grid_width) grid_width]
        omega
      obtain ⟨c0, hc0mem, hc0p, hc0u⟩ :=
        filter_len_one_elim (hvalid.1 r hr d hd1 hd2)
      rw [List.mem_range] at hc0mem
      simp only [decide_eq_true_eq] at hc0p
      rw [allCells_count_from_possList hlen hcomp
        (fun p => decide (p.1 = r ∧ p.2.2 = d)) y
        (fun i hi => by
          rw [hy_eq]
          apply bool_eq_of_iff
          simp only [bne_iff_ne, decide_eq_true_eq]
          exact covers_rowdigit_iff hwf hi hr hd1 hd2)]
      apply filter_len_one_intro (nodup_allCells _)
        ((@mem_allCells grid_width (r, c0)).2 ⟨hr, hc0mem⟩)
      · simp only [decide_eq_true_eq]
        exact ⟨trivial, hc0p⟩
      · intro rc hrcmem hrc
        rw [mem_allCells] at hrcmem
        simp only [decide_eq_true_eq] at hrc
        have : rc.2 = c0 := by
          apply hc0u rc.2 (List.mem_range.2 hrcmem.2)
          simp only [decide_eq_true_eq]
          rw [← hrc.1]
          exact hrc.2
        exact Prod.ext hrc.1 this
    · by_cases hy3 : y < 3 * grid_width * grid_width
      · -- column-digit constraint column
        set z := y - 2 * grid_width * grid_width with hz_def
        set c := z / grid_width with hc_def
        set d := z % grid_width + 1 with hd_def
        have hzlt : z < grid_width * grid_width := by omega
        have hc : c < grid_width := Nat.div_lt_of_lt_mul (by omega)
        have hd1 : 1 ≤ d := by omega
        have hd2 : d ≤ grid_width := by
          have := Nat.mod_lt z hgw
          omega
        have hy_eq : y = 2 * grid_width * grid_width + c * grid_width + d - 1 := by
          have hdm := Nat.div_add_mod z grid_width
          rw [hc_def, hd_def]
          rw [Nat.mul_comm (z / grid_width) grid_width]
          omega
        obtain ⟨r0, hr0mem, hr0p, hr0u⟩ :=
          filter_len_one_elim (hvalid.2.1 c hc d hd1 hd2)
        rw [List.mem_range] at hr0mem
        simp only [decide_eq_true_eq] at hr0p
        rw [allCells_count_from_possList hlen hcomp
          (fun p => decide (p.2.1 = c ∧ p.2.2 = d)) y
          (fun i hi => by
            rw [hy_eq]
            apply bool_eq_of_iff
            simp only [bne_iff_ne, decide_eq_true_eq]
            exact covers_coldigit_iff hwf hi hc hd1 hd2)]
        apply filter_len_one_intro (nodup_allCells _)
          ((@mem_allCells grid_width (r0, c)).2 ⟨hr0mem, hc⟩)
        · simp only [decide_eq_true_eq]
          exact ⟨trivial, hr0p⟩
        · intro rc hrcmem hrc
          rw [mem_allCells] at hrcmem
          simp only [decide_eq_true_eq] at hrc
          have : rc.1 = r0 := by
            apply hr0u rc.1 (List.mem_range.2 hrcmem.1)
            simp only [decide_eq_true_eq]
            rw [← hrc.1]
            exact hrc.2
          exact Prod.ext this hrc.1
      · -- block-digit constraint column
        set z := y - 3 * grid_width * grid_width with hz_def
        set b := z / grid_width with hb_def
        set d := z % grid_width + 1 with hd_def
        have hzlt : z < grid_width * grid_width := by omega
        have hb : b < grid_width := Nat.div_lt_of_lt_mul (by omega)
        have hd1 : 1 ≤ d := by omega
        have hd2 : d ≤ grid_width := by
          have := Nat.mod_lt z hgw
          omega
        have hy_eq : y = 3 * grid_width * grid_width + b * grid_width + d - 1 := by
          have hdm := Nat.div_add_mod z grid_width
          rw [hb_def, hd_def]
          rw [Nat.mul_comm (z / grid_width) grid_width]
          omega
        rw [allCells_count_from_possList hlen hcomp
          (fun p => decide (blockIdx p.1 p.2.1 grid_width block_width = b ∧ p.2.2 = d)) y
          (fun i hi => by
            rw [hy_eq]
            apply bool_eq_of_iff
            simp only [bne_iff_ne, decide_eq_true_eq]
            exact covers_blockdigit_iff hbw hwf hi hb hd1 hd2)]
        exact hvalid.2.2 b hb d hd1 hd2

theorem solveFuel_forced {cover : List (List Nat)} (h01 : Entries01 cover) :
    ∀ f aR aC sol path,
      aC.toFinset.card < f → aR.Nodup →
      (∀ c ∈ aC, (aR.filter (fun x => coverGet cover x c != 0)).length = 1) →
      ∃ D, (∀ i ∈ D, i ∈ aR) ∧
        solveFuel cover f aR aC sol path =
          some (true, sol ++ D, path ++ D.map (fun i => ((1 : Nat), i))) := by
  intro f
  induction f with
  | zero => intro aR aC sol path hcard _ _; omega
  | succ f ih =>
    intro aR aC sol path hcard hnd hexact
    by_cases hemp : aC.isEmpty
    · exact ⟨[], by simp, by simp [solveFuel, hemp]⟩
    · have hne : aC ≠ [] := by
        cases aC with
        | nil => simp at hemp
        | cons a as => simp
      have hcol : (minCol cover aR aC).1 ∈ aC := minCol_mem hne
      have hcount1 : (minCol cover aR aC).2 = 1 := by
        rw [minCol_count, colCounts_eq_filter_length h01]
        exact hexact _ hcol
      obtain ⟨r0, hr0⟩ := List.length_eq_one.1 (hexact _ hcol)
      have hr0mem : r0 ∈ aR ∧ coverGet cover r0 (minCol cover aR aC).1 ≠ 0 := by
        have : r0 ∈ aR.filter
            (fun x => coverGet cover x (minCol cover aR aC).1 != 0) := by
          rw [hr0]; simp
        rw [List.mem_filter] at this
        exact ⟨this.1, by simpa using this.2⟩
      have hcolsc : (minCol cover aR aC).1 ∈ (selectF r0 cover aR aC).2 :=
        mem_selectF_cols.2 ⟨hcol, hr0mem.2⟩
      have memaR1 : ∀ x, x ∈ setdiff1d aR (selectF r0 cover aR aC).1 ↔
          x ∈ aR ∧ x ∉ (selectF r0 cover aR aC).1 := fun x => mem_setdiff1d
      have memaC1 : ∀ c, c ∈ setdiff1d aC (selectF r0 cover aR aC).2 ↔
          c ∈ aC ∧ coverGet cover r0 c = 0 := by
        intro c
        rw [mem_setdiff1d, mem_selectF_cols]
        constructor
        · rintro ⟨hc, hnc⟩
          refine ⟨hc, ?_⟩
          by_contra hcc
          exact hnc ⟨hc, hcc⟩
        · rintro ⟨hc, hz⟩
          exact ⟨hc, fun hh => hh.2 hz⟩
      have hexact1 : ∀ c ∈ setdiff1d aC (selectF r0 cover aR aC).2,
          ((setdiff1d aR (selectF r0 cover aR aC).1).filter
            (fun x => coverGet cover x c != 0)).length = 1 := by
        intro c hc1
        obtain ⟨hcA, hcz⟩ := (memaC1 c).1 hc1
        obtain ⟨x0, hx0mem, hx0p, hx0u⟩ := filter_len_one_elim (hexact c hcA)
        have hx0cov : coverGet cover x0 c ≠ 0 := by simpa using hx0p
        have hx0in : x0 ∈ setdiff1d aR (selectF r0 cover aR aC).1 := by
          rw [memaR1]
          refine ⟨hx0mem, ?_⟩
          intro hx0sel
          obtain ⟨_, c1, hc1A, hr0c1, hx0c1⟩ := mem_selectF_rows.1 hx0sel
          obtain ⟨u, humem, hup, huu⟩ := filter_len_one_elim (hexact c1 hc1A)
          have h1 : r0 = u := huu r0 hr0mem.1 (by simpa using hr0c1)
          have h2 : x0 = u := huu x0 hx0mem (by simpa using hx0c1)
          rw [h2, ← h1] at hx0cov
          exact hx0cov hcz
        apply filter_len_one_intro (nodup_setdiff1d _ _) hx0in (by simpa using hx0cov)
        intro y hy hyp
        exact hx0u y ((memaR1 y).1 hy).1 hyp
      have hcard1 : (setdiff1d aC (selectF r0 cover aR aC).2).toFinset.card < f := by
        have := setdiff_card_lt hcol hcolsc
        omega
      obtain ⟨D1, hD1mem, hD1⟩ := ih (setdiff1d aR (selectF r0 cover aR aC).1)
        (setdiff1d aC (selectF r0 cover aR aC).2)
        (sol ++ [r0]) (path ++ [(1, r0)]) hcard1 (nodup_setdiff1d _ _) hexact1
      refine ⟨r0 :: D1, ?_, ?_⟩
      · intro i hi
        rcases List.mem_cons.1 hi with rfl | hi
        · exact hr0mem.1
        · exact ((memaR1 i).1 (hD1mem i hi)).1
      · simp only [solveFuel]
        rw [if_neg (by simp [hemp]), if_neg (by omega)]
        rw [hr0]
        simp only [tryLoop]
        rw [hD1]
        simp

theorem foldl_gridSet_shape {poss : List (Nat × Nat × Nat)} {gw : Nat} :
    ∀ (sol : List Nat) (g : List (List Nat)),
      g.length = gw → (∀ row ∈ g, row.length = gw) →
      (∀ s ∈ sol, (poss.getD s (0, 0, 0)).1 < gw) →
      (sol.foldl (fun final s => gridSet final (poss.getD s (0, 0, 0)).1
        (poss.getD s (0, 0, 0)).2.1 (poss.getD s (0, 0, 0)).2.2) g).length = gw ∧
      (∀ row ∈ sol.foldl (fun final s => gridSet final (poss.getD s (0, 0, 0)).1
        (poss.getD s (0, 0, 0)).2.1 (poss.getD s (0, 0, 0)).2.2) g, row.length = gw) := by
  intro sol
  induction sol with
  | nil => intro g hg hrows _; exact ⟨hg, hrows⟩
  | cons s ss ih =>
    intro g hg hrows hcells
    rw [List.foldl_cons]
    exact ih _ (by rw [gridSet_length, hg])
      (gridSet_rows_length (by rw [hg]; exact hcells s (by simp)) hrows)
      (fun x hx => hcells x (by simp [hx]))

theorem grid_ext {g1 g2 : List (List Nat)} {gw : Nat}
    (h1 : g1.length = gw) (h2 : g2.length = gw)
    (hr1 : ∀ row ∈ g1, row.length = gw) (hr2 : ∀ row ∈ g2, row.length = gw)
    (hval : ∀ r < gw, ∀ c < gw, gget g1 r c = gget g2 r c) : g1 = g2 := by
  apply List.ext_getElem (by omega)
  intro i hi1 hi2
  apply List.ext_getElem
  · rw [hr1 _ (List.getElem_mem hi1), hr2 _ (List.getElem_mem hi2)]
  · intro c hc1 hc2
    have hcgw : c < gw := by
      rw [hr1 _ (List.getElem_mem hi1)] at hc1
      exact hc1
    have higw : i < gw := by omega
    have hv := hval i higw c hcgw
    unfold gget at hv
    rw [List.getD_eq_getElem _ [] hi1, List.getD_eq_getElem _ [] hi2] at hv
    rw [List.getD_eq_getElem _ 0 hc1, List.getD_eq_getElem _ 0 hc2] at hv
    exact hv

/-- The completed grid agrees with the input at every originally filled
cell: the cell's only possibility carries its existing digit. -/
theorem final_extends {sudoku : List (List Nat)} {grid_width block_width : Nat}
    {sol : List Nat} {path : List (Nat × Nat)}
    (hwf : GridWF sudoku grid_width)
    (hsolve : solveFuel (createCover sudoku grid_width block_width).1 (fuelFor sudoku)
      (List.range (createCover sudoku grid_width block_width).1.length)
      (List.range (4 * sudoku.length * sudoku.length)) [] [] = some (true, sol, path)) :
    ∀ r c, gget sudoku r c ≠ 0 →
      gget (buildFinalSudoku (createCover sudoku grid_width block_width).2 sol sudoku) r c =
        gget sudoku r c := by
  intro r c hz
  have hlen := hwf.1
  have hrlt : r < grid_width := by
    by_contra hr
    push_neg at hr
    apply hz
    unfold gget
    rw [List.getD_eq_default _ _ (by omega : sudoku.length ≤ r)]
    simp
  have hclt : c < grid_width := by
    by_contra hc
    push_neg at hc
    apply hz
    unfold gget
    rcases Nat.lt_or_ge r sudoku.length with hr2 | hr2
    · have hrow : (sudoku.getD r []).length = grid_width :=
        hwf.2.1 _ (getD_mem_of_lt [] hr2)
      rw [List.getD_eq_default _ _ (by omega)]
    · rw [List.getD_eq_default _ _ (by omega : sudoku.length ≤ r)]
      simp
  obtain ⟨i, hisol, hilen, hi1, hi2, hival, _⟩ := final_cell hwf hsolve hrlt hclt
  rw [hival]
  have hmem := getD_mem_of_lt ((0 : Nat), (0 : Nat), (0 : Nat)) hilen
  have hb := mem_possList_bounds hmem
  rw [hi1, hi2] at hb
  exact hb.2.2.2.1 hz

theorem buildFinalSudoku_eq_foldl (poss : List (Nat × Nat × Nat)) (sol : List Nat)
    (sudoku : List (List Nat)) :
    buildFinalSudoku poss sol sudoku =
      sol.foldl (fun final s => gridSet final (poss.getD s (0, 0, 0)).1
        (poss.getD s (0, 0, 0)).2.1 (poss.getD s (0, 0, 0)).2.2) (zerosLike sudoku) := rfl

/-- The completed grid is itself a well-formed grid. -/
theorem final_wf {sudoku : List (List Nat)} {grid_width block_width : Nat}
    {sol : List Nat} {path : List (Nat × Nat)}
    (hwf : GridWF sudoku grid_width)
    (hsolve : solveFuel (createCover sudoku grid_width block_width).1 (fuelFor sudoku)
      (List.range (createCover sudoku grid_width block_width).1.length)
      (List.range (4 * sudoku.length * sudoku.length)) [] [] = some (true, sol, path)) :
    GridWF (buildFinalSudoku (createCover sudoku grid_width block_width).2 sol sudoku)
      grid_width := by
  obtain ⟨hnd, hrange, hcount⟩ := exactCover_top hwf.1 hsolve
  have hcells : ∀ s ∈ sol,
      ((possList sudoku sudoku.length grid_width).getD s (0, 0, 0)).1 < grid_width :=
    fun s hs => (possBounds_getD hwf (hrange s hs)).1
  have hshape := foldl_gridSet_shape sol (zerosLike sudoku)
    (by rw [zerosLike_length, hwf.1])
    (zerosLike_rows_length (fun row hrow => hwf.2.1 row hrow)) hcells
  have hlen2 : (buildFinalSudoku (createCover sudoku grid_width block_width).2
      sol sudoku).length = grid_width := by
    rw [buildFinalSudoku_eq_foldl]
    exact hshape.1
  have hrows2 : ∀ row ∈ buildFinalSudoku (createCover sudoku grid_width block_width).2
      sol sudoku, row.length = grid_width := by
    rw [buildFinalSudoku_eq_foldl]
    exact hshape.2
  refine ⟨hlen2, hrows2, ?_⟩
  intro r c
  rcases Nat.lt_or_ge r grid_width with hr | hr
  · rcases Nat.lt_or_ge c grid_width with hc | hc
    · obtain ⟨i, hisol, hilen, hi1, hi2, hival, _⟩ := final_cell hwf hsolve hr hc
      rw [hival]
      exact (possBounds_getD hwf hilen).2.2.2
    · unfold gget
      rcases Nat.lt_or_ge r (buildFinalSudoku (createCover sudoku grid_width block_width).2
          sol sudoku).length with hr2 | hr2
      · have hrow := hrows2 _ (getD_mem_of_lt [] hr2)
        rw [List.getD_eq_default _ _ (by omega)]
        simp
      · have hempty : (buildFinalSudoku (createCover sudoku grid_width block_width).2
            sol sudoku).getD r [] = [] := List.getD_eq_default _ _ (by omega)
        rw [hempty]
        simp
  · unfold gget
    have hempty : (buildFinalSudoku (createCover sudoku grid_width block_width).2
        sol sudoku).getD r [] = [] := List.getD_eq_default _ _ (by omega)
    rw [hempty]
    simp

/-- C7 (counterexample to the claim as stated): on the already-solved 1×1
grid `[[1]]` the solver returns the grid unchanged, but the action log is
`[("ins", 0, 0, 1)]`, not empty: the search still selects one possibility
per cell and logs it. -/
theorem claim_C7_counterexample :
    (GridWF [[1]] 1 ∧ (∀ r < 1, ∀ c < 1, gget [[1]] r c ≠ 0) ∧
      ValidSolved [[1]] 1 1) ∧
    (solveSudoku [[1]] 1 1).1 = some [[1]] ∧
    (solveSudoku [[1]] 1 1).2 = some [("ins", 0, 0, 1)] ∧
    (solveSudoku [[1]] 1 1).2 ≠ some [] := by
  refine ⟨⟨⟨rfl, by simp, ?_⟩, by decide, ?_⟩, by decide, by decide, by decide⟩
  · intro r c
    rcases r with _ | r <;> rcases c with _ | c <;> simp [gget]
  · refine ⟨?_, ?_, ?_⟩ <;>
      exact fun x hx d hd1 hd2 => by
        interval_cases x
        interval_cases d
        decide

theorem allCells_length (grid_width : Nat) :
    (allCells grid_width).length = grid_width * grid_width := by
  unfold allCells
  rw [List.length_flatMap]
  simp only [Function.comp_def]
  have hmap : (List.range grid_width).map
      (fun r => ((List.range grid_width).map (fun c => (r, c))).length) =
      (List.range grid_width).map (fun r => grid_width) := by
    apply List.map_congr_left
    intro r _
    rw [List.length_map, List.length_range]
  rw [hmap, List.map_const', List.length_range, List.sum_replicate, smul_eq_mul]

/-- C7 (amended): for a fully filled valid grid, `solve_sudoku` returns a
completed grid equal to the input, and an action log that is not empty:
it holds exactly one `"ins"` event per cell (`grid_width²` actions in
total, each within bounds, each re-inserting the cell's existing digit,
with every cell inserted) — a no-op log, but never the empty one. -/
theorem claim_C7_complete_grid {sudoku : List (List Nat)} {grid_width block_width : Nat}
    (hbw : block_width * block_width = grid_width) (hwf : GridWF sudoku grid_width)
    (hcomp : ∀ r < grid_width, ∀ c < grid_width, gget sudoku r c ≠ 0)
    (hvalid : ValidSolved sudoku grid_width block_width) :
    (solveSudoku sudoku grid_width block_width).1 = some sudoku ∧
    ∃ acts, (solveSudoku sudoku grid_width block_width).2 = some acts ∧
      (∀ a ∈ acts, a.1 = "ins" ∧ a.2.1 < grid_width ∧ a.2.2.1 < grid_width ∧
        gget sudoku a.2.1 a.2.2.1 = a.2.2.2) ∧
      (∀ r < grid_width, ∀ c < grid_width, ("ins", r, c, gget sudoku r c) ∈ acts) ∧
      acts.length = grid_width * grid_width ∧
      (0 < grid_width → acts ≠ []) := by
  have hlen := hwf.1
  have h01 := entries01_createCover sudoku grid_width block_width
  have hcard : (List.range (4 * sudoku.length * sudoku.length)).toFinset.card <
      fuelFor sudoku := by
    rw [List.toFinset_card_of_nodup (List.nodup_range _), List.length_range]
    unfold fuelFor
    omega
  have hexact : ∀ c ∈ List.range (4 * sudoku.length * sudoku.length),
      ((List.range (createCover sudoku grid_width block_width).1.length).filter
        (fun x => coverGet (createCover sudoku grid_width block_width).1 x c != 0)).length
        = 1 := by
    intro c hc
    rw [List.mem_range, hlen] at hc
    exact complete_initial_unique hbw hwf hcomp hvalid c hc
  obtain ⟨D, hDmem, heq⟩ := solveFuel_forced h01 (fuelFor sudoku)
    (List.range (createCover sudoku grid_width block_width).1.length)
    (List.range (4 * sudoku.length * sudoku.length)) [] []
    hcard (List.nodup_range _) hexact
  simp only [List.nil_append] at heq
  have hDlen : ∀ i ∈ D, i < (possList sudoku sudoku.length grid_width).length := by
    intro i hi
    have := hDmem i hi
    rw [List.mem_range, createCover_length] at this
    exact this
  have hDdigit : ∀ i ∈ D,
      gget sudoku ((possList sudoku sudoku.length grid_width).getD i (0, 0, 0)).1
        ((possList sudoku sudoku.length grid_width).getD i (0, 0, 0)).2.1 =
      ((possList sudoku sudoku.length grid_width).getD i (0, 0, 0)).2.2 := by
    intro i hi
    have hb := mem_possList_bounds
      (getD_mem_of_lt ((0 : Nat), (0 : Nat), (0 : Nat)) (hDlen i hi))
    exact (hb.2.2.2.1 (hcomp _ (by omega) _ (by omega))).symm
  have hfinal : buildFinalSudoku (createCover sudoku grid_width block_width).2 D sudoku =
      sudoku := by
    have hWF2 := final_wf hwf heq
    apply grid_ext hWF2.1 hlen hWF2.2.1 hwf.2.1
    intro r hr c hc
    exact final_extends hwf heq r c (hcomp r hr c hc)
  obtain ⟨hnd, hrange, _⟩ := exactCover_top hlen heq
  have hDb : ∀ i ∈ D,
      ((possList sudoku sudoku.length grid_width).getD i (0, 0, 0)).1 < grid_width ∧
      ((possList sudoku sudoku.length grid_width).getD i (0, 0, 0)).2.1 < grid_width :=
    fun i hi => ⟨(possBounds_getD hwf (hrange i hi)).1,
      (possBounds_getD hwf (hrange i hi)).2.1⟩
  have hDcount : D.length = grid_width * grid_width := by
    have hbij : D.toFinset.card = (allCells grid_width).toFinset.card := by
      apply Finset.card_bij (fun i _ =>
        (((possList sudoku sudoku.length grid_width).getD i (0, 0, 0)).1,
          ((possList sudoku sudoku.length grid_width).getD i (0, 0, 0)).2.1))
      · intro a ha
        rw [List.mem_toFinset] at ha
        rw [List.mem_toFinset]
        exact mem_allCells.2 ⟨(hDb a ha).1, (hDb a ha).2⟩
      · intro a1 ha1 a2 ha2 hcells
        rw [List.mem_toFinset] at ha1 ha2
        simp only [Prod.mk.injEq] at hcells
        obtain ⟨hc1, hc2⟩ := hcells
        obtain ⟨j, hjD, hjlen, hj1, hj2, hjv, hjuniq⟩ :=
          final_cell hwf heq (hDb a1 ha1).1 (hDb a1 ha1).2
        have h1 := hjuniq a1 ha1 rfl rfl
        have h2 := hjuniq a2 ha2 hc1.symm hc2.symm
        rw [h1, h2]
      · intro b hb
        rw [List.mem_toFinset] at hb
        have hb2 := mem_allCells.1 hb
        obtain ⟨i, hiD, hilen, hi1, hi2, _, _⟩ := final_cell hwf heq hb2.1 hb2.2
        refine ⟨i, List.mem_toFinset.2 hiD, ?_⟩
        rw [hi1, hi2]
    rw [List.toFinset_card_of_nodup hnd,
      List.toFinset_card_of_nodup (nodup_allCells _)] at hbij
    rw [hbij, allCells_length]
  have hacts_len : (buildSolvingPath (createCover sudoku grid_width block_width).2
      (D.map (fun i => ((1 : Nat), i)))).length = grid_width * grid_width := by
    unfold buildSolvingPath
    rw [List.length_map, List.length_map, hDcount]
  constructor
  · simp only [solveSudoku, heq]
    rw [hfinal]
  · refine ⟨buildSolvingPath (createCover sudoku grid_width block_width).2
      (D.map (fun i => ((1 : Nat), i))), by simp [solveSudoku, heq], ?_, ?_, hacts_len, ?_⟩
    · intro a ha
      unfold buildSolvingPath at ha
      rw [List.mem_map] at ha
      obtain ⟨e, he, hae⟩ := ha
      rw [List.mem_map] at he
      obtain ⟨i, hiD, rfl⟩ := he
      simp only [if_pos rfl] at hae
      rw [← hae]
      exact ⟨rfl, (hDb i hiD).1, (hDb i hiD).2, hDdigit i hiD⟩
    · intro r hr c hc
      obtain ⟨i, hiD, hilen, hi1, hi2, _, _⟩ := final_cell hwf heq hr hc
      have hdig := hDdigit i hiD
      rw [hi1, hi2] at hdig
      unfold buildSolvingPath
      rw [List.mem_map]
      refine ⟨(1, i), List.mem_map.2 ⟨i, hiD, rfl⟩, ?_⟩
      show ("ins",
        ((possList sudoku sudoku.length grid_width).getD i (0, 0, 0)).1,
        ((possList sudoku sudoku.length grid_width).getD i (0, 0, 0)).2.1,
        ((possList sudoku sudoku.length grid_width).getD i (0, 0, 0)).2.2) =
        ("ins", r, c, gget sudoku r c)
      rw [hi1, hi2, hdig]
    · intro hgw hnil
      rw [hnil] at hacts_len
      simp only [List.length_nil] at hacts_len
      have := Nat.mul_eq_zero.1 hacts_len.symm
      omega

/-- Witness for C7 (amended) at the complete valid 1×1 grid `[[1]]`. -/
theorem claim_C7_witness :
    (1 * 1 = 1 ∧ GridWF [[1]] 1 ∧ (∀ r < 1, ∀ c < 1, gget [[1]] r c ≠ 0) ∧
      ValidSolved [[1]] 1 1) ∧
    ((solveSudoku [[1]] 1 1).1 = some [[1]] ∧
     ∃ acts, (solveSudoku [[1]] 1 1).2 = some acts ∧
       (∀ a ∈ acts, a.1 = "ins" ∧ a.2.1 < 1 ∧ a.2.2.1 < 1 ∧
         gget [[1]] a.2.1 a.2.2.1 = a.2.2.2) ∧
       (∀ r < 1, ∀ c < 1, ("ins", r, c, gget [[1]] r c) ∈ acts) ∧
       acts.length = 1 * 1 ∧
       (0 < 1 → acts ≠ [])) := by
  have hwf : GridWF [[1]] 1 := by
    refine ⟨rfl, by simp, ?_⟩
    intro r c
    rcases r with _ | r <;> rcases c with _ | c <;> simp [gget]
  have hvalid : ValidSolved [[1]] 1 1 := by
    refine ⟨?_, ?_, ?_⟩ <;>
      exact fun x hx d hd1 hd2 => by
        interval_cases x
        interval_cases d
        decide
  exact ⟨⟨rfl, hwf, by decide, hvalid⟩,
    claim_C7_complete_grid rfl hwf (by decide) hvalid⟩

/-! ### No-solution inputs -/

theorem two_mem_length {α : Type} {l : List α} {a b : α}
    (ha : a ∈ l) (hb : b ∈ l) (hab : a ≠ b) : 2 ≤ l.length := by
  cases l with
  | nil => simp at ha
  | cons x xs =>
    cases xs with
    | nil =>
      simp at ha hb
      rw [ha, ← hb] at hab
      simp at hab
    | cons y ys => simp
  
theorem gget_le_of_all {g : List (List Nat)} {gw : Nat}
    (h : ∀ row ∈ g, ∀ v ∈ row, v ≤ gw) : ∀ r c, gget g r c ≤ gw := by
  intro r c
  unfold gget
  rcases Nat.lt_or_ge r g.length with hr | hr
  · have hrow := getD_mem_of_lt ([] : List Nat) hr
    rcases Nat.lt_or_ge c (g.getD r []).length with hc | hc
    · exact h _ hrow _ (getD_mem_of_lt 0 hc)
    · rw [List.getD_eq_default _ _ hc]
      omega
  · rw [List.getD_eq_default _ _ hr]
    simp

/-- A duplicated fixed digit in a row rules out any valid completion. -/
theorem dup_row_no_completion {sudoku : List (List Nat)} {grid_width block_width : Nat}
    {r c1 c2 : Nat}
    (hr : r < grid_width) (hc1 : c1 < grid_width) (hc2 : c2 < grid_width) (hne : c1 ≠ c2)
    (hv1 : gget sudoku r c1 ≠ 0) (heq : gget sudoku r c1 = gget sudoku r c2)
    (hd : gget sudoku r c1 ≤ grid_width) :
    ∀ g, ¬ ValidCompletion sudoku g grid_width block_width := by
  rintro g ⟨hgwf, hgvalid, hext⟩
  have h1 : gget g r c1 = gget sudoku r c1 := hext r c1 hv1
  have h2 : gget g r c2 = gget sudoku r c1 := by
    rw [hext r c2 (by rw [← heq]; exact hv1), ← heq]
  have hcount := hgvalid.1 r hr (gget sudoku r c1) (by omega) hd
  unfold rowDigitCount at hcount
  have hm1 : c1 ∈ (List.range grid_width).filter
      (fun c => gget g r c = gget sudoku r c1) := by
    rw [List.mem_filter]
    exact ⟨List.mem_range.2 hc1, by simpa using h1⟩
  have hm2 : c2 ∈ (List.range grid_width).filter
      (fun c => gget g r c = gget sudoku r c1) := by
    rw [List.mem_filter]
    exact ⟨List.mem_range.2 hc2, by simpa using h2⟩
  have := two_mem_length hm1 hm2 hne
  omega

/-- C8: an input grid with no valid completion — in particular one with a
duplicated fixed digit — makes the root search exhaust all branches and
`solve_sudoku` return the null result (no completed grid, no solution
path) rather than crashing or looping: the fuel bound shows the recursion
terminates, and a successful search would yield a valid completion. -/
theorem claim_C8_no_solution {sudoku : List (List Nat)} {grid_width block_width : Nat}
    (hbw : block_width * block_width = grid_width) (hwf : GridWF sudoku grid_width)
    (hnosol : ∀ g, ¬ ValidCompletion sudoku g grid_width block_width) :
    solveSudoku sudoku grid_width block_width = (none, none) := by
  have hlen := hwf.1
  have hcard : (List.range (4 * sudoku.length * sudoku.length)).toFinset.card <
      fuelFor sudoku := by
    rw [List.toFinset_card_of_nodup (List.nodup_range _), List.length_range]
    unfold fuelFor
    omega
  have hsome := @solveFuel_isSome (createCover sudoku grid_width block_width).1
    (fuelFor sudoku)
    (List.range (createCover sudoku grid_width block_width).1.length)
    (List.range (4 * sudoku.length * sudoku.length)) [] [] hcard
  rw [Option.isSome_iff_exists] at hsome
  obtain ⟨⟨b, sol2, path2⟩, hv⟩ := hsome
  cases b with
  | true =>
    exfalso
    have hC1 := claim_C1_exact_cover_valid hbw hwf hv
    exact hnosol _ ⟨final_wf hwf hv, hC1.2.2, final_extends hwf hv⟩
  | false => simp [solveSudoku, hv]

set_option maxRecDepth 10000 in
/-- Witness for C8 at a 4×4 grid with two 1s in its first row. -/
theorem claim_C8_witness :
    (2 * 2 = 4 ∧ GridWF [[1, 1, 0, 0], [0, 0, 0, 0], [0, 0, 0, 0], [0, 0, 0, 0]] 4) ∧
    solveSudoku [[1, 1, 0, 0], [0, 0, 0, 0], [0, 0, 0, 0], [0, 0, 0, 0]] 4 2 =
      (none, none) := by
  have hwf : GridWF [[1, 1, 0, 0], [0, 0, 0, 0], [0, 0, 0, 0], [0, 0, 0, 0]] 4 := by
    refine ⟨rfl, by decide, gget_le_of_all (by decide)⟩
  refine ⟨⟨rfl, hwf⟩, ?_⟩
  exact claim_C8_no_solution (by decide) hwf
    (@dup_row_no_completion [[1, 1, 0, 0], [0, 0, 0, 0], [0, 0, 0, 0], [0, 0, 0, 0]]
      4 2 0 0 1 (by decide) (by decide) (by decide) (by decide) (by decide)
      (by decide) (by decide))
/-! ### Replaying and unwinding the event log -/

theorem buildSolvingPath_eq_map (poss : List (Nat × Nat × Nat)) (path : List (Nat × Nat)) :
    buildSolvingPath poss path = path.map (eventAction poss) := rfl

theorem applyEvent_eq (poss : List (Nat × Nat × Nat)) (g : List (List Nat)) (e : Nat × Nat) :
    applyEvent poss g e =
      if e.1 = 1 then gridSet g (poss.getD e.2 (0, 0, 0)).1 (poss.getD e.2 (0, 0, 0)).2.1
        (poss.getD e.2 (0, 0, 0)).2.2
      else gridSet g (poss.getD e.2 (0, 0, 0)).1 (poss.getD e.2 (0, 0, 0)).2.1 0 := by
  unfold applyEvent eventAction applyAction
  by_cases h : e.1 = 1 <;> simp [h]

theorem unwindEvent_eq (poss : List (Nat × Nat × Nat)) (g : List (List Nat)) (e : Nat × Nat) :
    unwindEvent poss g e =
      if e.1 = 1 then gridSet g (poss.getD e.2 (0, 0, 0)).1 (poss.getD e.2 (0, 0, 0)).2.1 0
      else gridSet g (poss.getD e.2 (0, 0, 0)).1 (poss.getD e.2 (0, 0, 0)).2.1
        (poss.getD e.2 (0, 0, 0)).2.2 := by
  unfold unwindEvent eventAction invAction
  by_cases h : e.1 = 1 <;> simp [h]

theorem gget_applyEvent_other {poss : List (Nat × Nat × Nat)} {g : List (List Nat)}
    {e : Nat × Nat} {r c : Nat} (h : EventCell poss e ≠ (r, c)) :
    gget (applyEvent poss g e) r c = gget g r c := by
  rw [applyEvent_eq]
  have hne : ¬((poss.getD e.2 (0, 0, 0)).1 = r ∧ (poss.getD e.2 (0, 0, 0)).2.1 = c) := by
    intro ⟨h1, h2⟩
    exact h (Prod.ext h1 h2)
  split <;> exact gget_gridSet_other hne

theorem gget_unwindEvent_other {poss : List (Nat × Nat × Nat)} {g : List (List Nat)}
    {e : Nat × Nat} {r c : Nat} (h : EventCell poss e ≠ (r, c)) :
    gget (unwindEvent poss g e) r c = gget g r c := by
  rw [unwindEvent_eq]
  have hne : ¬((poss.getD e.2 (0, 0, 0)).1 = r ∧ (poss.getD e.2 (0, 0, 0)).2.1 = c) := by
    intro ⟨h1, h2⟩
    exact h (Prod.ext h1 h2)
  split <;> exact gget_gridSet_other hne

theorem applyEvent_length (poss : List (Nat × Nat × Nat)) (g : List (List Nat))
    (e : Nat × Nat) : (applyEvent poss g e).length = g.length := by
  rw [applyEvent_eq]
  split <;> rw [gridSet_length]

theorem unwindEvent_length (poss : List (Nat × Nat × Nat)) (g : List (List Nat))
    (e : Nat × Nat) : (unwindEvent poss g e).length = g.length := by
  rw [unwindEvent_eq]
  split <;> rw [gridSet_length]

theorem applyEvent_rows {poss : List (Nat × Nat × Nat)} {g : List (List Nat)} {gw : Nat}
    {e : Nat × Nat} (hr : (poss.getD e.2 (0, 0, 0)).1 < gw) (hg : g.length = gw)
    (hrows : ∀ row ∈ g, row.length = gw) : ∀ row ∈ applyEvent poss g e, row.length = gw := by
  rw [applyEvent_eq]
  split <;> exact gridSet_rows_length (by omega) hrows

theorem unwindEvent_rows {poss : List (Nat × Nat × Nat)} {g : List (List Nat)} {gw : Nat}
    {e : Nat × Nat} (hr : (poss.getD e.2 (0, 0, 0)).1 < gw) (hg : g.length = gw)
    (hrows : ∀ row ∈ g, row.length = gw) :
    ∀ row ∈ unwindEvent poss g e, row.length = gw := by
  rw [unwindEvent_eq]
  split <;> exact gridSet_rows_length (by omega) hrows

theorem foldE_shape {poss : List (Nat × Nat × Nat)} {gw : Nat} :
    ∀ (pd : List (Nat × Nat)) (g : List (List Nat)),
      g.length = gw → (∀ row ∈ g, row.length = gw) →
      (∀ e ∈ pd, (poss.getD e.2 (0, 0, 0)).1 < gw) →
      (pd.foldl (applyEvent poss) g).length = gw ∧
        ∀ row ∈ pd.foldl (applyEvent poss) g, row.length = gw := by
  intro pd
  induction pd with
  | nil => exact fun g hg hrows _ => ⟨hg, hrows⟩
  | cons e es ih =>
    intro g hg hrows hcells
    rw [List.foldl_cons]
    exact ih _ (by rw [applyEvent_length, hg])
      (applyEvent_rows (hcells e (by simp)) hg hrows)
      (fun x hx => hcells x (by simp [hx]))

theorem foldU_shape {poss : List (Nat × Nat × Nat)} {gw : Nat} :
    ∀ (pd : List (Nat × Nat)) (g : List (List Nat)),
      g.length = gw → (∀ row ∈ g, row.length = gw) →
      (∀ e ∈ pd, (poss.getD e.2 (0, 0, 0)).1 < gw) →
      (pd.foldl (unwindEvent poss) g).length = gw ∧
        ∀ row ∈ pd.foldl (unwindEvent poss) g, row.length = gw := by
  intro pd
  induction pd with
  | nil => exact fun g hg hrows _ => ⟨hg, hrows⟩
  | cons e es ih =>
    intro g hg hrows hcells
    rw [List.foldl_cons]
    exact ih _ (by rw [unwindEvent_length, hg])
      (unwindEvent_rows (hcells e (by simp)) hg hrows)
      (fun x hx => hcells x (by simp [hx]))

theorem gget_applyEvent_same {poss : List (Nat × Nat × Nat)} {g : List (List Nat)}
    {gw : Nat} {e : Nat × Nat} {r c : Nat}
    (hcell : EventCell poss e = (r, c)) (hg : g.length = gw)
    (hrows : ∀ row ∈ g, row.length = gw) (hr : r < gw) (hc : c < gw) :
    gget (applyEvent poss g e) r c =
      if e.1 = 1 then (poss.getD e.2 (0, 0, 0)).2.2 else 0 := by
  have h1 : (poss.getD e.2 (0, 0, 0)).1 = r := congrArg Prod.fst hcell
  have h2 : (poss.getD e.2 (0, 0, 0)).2.1 = c := congrArg Prod.snd hcell
  have hrg : r < g.length := by omega
  have hcg : c < (g.getD r []).length := by
    rw [hrows _ (getD_mem_of_lt [] hrg)]
    exact hc
  rw [applyEvent_eq, h1, h2]
  split <;> rw [gget_gridSet_same hrg hcg]

theorem gget_unwindEvent_same {poss : List (Nat × Nat × Nat)} {g : List (List Nat)}
    {gw : Nat} {e : Nat × Nat} {r c : Nat}
    (hcell : EventCell poss e = (r, c)) (hg : g.length = gw)
    (hrows : ∀ row ∈ g, row.length = gw) (hr : r < gw) (hc : c < gw) :
    gget (unwindEvent poss g e) r c =
      if e.1 = 1 then 0 else (poss.getD e.2 (0, 0, 0)).2.2 := by
  have h1 : (poss.getD e.2 (0, 0, 0)).1 = r := congrArg Prod.fst hcell
  have h2 : (poss.getD e.2 (0, 0, 0)).2.1 = c := congrArg Prod.snd hcell
  have hrg : r < g.length := by omega
  have hcg : c < (g.getD r []).length := by
    rw [hrows _ (getD_mem_of_lt [] hrg)]
    exact hc
  rw [unwindEvent_eq, h1, h2]
  split <;> rw [gget_gridSet_same hrg hcg]

theorem ReplayClears_append {poss : List (Nat × Nat × Nat)} {gw : Nat}
    {pd1 pd2 : List (Nat × Nat)}
    (hb1 : ∀ e ∈ pd1, (poss.getD e.2 (0, 0, 0)).1 < gw)
    (h1 : ReplayClears poss gw pd1) (h2 : ReplayClears poss gw pd2) :
    ReplayClears poss gw (pd1 ++ pd2) := by
  intro g hg hrows
  have hshape := foldE_shape pd1 g hg hrows hb1
  obtain ⟨hc1, hu1⟩ := h1 g hg hrows
  obtain ⟨hc2, hu2⟩ := h2 _ hshape.1 hshape.2
  constructor
  · rintro r c ⟨e, he, hcell⟩
    rw [List.foldl_append]
    rcases List.mem_append.1 he with he1 | he2
    · by_cases h2t : ∃ e2 ∈ pd2, EventCell poss e2 = (r, c)
      · exact hc2 r c h2t
      · rw [hu2 r c h2t]
        exact hc1 r c ⟨e, he1, hcell⟩
    · exact hc2 r c ⟨e, he2, hcell⟩
  · intro r c hnone
    rw [List.foldl_append]
    rw [hu2 r c (fun ⟨e, he, hc⟩ => hnone ⟨e, by simp [he], hc⟩)]
    exact hu1 r c (fun ⟨e, he, hc⟩ => hnone ⟨e, by simp [he], hc⟩)

theorem UnwindClears_append {poss : List (Nat × Nat × Nat)} {gw : Nat}
    {pd1 pd2 : List (Nat × Nat)}
    (hb2 : ∀ e ∈ pd2, (poss.getD e.2 (0, 0, 0)).1 < gw)
    (h1 : UnwindClears poss gw pd1) (h2 : UnwindClears poss gw pd2) :
    UnwindClears poss gw (pd1 ++ pd2) := by
  intro g hg hrows
  have hshape := foldU_shape pd2.reverse g hg hrows
    (fun e he => hb2 e (List.mem_reverse.1 he))
  obtain ⟨hc2, hu2⟩ := h2 g hg hrows
  obtain ⟨hc1, hu1⟩ := h1 _ hshape.1 hshape.2
  constructor
  · rintro r c ⟨e, he, hcell⟩
    rw [List.reverse_append, List.foldl_append]
    rcases List.mem_append.1 he with he1 | he2
    · exact hc1 r c ⟨e, he1, hcell⟩
    · by_cases h1t : ∃ e1 ∈ pd1, EventCell poss e1 = (r, c)
      · exact hc1 r c h1t
      · rw [hu1 r c h1t]
        exact hc2 r c ⟨e, he2, hcell⟩
  · intro r c hnone
    rw [List.reverse_append, List.foldl_append]
    rw [hu1 r c (fun ⟨e, he, hc⟩ => hnone ⟨e, by simp [he], hc⟩)]
    exact hu2 r c (fun ⟨e, he, hc⟩ => hnone ⟨e, by simp [he], hc⟩)

theorem ReplayClears_prepend_writes {poss : List (Nat × Nat × Nat)} {gw : Nat}
    {pd1 pd2 : List (Nat × Nat)} {D : List Nat}
    (hb1 : ∀ e ∈ pd1, (poss.getD e.2 (0, 0, 0)).1 < gw)
    (h1 : ReplayClears poss gw pd1) (h2 : ReplayWrites poss gw pd2 D) :
    ReplayWrites poss gw (pd1 ++ pd2) D := by
  intro g hg hrows
  have hshape := foldE_shape pd1 g hg hrows hb1
  obtain ⟨hc1, hu1⟩ := h1 g hg hrows
  obtain ⟨hw2, hc2, hu2⟩ := h2 _ hshape.1 hshape.2
  refine ⟨?_, ?_, ?_⟩
  · intro i hi
    rw [List.foldl_append]
    exact hw2 i hi
  · rintro r c ⟨e, he, hcell⟩ hnD
    rw [List.foldl_append]
    rcases List.mem_append.1 he with he1 | he2
    · by_cases h2t : ∃ e2 ∈ pd2, EventCell poss e2 = (r, c)
      · exact hc2 r c h2t hnD
      · rw [hu2 r c h2t]
        exact hc1 r c ⟨e, he1, hcell⟩
    · exact hc2 r c ⟨e, he2, hcell⟩ hnD
  · intro r c hnone
    rw [List.foldl_append]
    rw [hu2 r c (fun ⟨e, he, hc⟩ => hnone ⟨e, by simp [he], hc⟩)]
    exact hu1 r c (fun ⟨e, he, hc⟩ => hnone ⟨e, by simp [he], hc⟩)

theorem ReplayClears_iter {poss : List (Nat × Nat × Nat)} {gw : Nat}
    {pdSub : List (Nat × Nat)} {r0 : Nat}
    (hb0 : (poss.getD r0 (0, 0, 0)).1 < gw ∧ (poss.getD r0 (0, 0, 0)).2.1 < gw)
    (hbS : ∀ e ∈ pdSub, (poss.getD e.2 (0, 0, 0)).1 < gw)
    (hsub : ReplayClears poss gw pdSub) :
    ReplayClears poss gw ((1, r0) :: (pdSub ++ [(0, r0)])) := by
  intro g hg hrows
  have hg1len : (applyEvent poss g (1, r0)).length = gw := by
    rw [applyEvent_length, hg]
  have hg1rows : ∀ row ∈ applyEvent poss g (1, r0), row.length = gw :=
    applyEvent_rows hb0.1 hg hrows
  obtain ⟨hcS, huS⟩ := hsub _ hg1len hg1rows
  have hg2 := foldE_shape pdSub _ hg1len hg1rows hbS
  have hfold : ((1, r0) :: (pdSub ++ [(0, r0)])).foldl (applyEvent poss) g =
      applyEvent poss (pdSub.foldl (applyEvent poss) (applyEvent poss g (1, r0))) (0, r0) := by
    rw [List.foldl_cons, List.foldl_append]
    rfl
  have hcell0 : EventCell poss ((0 : Nat), r0) = EventCell poss ((1 : Nat), r0) := rfl
  constructor
  · rintro r c ⟨e, he, hcell⟩
    rw [hfold]
    by_cases hrc : EventCell poss ((1 : Nat), r0) = (r, c)
    · rw [gget_applyEvent_same (hcell0.trans hrc) hg2.1 hg2.2
        (by
          have h1 : (poss.getD r0 (0, 0, 0)).1 = r := congrArg Prod.fst hrc
          omega)
        (by
          have h2 : (poss.getD r0 (0, 0, 0)).2.1 = c := congrArg Prod.snd hrc
          omega)]
      simp
    · rw [gget_applyEvent_other (fun hh => hrc (hcell0 ▸ hh))]
      have heS : e ∈ pdSub := by
        rcases List.mem_cons.1 he with rfl | he2
        · exact absurd hcell hrc
        · rcases List.mem_append.1 he2 with h3 | h3
          · exact h3
          · simp at h3
            rw [h3] at hcell
            exact absurd hcell (fun hh => hrc hh)
      exact hcS r c ⟨e, heS, hcell⟩
  · intro r c hnone
    have hrc : EventCell poss ((1 : Nat), r0) ≠ (r, c) := by
      intro hh
      exact hnone ⟨(1, r0), by simp, hh⟩
    rw [hfold]
    rw [gget_applyEvent_other (fun hh => hrc (hcell0 ▸ hh))]
    rw [huS r c (fun ⟨e, he, hc⟩ => hnone ⟨e, by simp [he], hc⟩)]
    exact gget_applyEvent_other hrc

theorem UnwindClears_iter {poss : List (Nat × Nat × Nat)} {gw : Nat}
    {pdSub : List (Nat × Nat)} {r0 : Nat}
    (hb0 : (poss.getD r0 (0, 0, 0)).1 < gw ∧ (poss.getD r0 (0, 0, 0)).2.1 < gw)
    (hbS : ∀ e ∈ pdSub, (poss.getD e.2 (0, 0, 0)).1 < gw)
    (hsub : UnwindClears poss gw pdSub) :
    UnwindClears poss gw ((1, r0) :: (pdSub ++ [(0, r0)])) := by
  intro g hg hrows
  have hg1len : (unwindEvent poss g (0, r0)).length = gw := by
    rw [unwindEvent_length, hg]
  have hg1rows : ∀ row ∈ unwindEvent poss g (0, r0), row.length = gw :=
    unwindEvent_rows hb0.1 hg hrows
  obtain ⟨hcS, huS⟩ := hsub _ hg1len hg1rows
  have hg2 := foldU_shape pdSub.reverse _ hg1len hg1rows
    (fun e he => hbS e (List.mem_reverse.1 he))
  have hfold : ((1, r0) :: (pdSub ++ [(0, r0)])).reverse.foldl (unwindEvent poss) g =
      unwindEvent poss
        (pdSub.reverse.foldl (unwindEvent poss) (unwindEvent poss g (0, r0))) (1, r0) := by
    rw [List.reverse_cons, List.reverse_append, List.foldl_append, List.foldl_append]
    rfl
  have hcell0 : EventCell poss ((0 : Nat), r0) = EventCell poss ((1 : Nat), r0) := rfl
  constructor
  · rintro r c ⟨e, he, hcell⟩
    rw [hfold]
    by_cases hrc : EventCell poss ((1 : Nat), r0) = (r, c)
    · rw [gget_unwindEvent_same hrc hg2.1 hg2.2
        (by
          have h1 : (poss.getD r0 (0, 0, 0)).1 = r := congrArg Prod.fst hrc
          omega)
        (by
          have h2 : (poss.getD r0 (0, 0, 0)).2.1 = c := congrArg Prod.snd hrc
          omega)]
      simp
    · rw [gget_unwindEvent_other hrc]
      have heS : e ∈ pdSub := by
        rcases List.mem_cons.1 he with rfl | he2
        · exact absurd hcell hrc
        · rcases List.mem_append.1 he2 with h3 | h3
          · exact h3
          · simp at h3
            rw [h3] at hcell
            exact absurd hcell (fun hh => hrc (hcell0 ▸ hh))
      exact hcS r c ⟨e, heS, hcell⟩
  · intro r c hnone
    have hrc : EventCell poss ((1 : Nat), r0) ≠ (r, c) := by
      intro hh
      exact hnone ⟨(1, r0), by simp, hh⟩
    rw [hfold]
    rw [gget_unwindEvent_other hrc]
    rw [huS r c (fun ⟨e, he, hc⟩ => hnone ⟨e, by simp [he], hc⟩)]
    exact gget_unwindEvent_other (fun hh => hrc (hcell0 ▸ hh))

theorem UnwindClears_cons_ins {poss : List (Nat × Nat × Nat)} {gw : Nat}
    {pdSub : List (Nat × Nat)} {r0 : Nat}
    (hb0 : (poss.getD r0 (0, 0, 0)).1 < gw ∧ (poss.getD r0 (0, 0, 0)).2.1 < gw)
    (hbS : ∀ e ∈ pdSub, (poss.getD e.2 (0, 0, 0)).1 < gw)
    (hsub : UnwindClears poss gw pdSub) :
    UnwindClears poss gw ((1, r0) :: pdSub) := by
  intro g hg hrows
  obtain ⟨hcS, huS⟩ := hsub g hg hrows
  have hg2 := foldU_shape pdSub.reverse g hg hrows
    (fun e he => hbS e (List.mem_reverse.1 he))
  have hfold : ((1, r0) :: pdSub).reverse.foldl (unwindEvent poss) g =
      unwindEvent poss (pdSub.reverse.foldl (unwindEvent poss) g) (1, r0) := by
    rw [List.reverse_cons, List.foldl_append]
    rfl
  constructor
  · rintro r c ⟨e, he, hcell⟩
    rw [hfold]
    by_cases hrc : EventCell poss ((1 : Nat), r0) = (r, c)
    · rw [gget_unwindEvent_same hrc hg2.1 hg2.2
        (by
          have h1 : (poss.getD r0 (0, 0, 0)).1 = r := congrArg Prod.fst hrc
          omega)
        (by
          have h2 : (poss.getD r0 (0, 0, 0)).2.1 = c := congrArg Prod.snd hrc
          omega)]
      simp
    · rw [gget_unwindEvent_other hrc]
      have heS : e ∈ pdSub := by
        rcases List.mem_cons.1 he with rfl | he2
        · exact absurd hcell hrc
        · exact he2
      exact hcS r c ⟨e, heS, hcell⟩
  · intro r c hnone
    have hrc : EventCell poss ((1 : Nat), r0) ≠ (r, c) := by
      intro hh
      exact hnone ⟨(1, r0), by simp, hh⟩
    rw [hfold]
    rw [gget_unwindEvent_other hrc]
    exact huS r c (fun ⟨e, he, hc⟩ => hnone ⟨e, by simp [he], hc⟩)

theorem ReplayWrites_cons_ins {poss : List (Nat × Nat × Nat)} {gw : Nat}
    {pdSub : List (Nat × Nat)} {D1 : List Nat} {r0 : Nat}
    (hb0 : (poss.getD r0 (0, 0, 0)).1 < gw ∧ (poss.getD r0 (0, 0, 0)).2.1 < gw)
    (hdisj : ∀ e ∈ pdSub, EventCell poss e ≠ EventCell poss ((1 : Nat), r0))
    (hsub : ReplayWrites poss gw pdSub D1) :
    ReplayWrites poss gw ((1, r0) :: pdSub) (r0 :: D1) := by
  intro g hg hrows
  have hg1len : (applyEvent poss g (1, r0)).length = gw := by
    rw [applyEvent_length, hg]
  have hg1rows : ∀ row ∈ applyEvent poss g (1, r0), row.length = gw :=
    applyEvent_rows hb0.1 hg hrows
  obtain ⟨hwS, hcS, huS⟩ := hsub _ hg1len hg1rows
  have hfold : ((1, r0) :: pdSub).foldl (applyEvent poss) g =
      pdSub.foldl (applyEvent poss) (applyEvent poss g (1, r0)) := by
    rw [List.foldl_cons]
  refine ⟨?_, ?_, ?_⟩
  · intro i hi
    rcases List.mem_cons.1 hi with rfl | hi1
    · rw [hfold]
      rw [huS _ _ (fun ⟨e, he, hc⟩ => hdisj e he (hc.trans rfl))]
      rw [gget_applyEvent_same rfl hg hrows hb0.1 hb0.2]
      simp
    · rw [hfold]
      exact hwS i hi1
  · rintro r c ⟨e, he, hcell⟩ hnD
    have hrc : EventCell poss ((1 : Nat), r0) ≠ (r, c) := by
      intro hh
      exact hnD ⟨r0, by simp, congrArg Prod.fst hh, congrArg Prod.snd hh⟩
    have heS : e ∈ pdSub := by
      rcases List.mem_cons.1 he with rfl | he2
      · exact absurd hcell hrc
      · exact he2
    rw [hfold]
    exact hcS r c ⟨e, heS, hcell⟩
      (fun ⟨i, hi, h1, h2⟩ => hnD ⟨i, by simp [hi], h1, h2⟩)
  · intro r c hnone
    have hrc : EventCell poss ((1 : Nat), r0) ≠ (r, c) := by
      intro hh
      exact hnone ⟨(1, r0), by simp, hh⟩
    rw [hfold]
    rw [huS r c (fun ⟨e, he, hc⟩ => hnone ⟨e, by simp [he], hc⟩)]
    exact gget_applyEvent_other hrc

theorem ReplayClears_nil {poss : List (Nat × Nat × Nat)} {gw : Nat} :
    ReplayClears poss gw [] := by
  intro g hg hrows
  refine ⟨?_, ?_⟩
  · rintro r c ⟨e, he, _⟩
    simp at he
  · intro r c _
    rfl

theorem UnwindClears_nil {poss : List (Nat × Nat × Nat)} {gw : Nat} :
    UnwindClears poss gw [] := by
  intro g hg hrows
  refine ⟨?_, ?_⟩
  · rintro r c ⟨e, he, _⟩
    simp at he
  · intro r c _
    rfl

theorem ReplayWrites_nil {poss : List (Nat × Nat × Nat)} {gw : Nat} :
    ReplayWrites poss gw [] [] := by
  intro g hg hrows
  refine ⟨?_, ?_, ?_⟩
  · intro i hi
    simp at hi
  · rintro r c ⟨e, he, _⟩ _
    simp at he
  · intro r c _
    rfl

/-- A row that survives `select(r0, ...)` sits at a different grid cell
than `r0`: equal cells share the cell-constraint column, which `r0` covers
and which is active, so such a row would have been removed. -/
theorem cell_ne_after_select {sudoku : List (List Nat)} {grid_width block_width : Nat}
    {aR aC cAR cAC : List Nat} {r0 x : Nat}
    (hwf : GridWF sudoku grid_width)
    (hINV : ∀ y ∈ aR, ∀ c,
      coverGet (createCover sudoku grid_width block_width).1 y c ≠ 0 → c ∈ aC)
    (hlt : ∀ y ∈ aR, y < (possList sudoku sudoku.length grid_width).length)
    (hssR : SameSet cAR aR) (hssC : SameSet cAC aC) (hr0 : r0 ∈ aR)
    (hx : x ∈ setdiff1d cAR
      (selectF r0 (createCover sudoku grid_width block_width).1 cAR cAC).1) :
    (((possList sudoku sudoku.length grid_width).getD x (0, 0, 0)).1,
      ((possList sudoku sudoku.length grid_width).getD x (0, 0, 0)).2.1) ≠
    (((possList sudoku sudoku.length grid_width).getD r0 (0, 0, 0)).1,
      ((possList sudoku sudoku.length grid_width).getD r0 (0, 0, 0)).2.1) := by
  intro heq
  simp only [Prod.mk.injEq] at heq
  obtain ⟨h1, h2⟩ := heq
  rw [mem_setdiff1d] at hx
  obtain ⟨hxc, hxns⟩ := hx
  have hxA : x ∈ aR := (hssR x).1 hxc
  have hx_lt := hlt x hxA
  have hr0_lt := hlt r0 hr0
  have pb0 := possBounds_getD hwf hr0_lt
  have hcov_r0 : coverGet (createCover sudoku grid_width block_width).1 r0
      (((possList sudoku sudoku.length grid_width).getD r0 (0, 0, 0)).1 * grid_width +
        ((possList sudoku sudoku.length grid_width).getD r0 (0, 0, 0)).2.1) ≠ 0 :=
    (covers_cell_iff hwf hr0_lt pb0.1 pb0.2.1).2 ⟨rfl, rfl⟩
  have hcol_aC := hINV r0 hr0 _ hcov_r0
  have hcov_x : coverGet (createCover sudoku grid_width block_width).1 x
      (((possList sudoku sudoku.length grid_width).getD r0 (0, 0, 0)).1 * grid_width +
        ((possList sudoku sudoku.length grid_width).getD r0 (0, 0, 0)).2.1) ≠ 0 :=
    (covers_cell_iff hwf hx_lt pb0.1 pb0.2.1).2 ⟨h1, h2⟩
  exact hxns (mem_selectF_rows.2 ⟨hxc, _, (hssC _).2 hcol_aC, hcov_r0, hcov_x⟩)

/-- A fully backtracked run of the candidate loop appends an event
segment whose rows are active, whose replay clears every touched cell and
whose unwinding clears every touched cell. -/
theorem tryLoopFalse_replay {sudoku : List (List Nat)} {grid_width block_width : Nat}
    {recur : List Nat → List Nat → List Nat → List (Nat × Nat) →
      Option (Bool × List Nat × List (Nat × Nat))}
    {aR : List Nat}
    (hwf : GridWF sudoku grid_width)
    (hrecF : ∀ aR1 aC1 s p s2 p2,
      (∀ y ∈ aR1, y < (possList sudoku sudoku.length grid_width).length) →
      recur aR1 aC1 s p = some (false, s2, p2) →
      ∃ pd, p2 = p ++ pd ∧ (∀ e ∈ pd, e.2 ∈ aR1) ∧
        ReplayClears (possList sudoku sudoku.length grid_width) grid_width pd ∧
        UnwindClears (possList sudoku sudoku.length grid_width) grid_width pd)
    (hlt : ∀ y ∈ aR, y < (possList sudoku sudoku.length grid_width).length) :
    ∀ cands cAR cAC sol path sol2 path2,
      (∀ x ∈ cands, x ∈ aR) → SameSet cAR aR →
      tryLoop (createCover sudoku grid_width block_width).1 recur cands cAR cAC sol path =
        some (false, sol2, path2) →
      ∃ pd, path2 = path ++ pd ∧ (∀ e ∈ pd, e.2 ∈ aR) ∧
        ReplayClears (possList sudoku sudoku.length grid_width) grid_width pd ∧
        UnwindClears (possList sudoku sudoku.length grid_width) grid_width pd := by
  intro cands
  induction cands with
  | nil =>
    intro cAR cAC sol path sol2 path2 _ _ h
    simp only [tryLoop] at h
    injection h with h
    injection h with h1 h2
    injection h2 with h2 h3
    refine ⟨[], by simp [h3], by simp, ReplayClears_nil, UnwindClears_nil⟩
  | cons r rs ih =>
    intro cAR cAC sol path sol2 path2 hcands hssR h
    have hrA : r ∈ aR := hcands r (by simp)
    simp only [tryLoop] at h
    cases hrc : recur
        (setdiff1d cAR (selectF r (createCover sudoku grid_width block_width).1 cAR cAC).1)
        (setdiff1d cAC (selectF r (createCover sudoku grid_width block_width).1 cAR cAC).2)
        (sol ++ [r]) (path ++ [(1, r)]) with
    | none => rw [hrc] at h; simp at h
    | some v =>
      obtain ⟨b, s2, p2⟩ := v
      rw [hrc] at h
      cases b with
      | true => simp at h
      | false =>
        simp only at h
        have hlt1 : ∀ y ∈ setdiff1d cAR
            (selectF r (createCover sudoku grid_width block_width).1 cAR cAC).1,
            y < (possList sudoku sudoku.length grid_width).length := by
          intro y hy
          exact hlt y ((hssR y).1 (mem_setdiff1d.1 hy).1)
        obtain ⟨pdSub, hp2, hrows1, hRC, hUC⟩ := hrecF _ _ _ _ _ _ hlt1 hrc
        obtain ⟨pdRest, hpr, hrows2, hRC2, hUC2⟩ := ih _ _ _ _ _ _
          (fun x hx => hcands x (by simp [hx]))
          (sameSet_trans deselect_sameSet_rows hssR) h
        have hrowsSubA : ∀ e ∈ pdSub, e.2 ∈ aR := by
          intro e he
          exact (hssR e.2).1 (mem_setdiff1d.1 (hrows1 e he)).1
        have pb := possBounds_getD hwf (hlt r hrA)
        have hbS : ∀ e ∈ pdSub,
            ((possList sudoku sudoku.length grid_width).getD e.2 (0, 0, 0)).1 <
              grid_width := by
          intro e he
          exact (possBounds_getD hwf (hlt e.2 (hrowsSubA e he))).1
        refine ⟨((1, r) :: (pdSub ++ [(0, r)])) ++ pdRest, ?_, ?_, ?_, ?_⟩
        · rw [hpr, hp2]
          simp
        · intro e he
          rcases List.mem_append.1 he with he1 | he2
          · rcases List.mem_cons.1 he1 with rfl | he3
            · exact hrA
            · rcases List.mem_append.1 he3 with he4 | he4
              · exact hrowsSubA e he4
              · rw [List.mem_singleton.1 he4]
                exact hrA
          · exact hrows2 e he2
        · refine ReplayClears_append ?_ (ReplayClears_iter ⟨pb.1, pb.2.1⟩ hbS hRC) hRC2
          intro e he
          rcases List.mem_cons.1 he with rfl | he1
          · exact pb.1
          · rcases List.mem_append.1 he1 with he2 | he2
            · exact hbS e he2
            · rw [List.mem_singleton.1 he2]
              exact pb.1
        · refine UnwindClears_append ?_ (UnwindClears_iter ⟨pb.1, pb.2.1⟩ hbS hUC) hUC2
          intro e he
          exact (possBounds_getD hwf (hlt e.2 (hrows2 e he))).1

/-- A successful run of the candidate loop appends the selected rows `D`
to the solution and an event segment whose replay writes exactly the
digits of `D` (clearing every other touched cell) and whose unwinding
clears every touched cell; every selection has an event. -/
theorem tryLoopTrue_replay {sudoku : List (List Nat)} {grid_width block_width : Nat}
    {recur : List Nat → List Nat → List Nat → List (Nat × Nat) →
      Option (Bool × List Nat × List (Nat × Nat))}
    {aR aC : List Nat}
    (hwf : GridWF sudoku grid_width)
    (hrecS : ∀ a b c d e g, recur a b c d = some (false, e, g) → e = c)
    (hrecF : ∀ aR1 aC1 s p s2 p2,
      (∀ y ∈ aR1, y < (possList sudoku sudoku.length grid_width).length) →
      recur aR1 aC1 s p = some (false, s2, p2) →
      ∃ pd, p2 = p ++ pd ∧ (∀ e ∈ pd, e.2 ∈ aR1) ∧
        ReplayClears (possList sudoku sudoku.length grid_width) grid_width pd ∧
        UnwindClears (possList sudoku sudoku.length grid_width) grid_width pd)
    (hrecT : ∀ aR1 aC1 s p s2 p2,
      (∀ y ∈ aR1, y < (possList sudoku sudoku.length grid_width).length) →
      (∀ y ∈ aR1, ∀ c,
        coverGet (createCover sudoku grid_width block_width).1 y c ≠ 0 → c ∈ aC1) →
      recur aR1 aC1 s p = some (true, s2, p2) →
      ∃ D pd, s2 = s ++ D ∧ p2 = p ++ pd ∧ (∀ e ∈ pd, e.2 ∈ aR1) ∧
        (∀ i ∈ D, ∃ e ∈ pd, e.2 = i) ∧
        ReplayWrites (possList sudoku sudoku.length grid_width) grid_width pd D ∧
        UnwindClears (possList sudoku sudoku.length grid_width) grid_width pd)
    (hINV : ∀ y ∈ aR, ∀ c,
      coverGet (createCover sudoku grid_width block_width).1 y c ≠ 0 → c ∈ aC)
    (hlt : ∀ y ∈ aR, y < (possList sudoku sudoku.length grid_width).length) :
    ∀ cands cAR cAC sol path sol2 path2,
      (∀ x ∈ cands, x ∈ aR) → SameSet cAR aR → SameSet cAC aC →
      tryLoop (createCover sudoku grid_width block_width).1 recur cands cAR cAC sol path =
        some (true, sol2, path2) →
      ∃ D pd, sol2 = sol ++ D ∧ path2 = path ++ pd ∧ (∀ e ∈ pd, e.2 ∈ aR) ∧
        (∀ i ∈ D, ∃ e ∈ pd, e.2 = i) ∧
        ReplayWrites (possList sudoku sudoku.length grid_width) grid_width pd D ∧
        UnwindClears (possList sudoku sudoku.length grid_width) grid_width pd := by
  intro cands
  induction cands with
  | nil =>
    intro cAR cAC sol path sol2 path2 _ _ _ h
    simp [tryLoop] at h
  | cons r rs ih =>
    intro cAR cAC sol path sol2 path2 hcands hssR hssC h
    have hrA : r ∈ aR := hcands r (by simp)
    have pb := possBounds_getD hwf (hlt r hrA)
    have hlt1 : ∀ y ∈ setdiff1d cAR
        (selectF r (createCover sudoku grid_width block_width).1 cAR cAC).1,
        y < (possList sudoku sudoku.length grid_width).length := by
      intro y hy
      exact hlt y ((hssR y).1 (mem_setdiff1d.1 hy).1)
    have memaC1 : ∀ c, c ∈ setdiff1d cAC
        (selectF r (createCover sudoku grid_width block_width).1 cAR cAC).2 ↔
        c ∈ aC ∧ coverGet (createCover sudoku grid_width block_width).1 r c = 0 := by
      intro c
      rw [mem_setdiff1d, mem_selectF_cols, hssC c]
      constructor
      · rintro ⟨hc, hnc⟩
        refine ⟨hc, ?_⟩
        by_contra hcc
        exact hnc ⟨hc, hcc⟩
      · rintro ⟨hc, hz⟩
        exact ⟨hc, fun hh => hh.2 hz⟩
    have memaR1 : ∀ x, x ∈ setdiff1d cAR
        (selectF r (createCover sudoku grid_width block_width).1 cAR cAC).1 ↔
        x ∈ aR ∧ ¬∃ c ∈ aC, coverGet (createCover sudoku grid_width block_width).1 r c ≠ 0 ∧
          coverGet (createCover sudoku grid_width block_width).1 x c ≠ 0 := by
      intro x
      rw [mem_setdiff1d, mem_selectF_rows, hssR x]
      constructor
      · rintro ⟨hx, hnx⟩
        refine ⟨hx, ?_⟩
        rintro ⟨c, hc, hrc, hxc⟩
        exact hnx ⟨hx, c, (hssC c).2 hc, hrc, hxc⟩
      · rintro ⟨hx, hne⟩
        refine ⟨hx, ?_⟩
        rintro ⟨_, c, hc, hrc, hxc⟩
        exact hne ⟨c, (hssC c).1 hc, hrc, hxc⟩
    have hINV1 : ∀ x ∈ setdiff1d cAR
        (selectF r (createCover sudoku grid_width block_width).1 cAR cAC).1, ∀ c,
        coverGet (createCover sudoku grid_width block_width).1 x c ≠ 0 →
        c ∈ setdiff1d cAC
          (selectF r (createCover sudoku grid_width block_width).1 cAR cAC).2 := by
      intro x hx c hxc
      rw [memaR1] at hx
      obtain ⟨hxA, hnx⟩ := hx
      have hcA : c ∈ aC := hINV x hxA c hxc
      rw [memaC1]
      refine ⟨hcA, ?_⟩
      by_contra hrc
      exact hnx ⟨c, hcA, hrc, hxc⟩
    simp only [tryLoop] at h
    cases hrc : recur
        (setdiff1d cAR (selectF r (createCover sudoku grid_width block_width).1 cAR cAC).1)
        (setdiff1d cAC (selectF r (createCover sudoku grid_width block_width).1 cAR cAC).2)
        (sol ++ [r]) (path ++ [(1, r)]) with
    | none => rw [hrc] at h; simp at h
    | some v =>
      obtain ⟨b, s2', p2'⟩ := v
      rw [hrc] at h
      cases b with
      | true =>
        simp only [Option.some_inj, Prod.mk.injEq, true_and] at h
        obtain ⟨h2, h3⟩ := h
        subst h2
        subst h3
        obtain ⟨D1, pdSub, hs, hp, hrows1, hcov1, hRW, hUC⟩ :=
          hrecT _ _ _ _ _ _ hlt1 hINV1 hrc
        refine ⟨r :: D1, (1, r) :: pdSub, ?_, ?_, ?_, ?_, ?_, ?_⟩
        · rw [hs]
          simp
        · rw [hp]
          simp
        · intro e he
          rcases List.mem_cons.1 he with rfl | he1
          · exact hrA
          · exact (hssR e.2).1 (mem_setdiff1d.1 (hrows1 e he1)).1
        · intro i hi
          rcases List.mem_cons.1 hi with rfl | hi1
          · exact ⟨(1, i), by simp⟩
          · obtain ⟨e, he, hei⟩ := hcov1 i hi1
            exact ⟨e, by simp [he], hei⟩
        · refine ReplayWrites_cons_ins ⟨pb.1, pb.2.1⟩ ?_ hRW
          intro e he
          exact cell_ne_after_select hwf hINV hlt hssR hssC hrA (hrows1 e he)
        · refine UnwindClears_cons_ins ⟨pb.1, pb.2.1⟩ ?_ hUC
          intro e he
          exact (possBounds_getD hwf
            (hlt1 e.2 (hrows1 e he))).1
      | false =>
        simp only at h
        have hs2 : s2' = sol ++ [r] := hrecS _ _ _ _ _ _ hrc
        have hdrop : s2'.dropLast = sol := by rw [hs2, dropLast_concat_self]
        rw [hdrop] at h
        obtain ⟨pdSub, hp2, hrows1, hRC, hUC⟩ := hrecF _ _ _ _ _ _ hlt1 hrc
        obtain ⟨D, pdRest, hsD, hpr, hrows2, hcov2, hRW2, hUC2⟩ := ih _ _ _ _ _ _
          (fun x hx => hcands x (by simp [hx]))
          (sameSet_trans deselect_sameSet_rows hssR)
          (sameSet_trans deselect_sameSet_cols hssC) h
        have hrowsSubA : ∀ e ∈ pdSub, e.2 ∈ aR := by
          intro e he
          exact (hssR e.2).1 (mem_setdiff1d.1 (hrows1 e he)).1
        have hbS : ∀ e ∈ pdSub,
            ((possList sudoku sudoku.length grid_width).getD e.2 (0, 0, 0)).1 <
              grid_width := by
          intro e he
          exact (possBounds_getD hwf (hlt e.2 (hrowsSubA e he))).1
        refine ⟨D, ((1, r) :: (pdSub ++ [(0, r)])) ++ pdRest, hsD, ?_, ?_, ?_, ?_, ?_⟩
        · rw [hpr, hp2]
          simp
        · intro e he
          rcases List.mem_append.1 he with he1 | he2
          · rcases List.mem_cons.1 he1 with rfl | he3
            · exact hrA
            · rcases List.mem_append.1 he3 with he4 | he4
              · exact hrowsSubA e he4
              · rw [List.mem_singleton.1 he4]
                exact hrA
          · exact hrows2 e he2
        · intro i hi
          obtain ⟨e, he, hei⟩ := hcov2 i hi
          exact ⟨e, List.mem_append.2 (Or.inr he), hei⟩
        · refine ReplayClears_prepend_writes ?_
            (ReplayClears_iter ⟨pb.1, pb.2.1⟩ hbS hRC) hRW2
          intro e he
          rcases List.mem_cons.1 he with rfl | he1
          · exact pb.1
          · rcases List.mem_append.1 he1 with he2 | he2
            · exact hbS e he2
            · rw [List.mem_singleton.1 he2]
              exact pb.1
        · refine UnwindClears_append ?_
            (UnwindClears_iter ⟨pb.1, pb.2.1⟩ hbS hUC) hUC2
          intro e he
          exact (possBounds_getD hwf (hlt e.2 (hrows2 e he))).1

/-- Replay/unwind behaviour of the full search, by fuel induction: a
failed call appends a self-cancelling event segment; a successful call
appends the selected rows `D` and an event segment whose replay writes
exactly the digits of `D` and whose unwinding clears every touched
cell. -/
theorem solveFuel_replay {sudoku : List (List Nat)} {grid_width block_width : Nat}
    (hwf : GridWF sudoku grid_width) :
    ∀ f,
      (∀ aR aC sol path sol2 path2,
        (∀ y ∈ aR, y < (possList sudoku sudoku.length grid_width).length) →
        solveFuel (createCover sudoku grid_width block_width).1 f aR aC sol path =
          some (false, sol2, path2) →
        ∃ pd, path2 = path ++ pd ∧ (∀ e ∈ pd, e.2 ∈ aR) ∧
          ReplayClears (possList sudoku sudoku.length grid_width) grid_width pd ∧
          UnwindClears (possList sudoku sudoku.length grid_width) grid_width pd) ∧
      (∀ aR aC sol path sol2 path2,
        (∀ y ∈ aR, y < (possList sudoku sudoku.length grid_width).length) →
        (∀ y ∈ aR, ∀ c,
          coverGet (createCover sudoku grid_width block_width).1 y c ≠ 0 → c ∈ aC) →
        solveFuel (createCover sudoku grid_width block_width).1 f aR aC sol path =
          some (true, sol2, path2) →
        ∃ D pd, sol2 = sol ++ D ∧ path2 = path ++ pd ∧ (∀ e ∈ pd, e.2 ∈ aR) ∧
          (∀ i ∈ D, ∃ e ∈ pd, e.2 = i) ∧
          ReplayWrites (possList sudoku sudoku.length grid_width) grid_width pd D ∧
          UnwindClears (possList sudoku sudoku.length grid_width) grid_width pd) := by
  intro f
  induction f with
  | zero =>
    constructor
    · intro aR aC sol path sol2 path2 _ h
      simp [solveFuel] at h
    · intro aR aC sol path sol2 path2 _ _ h
      simp [solveFuel] at h
  | succ f ih =>
    constructor
    · intro aR aC sol path sol2 path2 hlt h
      simp only [solveFuel] at h
      by_cases hemp : aC.isEmpty
      · simp [hemp] at h
      · simp only [hemp, if_false, Bool.false_eq_true] at h
        by_cases h0 : (minCol (createCover sudoku grid_width block_width).1 aR aC).2 = 0
        · simp only [h0, if_true, if_pos] at h
          injection h with h
          injection h with h1 h2
          injection h2 with h2 h3
          refine ⟨[], by simp [h3], by simp, ReplayClears_nil, UnwindClears_nil⟩
        · simp only [h0, if_false] at h
          exact tryLoopFalse_replay hwf
            (fun a b c d e g hl hh => ih.1 a b c d e g hl hh) hlt
            _ _ _ _ _ _ _
            (fun x hx => (List.mem_filter.1 hx).1) (fun x => Iff.rfl) h
    · intro aR aC sol path sol2 path2 hlt hINV h
      simp only [solveFuel] at h
      by_cases hemp : aC.isEmpty
      · simp only [hemp, if_true, if_pos, Option.some_inj, Prod.mk.injEq, true_and] at h
        obtain ⟨h1, h2⟩ := h
        refine ⟨[], [], by simp [h1], by simp [h2], by simp, by simp,
          ReplayWrites_nil, UnwindClears_nil⟩
      · simp only [hemp, if_false, Bool.false_eq_true] at h
        by_cases h0 : (minCol (createCover sudoku grid_width block_width).1 aR aC).2 = 0
        · simp [h0] at h
        · simp only [h0, if_false] at h
          exact tryLoopTrue_replay hwf
            (fun a b c d e g hh => solveFuel_false _ a b c d e g hh)
            (fun a b c d e g hl hh => ih.1 a b c d e g hl hh)
            (fun a b c d e g hl hin hh => ih.2 a b c d e g hl hin hh)
            hINV hlt _ _ _ _ _ _ _
            (fun x hx => (List.mem_filter.1 hx).1) (fun x => Iff.rfl) (fun x => Iff.rfl) h

theorem replayPath_eq_foldE (poss : List (Nat × Nat × Nat)) (g : List (List Nat))
    (path : List (Nat × Nat)) :
    replayPath g (buildSolvingPath poss path) = path.foldl (applyEvent poss) g := by
  rw [buildSolvingPath_eq_map, replayPath, List.foldl_map]
  rfl

theorem unwindPath_eq_foldU (poss : List (Nat × Nat × Nat)) (g : List (List Nat))
    (path : List (Nat × Nat)) :
    unwindPath g (buildSolvingPath poss path) =
      path.reverse.foldl (unwindEvent poss) g := by
  rw [buildSolvingPath_eq_map, unwindPath, ← List.map_reverse, List.foldl_map]
  rfl

/-- C6: replaying the returned solutionPath in order against the original
grid ends in exactly the completed grid; unwinding all actions in reverse
(inverting each ins to a removal and each rem to an insertion) starting
from the completed grid yields the all-zeros grid — not the original input
grid, whose givens are cleared along with everything else. -/
theorem claim_C6_round_trip {sudoku : List (List Nat)} {grid_width block_width : Nat}
    {sol : List Nat} {path : List (Nat × Nat)}
    (hwf : GridWF sudoku grid_width)
    (hsolve : solveFuel (createCover sudoku grid_width block_width).1 (fuelFor sudoku)
      (List.range (createCover sudoku grid_width block_width).1.length)
      (List.range (4 * sudoku.length * sudoku.length)) [] [] = some (true, sol, path)) :
    (solveSudoku sudoku grid_width block_width).2 =
      some (buildSolvingPath (createCover sudoku grid_width block_width).2 path) ∧
    replayPath sudoku (buildSolvingPath (createCover sudoku grid_width block_width).2 path) =
      buildFinalSudoku (createCover sudoku grid_width block_width).2 sol sudoku ∧
    unwindPath (buildFinalSudoku (createCover sudoku grid_width block_width).2 sol sudoku)
      (buildSolvingPath (createCover sudoku grid_width block_width).2 path) =
      zerosLike sudoku := by
  have hposs : (createCover sudoku grid_width block_width).2 =
      possList sudoku sudoku.length grid_width := rfl
  have hlt0 : ∀ y ∈ List.range (createCover sudoku grid_width block_width).1.length,
      y < (possList sudoku sudoku.length grid_width).length := by
    intro y hy
    rw [List.mem_range, createCover_length] at hy
    exact hy
  have hINV0 : ∀ y ∈ List.range (createCover sudoku grid_width block_width).1.length,
      ∀ c, coverGet (createCover sudoku grid_width block_width).1 y c ≠ 0 →
        c ∈ List.range (4 * sudoku.length * sudoku.length) := by
    intro y hy c hyc
    rw [List.mem_range, createCover_length] at hy
    rw [coverGet_createCover hy] at hyc
    rw [List.mem_range]
    by_contra hc4
    simp [hc4] at hyc
  obtain ⟨D, pd, hD, hpd, hrows, hcov, hRW, hUC⟩ :=
    (solveFuel_replay hwf (fuelFor sudoku)).2 _ _ [] [] sol path hlt0 hINV0 hsolve
  rw [List.nil_append] at hD hpd
  subst hD
  subst hpd
  have hrowsLt : ∀ e ∈ path, e.2 < (possList sudoku sudoku.length grid_width).length :=
    fun e he => hlt0 e.2 (hrows e he)
  have hbound : ∀ e ∈ path,
      ((possList sudoku sudoku.length grid_width).getD e.2 (0, 0, 0)).1 < grid_width :=
    fun e he => (possBounds_getD hwf (hrowsLt e he)).1
  have hfwf := final_wf hwf hsolve
  refine ⟨by simp [solveSudoku, hsolve], ?_, ?_⟩
  · rw [hposs, replayPath_eq_foldE]
    obtain ⟨hW, hC, hU⟩ := hRW sudoku hwf.1 (fun row hr => hwf.2.1 row hr)
    have hshape := foldE_shape path sudoku hwf.1 (fun row hr => hwf.2.1 row hr) hbound
    apply grid_ext hshape.1 hfwf.1 hshape.2 hfwf.2.1
    intro r hr c hc
    obtain ⟨i, hisol, hilen, hi1, hi2, hival, _⟩ := final_cell hwf hsolve hr hc
    have hWi := hW i hisol
    rw [hi1, hi2] at hWi
    rw [hival]
    exact hWi
  · rw [hposs, unwindPath_eq_foldU]
    obtain ⟨hUC1, hUC2⟩ := hUC
      (buildFinalSudoku (createCover sudoku grid_width block_width).2 sol sudoku)
      hfwf.1 hfwf.2.1
    have hshape := foldU_shape path.reverse
      (buildFinalSudoku (createCover sudoku grid_width block_width).2 sol sudoku)
      hfwf.1 hfwf.2.1 (fun e he => hbound e (List.mem_reverse.1 he))
    apply grid_ext hshape.1 (by rw [zerosLike_length, hwf.1])
      hshape.2 (zerosLike_rows_length (fun row hr => hwf.2.1 row hr))
    intro r hr c hc
    rw [gget_zerosLike]
    obtain ⟨i, hisol, hilen, hi1, hi2, _, _⟩ := final_cell hwf hsolve hr hc
    obtain ⟨e, he, hei⟩ := hcov i hisol
    have hcell : EventCell (possList sudoku sudoku.length grid_width) e = (r, c) := by
      unfold EventCell
      rw [hei, hi1, hi2]
    exact hUC1 r c ⟨e, he, hcell⟩

/-- C6 counterexample: on the already solved grid `[[1]]` the solver
succeeds with one `ins` action; replaying it reproduces the completed
grid, but unwinding it from the completed grid clears the given digit,
yielding `[[0]]` rather than the original input `[[1]]`. -/
theorem claim_C6_counterexample :
    (solveSudoku [[1]] 1 1).1 = some [[1]] ∧
    (solveSudoku [[1]] 1 1).2 = some [("ins", 0, 0, 1)] ∧
    replayPath [[1]] [("ins", 0, 0, 1)] = [[1]] ∧
    unwindPath [[1]] [("ins", 0, 0, 1)] ≠ [[1]] := by
  refine ⟨?_, ?_, ?_, ?_⟩ <;> decide

theorem claim_C6_witness :
    (GridWF [[0]] 1 ∧
      solveFuel (createCover [[0]] 1 1).1 (fuelFor [[0]])
        (List.range (createCover [[0]] 1 1).1.length)
        (List.range (4 * ([[0]] : List (List Nat)).length * ([[0]] : List (List Nat)).length))
        [] [] = some (true, [0], [(1, 0)])) ∧
    ((solveSudoku [[0]] 1 1).2 =
       some (buildSolvingPath (createCover [[0]] 1 1).2 [(1, 0)]) ∧
     replayPath [[0]] (buildSolvingPath (createCover [[0]] 1 1).2 [(1, 0)]) =
       buildFinalSudoku (createCover [[0]] 1 1).2 [0] [[0]] ∧
     unwindPath (buildFinalSudoku (createCover [[0]] 1 1).2 [0] [[0]])
       (buildSolvingPath (createCover [[0]] 1 1).2 [(1, 0)]) = zerosLike [[0]]) := by
  have hwf : GridWF [[0]] 1 := by
    refine ⟨rfl, by simp, ?_⟩
    intro r c
    rcases r with _ | r <;> rcases c with _ | c <;> simp [gget]
  have hsolve : solveFuel (createCover [[0]] 1 1).1 (fuelFor [[0]])
      (List.range (createCover [[0]] 1 1).1.length)
      (List.range (4 * ([[0]] : List (List Nat)).length * ([[0]] : List (List Nat)).length))
      [] [] = some (true, [0], [(1, 0)]) := by decide
  exact ⟨⟨hwf, hsolve⟩, claim_C6_round_trip hwf hsolve⟩
